import Mathlib

/-!
# scpwrap: a verification development

A shallow embedding of `scpwrap.c` (a wrapper around `scp` that turns the
progress meter into templated text) and theorems about it.

Conventions of the embedding

* A `char` is a natural number (its byte value, `0..255`); a buffer or a C
  string is a `List Nat`.  A function that reads a C string stops at the first
  NUL byte or at the end of the list, whichever comes first (`cstr`).
* `printf` to standard output is modelled by returning the bytes written.
* The global `ESCAPE_JS` is the parameter `escapeJs`.  Whether plain `char` is
  signed is left to the C implementation; it is the parameter `charSigned`
  (`true` for gcc on x86 and x86-64).
-/

namespace Scpwrap

/-! ## Bytes and C strings -/

/-- Byte values of an ASCII string literal. -/
def bytes (s : String) : List Nat := s.toList.map Char.toNat

/-- The C string stored at the start of a buffer: the bytes before the first NUL. -/
def cstr (s : List Nat) : List Nat := s.takeWhile (fun c => c != 0)

/-- `strlen` -/
def strlen (s : List Nat) : Nat := (cstr s).length

/-- `#define STDERR_BUFSIZE 1024` -/
def STDERR_BUFSIZE : Nat := 1024

/-- `#define STDOUT_BUFSIZE 1024` -/
def STDOUT_BUFSIZE : Nat := 1024

/-- `static char* TXT_STDOUT_TEMPLATE = "";` -/
def TXT_STDOUT_TEMPLATE : List Nat := bytes ""
/-- `static char* TXT_STDERR_TEMPLATE = "";` -/
def TXT_STDERR_TEMPLATE : List Nat := bytes ""
/-- `static char* TXT_START_TEMPLATE = "";` -/
def TXT_START_TEMPLATE : List Nat := bytes ""
/-- `static char* TXT_PROGRESS_TEMPLATE = "%p\n";` (the C literal ends in a newline byte) -/
def TXT_PROGRESS_TEMPLATE : List Nat := bytes "%p\n"
/-- `static char* TXT_END_TEMPLATE = "";` -/
def TXT_END_TEMPLATE : List Nat := bytes ""

/-- `JS_STDOUT_TEMPLATE` -/
def JS_STDOUT_TEMPLATE : List Nat := bytes "ui.addOutput(\"%s\");\n"
/-- `JS_STDERR_TEMPLATE` -/
def JS_STDERR_TEMPLATE : List Nat := bytes "ui.addOutputError(\"%s\");\n"
/-- `JS_START_TEMPLATE` -/
def JS_START_TEMPLATE : List Nat := bytes "var sp = ui.startScpProgress();\n"
/-- `JS_PROGRESS_TEMPLATE` -/
def JS_PROGRESS_TEMPLATE : List Nat := bytes "sp.setProgress(\"%f\", %p, \"%t\", \"%s\", \"%e\");\n"
/-- `JS_END_TEMPLATE` -/
def JS_END_TEMPLATE : List Nat := bytes "ui.stopScpProgress(%c);\n"

/-! ## printjs -/

/-- The value of `str[i]` after integer promotion: a byte of 128 or more is
negative where plain `char` is signed. -/
def charValue (charSigned : Bool) (b : Nat) : Int :=
  if charSigned = true ∧ 128 ≤ b then (b : Int) - 256 else (b : Int)

/-- One lower-case hexadecimal digit, as `printf` writes it. -/
def hexDigit (d : Nat) : Nat := if d < 10 then 48 + d else 87 + d

/-- `printf("%04x", v)` for an `int` argument: the argument is read as a 32-bit
unsigned value and written in hexadecimal, zero-padded to at least four digits. -/
def fmt04x (v : Int) : List Nat :=
  let u := (v % 4294967296).toNat
  let nibbles := [u / 268435456 % 16, u / 16777216 % 16, u / 1048576 % 16, u / 65536 % 16,
                  u / 4096 % 16, u / 256 % 16, u / 16 % 16, u % 16]
  let digits := nibbles.dropWhile (fun d => d == 0)
  (List.replicate (4 - digits.length) 0 ++ digits).map hexDigit

/-- The body of the `for` loop of `printjs`: the `switch (str[i])`. -/
def printjsChar (charSigned : Bool) (b : Nat) : List Nat :=
  let c := charValue charSigned b
  if c = 0 then [92, 48]
  else if c = 8 then [92, 98]
  else if c = 9 then [92, 116]
  else if c = 10 then [92, 110]
  else if c = 13 then [92, 114]
  else if c = 11 then [92, 118]
  else if c = 12 then [92, 102]
  else if c = 34 then [92, 34]
  else if c = 39 then [92, 39]
  else if c = 92 then [92, 92]
  else if c > 31 ∧ c < 127 then [b]
  else [92, 117] ++ fmt04x c

/-- `void printjs (char *str)`: the bytes it writes. -/
def printjs (charSigned : Bool) : List Nat → List Nat
  | [] => []
  | b :: rest => if b = 0 then [] else printjsChar charSigned b ++ printjs charSigned rest

/-! ## printfmt -/

/-- How a call of `printfmt` ended. -/
inductive FmtStatus where
  /-- the loop reached the end of the format string -/
  | done
  /-- `return -1` ("weird thing in brace") -/
  | malformed
  /-- `params[paramIdx]` was read with `paramIdx` outside `0..nparam-1` -/
  | outOfRange
  deriving DecidableEq, Repr

/-- What a call of `printfmt` wrote, and how it ended. -/
structure FmtResult where
  out : List Nat
  status : FmtStatus
  deriving DecidableEq, Repr

/-- Bytes written before the rest of the call. -/
def FmtResult.emit (o : List Nat) (r : FmtResult) : FmtResult :=
  { r with out := o ++ r.out }

/-- 32-bit two's-complement wrap of an `int` computation. -/
def wrap32 (x : Int) : Int := (x + 2147483648) % 4294967296 - 2147483648

/-- The `switch (format[i])` of the `inEscape` branch. -/
def escapeChar (c : Nat) : Nat :=
  if c = 110 then 10
  else if c = 114 then 13
  else if c = 116 then 9
  else if c = 123 then 123
  else if c = 92 then 92
  else c

/-- `params[paramIdx]`, when the index is inside the array. -/
def paramAt (params : List (List Nat)) (paramIdx : Int) : Option (List Nat) :=
  if 0 ≤ paramIdx then params.get? paramIdx.toNat else none

/-- The main loop of `printfmt` from position `i` on: the argument list is
`format[i..]`, and `inBrace`, `inEscape`, `paramIdx` are the locals. -/
def printfmtLoop (escapeJs charSigned : Bool) (params : List (List Nat)) :
    List Nat → Bool → Bool → Int → FmtResult
  | [], _, _, _ => ⟨[], .done⟩
  | c :: rest, inBrace, inEscape, paramIdx =>
    if c = 0 then ⟨[], .done⟩
    else if inEscape then
      (printfmtLoop escapeJs charSigned params rest inBrace false paramIdx).emit [escapeChar c]
    else if inBrace then
      if 48 ≤ c ∧ c ≤ 57 then
        printfmtLoop escapeJs charSigned params rest true false
          (wrap32 (paramIdx * 10 + ((c : Int) - 48)))
      else if c = 125 then
        match paramAt params paramIdx with
        | none => ⟨[], .outOfRange⟩
        | some p =>
          (printfmtLoop escapeJs charSigned params rest false false paramIdx).emit
            (if escapeJs then printjs charSigned p else cstr p)
      else ⟨[], .malformed⟩
    else
      if c = 123 then printfmtLoop escapeJs charSigned params rest true false 0
      else if c = 92 then printfmtLoop escapeJs charSigned params rest false true paramIdx
      else (printfmtLoop escapeJs charSigned params rest false false paramIdx).emit [c]

/-- `int printfmt (int nparam, const char *format, ...)`: `params` are the
variadic arguments, of which the first `nparam` are copied into the local array. -/
def printfmt (escapeJs charSigned : Bool) (nparam : Nat) (format : List Nat)
    (params : List (List Nat)) : FmtResult :=
  printfmtLoop escapeJs charSigned (params.take nparam) format false false 0

/-! ## str_replace and the translation of the user placeholders -/

/-- `strstr(haystack, needle)`: offset of the first occurrence, if any. -/
def strstr : List Nat → List Nat → Option Nat
  | [], needle => if needle = [] then some 0 else none
  | c :: cs, needle =>
    if needle.isPrefixOf (c :: cs) then some 0 else (strstr cs needle).map (fun k => k + 1)

/-- The `while` loop of `str_replace`, run for at most `fuel` iterations: `none`
when the loop is still running after `fuel` iterations.  One iteration copies the
text before the occurrence, the replacement, and the text after the occurrence
into the new string. -/
def str_replaceLoop (substr replacement : List Nat) : Nat → List Nat → Option (List Nat)
  | 0, newstr =>
    match strstr newstr substr with
    | none => some newstr
    | some _ => none
  | fuel + 1, newstr =>
    match strstr newstr substr with
    | none => some newstr
    | some tok =>
      str_replaceLoop substr replacement fuel
        (newstr.take tok ++ replacement ++ newstr.drop (tok + substr.length))

/-- `char *str_replace (const char *string, const char *substr, const char *replacement)`
with non-NULL `substr` and `replacement` (as at every call in `main`) and `malloc`
succeeding. -/
def str_replace (fuel : Nat) (string substr replacement : List Nat) : Option (List Nat) :=
  str_replaceLoop (cstr substr) (cstr replacement) fuel (cstr string)

/-- The configuration the run works with: the escaping flag and the five templates. -/
structure Config where
  escapeJs : Bool
  charSigned : Bool
  startTemplate : List Nat
  stdoutTemplate : List Nat
  stderrTemplate : List Nat
  progressTemplate : List Nat
  endTemplate : List Nat
  deriving DecidableEq, Repr

/-- The initial values of the template variables of `main` (no `--js`). -/
def txtConfig (charSigned : Bool) : Config :=
  { escapeJs := false, charSigned := charSigned,
    startTemplate := TXT_START_TEMPLATE, stdoutTemplate := TXT_STDOUT_TEMPLATE,
    stderrTemplate := TXT_STDERR_TEMPLATE, progressTemplate := TXT_PROGRESS_TEMPLATE,
    endTemplate := TXT_END_TEMPLATE }

/-- The template variables after the option `--js`. -/
def jsConfig (charSigned : Bool) : Config :=
  { escapeJs := true, charSigned := charSigned,
    startTemplate := JS_START_TEMPLATE, stdoutTemplate := JS_STDOUT_TEMPLATE,
    stderrTemplate := JS_STDERR_TEMPLATE, progressTemplate := JS_PROGRESS_TEMPLATE,
    endTemplate := JS_END_TEMPLATE }

/-- The five chained `str_replace` calls on `progressTemplate`. -/
def translateProgress (fuel : Nat) (t : List Nat) : Option (List Nat) := do
  let t ← str_replace fuel t (bytes "%f") (bytes "{0}")
  let t ← str_replace fuel t (bytes "%p") (bytes "{1}")
  let t ← str_replace fuel t (bytes "%t") (bytes "{2}")
  let t ← str_replace fuel t (bytes "%s") (bytes "{3}")
  str_replace fuel t (bytes "%e") (bytes "{4}")

/-- The block of `main` that replaces the user placeholders by positional ones.
The start template is not translated. -/
def translateTemplates (fuel : Nat) (c : Config) : Option Config := do
  let stdoutTemplate ← str_replace fuel c.stdoutTemplate (bytes "%s") (bytes "{0}")
  let stderrTemplate ← str_replace fuel c.stderrTemplate (bytes "%s") (bytes "{0}")
  let progressTemplate ← translateProgress fuel c.progressTemplate
  let endTemplate ← str_replace fuel c.endTemplate (bytes "%c") (bytes "{0}")
  pure { c with stdoutTemplate := stdoutTemplate, stderrTemplate := stderrTemplate,
                progressTemplate := progressTemplate, endTemplate := endTemplate }

/-! ## The line classifier (inside the read loop of `main`) -/

/-- `strncpy(dst, src, n)`: the `n` bytes written to `dst` (the string, then NUL padding). -/
def strncpy (src : List Nat) (n : Nat) : List Nat :=
  (cstr src).take n ++ List.replicate (n - ((cstr src).take n).length) 0

/-- The locals of the field loop: `fieldBuf`, and `fields[0..fieldIdx)`. -/
structure FieldScan where
  fieldBuf : List Nat
  fields : List Nat
  deriving DecidableEq, Repr

/-- One iteration of `for (i=0; i<stdoutIdx; i++)`. -/
def fieldStep (s : FieldScan) (i : Nat) : FieldScan :=
  if s.fieldBuf.getD i 0 = 32 ∨ s.fieldBuf.getD i 0 = 13 then
    { s with fieldBuf := s.fieldBuf.set i 0 }
  else if s.fields.length < 5 ∧ (i = 0 ∨ s.fieldBuf.getD (i - 1) 0 = 0) then
    { s with fields := s.fields ++ [i] }
  else s

/-- The `strncpy` into `fieldBuf` and the whole field loop. -/
def scanFields (stdoutBuf : List Nat) (stdoutIdx : Nat) : FieldScan :=
  (List.range stdoutIdx).foldl fieldStep ⟨strncpy stdoutBuf STDOUT_BUFSIZE, []⟩

/-- The index `fields[1] + strlen(&fieldBuf[fields[1]]) - 1`. -/
def percentPos (s : FieldScan) : Nat :=
  s.fields.getD 1 0 + strlen (s.fieldBuf.drop (s.fields.getD 1 0)) - 1

/-- "right number of fields and a percentage character in the right place?" -/
def isProgress (s : FieldScan) : Bool :=
  decide (s.fields.length = 5 ∧ s.fieldBuf.getD (percentPos s) 0 = 37)

/-- The five pointers `&fieldBuf[fields[k]]` passed to `printfmt`, after the
percent sign has been overwritten with NUL. -/
def progressParams (s : FieldScan) : List (List Nat) :=
  let fieldBuf := s.fieldBuf.set (percentPos s) 0
  [fieldBuf.drop (s.fields.getD 0 0), fieldBuf.drop (s.fields.getD 1 0),
   fieldBuf.drop (s.fields.getD 2 0), fieldBuf.drop (s.fields.getD 3 0),
   fieldBuf.drop (s.fields.getD 4 0)]

/-- The classifier on a completed line (the `stdoutIdx` bytes of `stdoutBuf`):
the five field strings of a progress update, or `none` for a plain line. -/
def classify (line : List Nat) : Option (List (List Nat)) :=
  let s := scanFields (line ++ [0]) line.length
  if isProgress s then some ((progressParams s).map cstr) else none

/-- What is done with a completed stdout line: the new `shownStartTemplate`
and the bytes written. -/
def stdoutLine (cfg : Config) (shownStartTemplate : Bool) (line : List Nat) :
    Bool × List Nat :=
  let stdoutBuf := line ++ [0]
  let s := scanFields stdoutBuf line.length
  if isProgress s then
    (true,
      (if shownStartTemplate then [] else cstr cfg.startTemplate) ++
      (printfmt cfg.escapeJs cfg.charSigned 5 cfg.progressTemplate (progressParams s)).out)
  else if cstr stdoutBuf ≠ [10] ∧ cstr stdoutBuf ≠ [13] then
    (shownStartTemplate,
      (printfmt cfg.escapeJs cfg.charSigned 1 cfg.stdoutTemplate [stdoutBuf]).out)
  else (shownStartTemplate, [])

/-- What is done with a completed stderr line. -/
def stderrLine (cfg : Config) (line : List Nat) : List Nat :=
  (printfmt cfg.escapeJs cfg.charSigned 1 cfg.stderrTemplate [line ++ [0]]).out

/-! ## Line reassembly and the read loop of `main` -/

/-- The test made after a byte has been stored and the index advanced:
`buf[idx-1]=='\r' || buf[idx-1]=='\n' || idx==BUFSIZE-1`, where `buf` holds the
`idx` bytes read so far. -/
def lineComplete (bufsize : Nat) (buf : List Nat) : Bool :=
  decide (buf.getLast? = some 13 ∨ buf.getLast? = some 10 ∨ buf.length = bufsize - 1)

/-- One successful one-byte read on a channel whose buffer holds `buf`: the
new buffer contents and the completed line, if the byte completes one. -/
def feedByte (bufsize : Nat) (buf : List Nat) (b : Nat) : List Nat × Option (List Nat) :=
  if lineComplete bufsize (buf ++ [b]) then ([], some (buf ++ [b])) else (buf ++ [b], none)

/-- Feeding a channel a byte stream, one byte per read: the final buffer
contents and the lines completed on the way, in order. -/
def feedChannel (bufsize : Nat) : List Nat → List Nat → List Nat × List (List Nat)
  | buf, [] => (buf, [])
  | buf, b :: rest =>
    match feedByte bufsize buf b with
    | (buf1, none) => feedChannel bufsize buf1 rest
    | (buf1, some line) =>
      ((feedChannel bufsize buf1 rest).1, line :: (feedChannel bufsize buf1 rest).2)

/-- The lines handed on by the flush after the loop (`if (idx!=0) ...`). -/
def residualLines (buf : List Nat) : List (List Nat) :=
  if buf.length ≠ 0 then [buf] else []

/-- The result of one `read(fd, &buf[idx], 1)`. -/
inductive ReadResult where
  /-- the call returned 1 and stored this byte -/
  | data (b : Nat)
  /-- the call returned 0 or a negative number -/
  | closed
  deriving DecidableEq, Repr

/-- One return of `select`. -/
inductive Event where
  /-- `select` returned -1 -/
  | selectFailed
  /-- `select` succeeded; for each descriptor, whether it is set in the result
  and, if so, what the read on it returns -/
  | ready (stderr : Option ReadResult) (stdout : Option ReadResult)
  deriving DecidableEq, Repr

/-- The locals of `main` that the read loop changes, and the bytes written to
standard output so far.  A buffer is the list of the `idx` bytes it holds. -/
structure State where
  stderrBuf : List Nat
  stdoutBuf : List Nat
  shownStartTemplate : Bool
  doneStderr : Bool
  doneStdout : Bool
  out : List Nat
  deriving DecidableEq, Repr

/-- The locals at the start of the read loop. -/
def State.init : State :=
  { stderrBuf := [], stdoutBuf := [], shownStartTemplate := false,
    doneStderr := false, doneStdout := false, out := [] }

/-- The body of `if (FD_ISSET(stderrPipeFd[0], &selectFds) && !doneStderr)`. -/
def stderrRead (cfg : Config) (st : State) : ReadResult → State
  | .closed => { st with doneStderr := true }
  | .data b =>
    match feedByte STDERR_BUFSIZE st.stderrBuf b with
    | (buf, none) => { st with stderrBuf := buf }
    | (buf, some line) => { st with stderrBuf := buf, out := st.out ++ stderrLine cfg line }

/-- The body of `if (FD_ISSET(stdoutPtyFd, &selectFds) && !doneStdout)`. -/
def stdoutRead (cfg : Config) (st : State) : ReadResult → State
  | .closed => { st with doneStdout := true }
  | .data b =>
    match feedByte STDOUT_BUFSIZE st.stdoutBuf b with
    | (buf, none) => { st with stdoutBuf := buf }
    | (buf, some line) =>
      { st with stdoutBuf := buf,
                shownStartTemplate := (stdoutLine cfg st.shownStartTemplate line).1,
                out := st.out ++ (stdoutLine cfg st.shownStartTemplate line).2 }

/-- One iteration of the `while` loop after a successful `select`. -/
def iteration (cfg : Config) (st : State) (stderr stdout : Option ReadResult) : State :=
  let st1 :=
    match stderr with
    | some r => if st.doneStderr then st else stderrRead cfg st r
    | none => st
  match stdout with
  | some r => if st1.doneStdout then st1 else stdoutRead cfg st1 r
  | none => st1

/-- How the read loop ended. -/
inductive LoopResult where
  /-- the loop condition became false -/
  | finished (st : State)
  /-- `select` failed: `perror` and `exit(1)` -/
  | failed (st : State)
  /-- the events were used up with the loop condition still true: the loop is
  waiting in `select` -/
  | waiting (st : State)
  deriving DecidableEq, Repr

/-- The loop `while (!(doneStdout || doneStderr))`. -/
def readLoop (cfg : Config) : State → List Event → LoopResult
  | st, [] => if st.doneStdout || st.doneStderr then .finished st else .waiting st
  | st, e :: rest =>
    if st.doneStdout || st.doneStderr then .finished st
    else
      match e with
      | .selectFailed => .failed st
      | .ready stderr stdout => readLoop cfg (iteration cfg st stderr stdout) rest

/-- The two statements after the loop that "dump whatever's left". -/
def drain (cfg : Config) (st : State) : List Nat :=
  (if st.stderrBuf.length ≠ 0 then
      (printfmt cfg.escapeJs cfg.charSigned 1 cfg.stderrTemplate [st.stderrBuf ++ [0]]).out
    else []) ++
  (if st.stdoutBuf.length ≠ 0 then
      (printfmt cfg.escapeJs cfg.charSigned 1 cfg.stdoutTemplate [st.stdoutBuf ++ [0]]).out
    else [])

/-- What `waitpid` reports about the child. -/
inductive ChildStatus where
  /-- `WIFEXITED`, with `WEXITSTATUS` -/
  | exited (code : Nat)
  /-- `WIFSIGNALED`, with `WTERMSIG` -/
  | signaled (sig : Nat)
  /-- neither ("something weird") -/
  | other
  /-- `waitpid` returned -1 -/
  | waitFailed
  deriving DecidableEq, Repr

/-- `sprintf(buf, "%d", n)` for a non-negative `n`. -/
def decimal (n : Nat) : List Nat := (Nat.toDigits 10 n).map Char.toNat

/-- The end of a run: everything written to standard output and the exit code. -/
structure RunResult where
  out : List Nat
  exitCode : Nat
  deriving DecidableEq, Repr

/-- The code after the loop: the flush, `waitpid` and the exit-status mapping. -/
def finish (cfg : Config) (st : State) : ChildStatus → RunResult
  | .exited code =>
    { out := st.out ++ drain cfg st ++
        (printfmt cfg.escapeJs cfg.charSigned 1 cfg.endTemplate [decimal code]).out,
      exitCode := code }
  | .signaled sig =>
    { out := st.out ++ drain cfg st ++
        (printfmt cfg.escapeJs cfg.charSigned 1 cfg.endTemplate [45 :: decimal sig]).out,
      exitCode := 1 }
  | .other => { out := st.out ++ drain cfg st, exitCode := 1 }
  | .waitFailed => { out := st.out ++ drain cfg st, exitCode := 1 }

/-- The parent branch of `main` from the read loop to `exit`, with templates
`cfg` (already translated): `none` when the loop never ends on these events. -/
def run (cfg : Config) (events : List Event) (status : ChildStatus) : Option RunResult :=
  match readLoop cfg State.init events with
  | .finished st => some (finish cfg st status)
  | .failed st => some { out := st.out, exitCode := 1 }
  | .waiting _ => none

/-! ## Reference definitions taken from the specification

The definitions below do not come from the source: they state, in the words
of the specification, what the code is compared with. -/

/-- Specification of the escaping mode: the representation of one byte inside
a script string literal.  Single-character escapes for the control characters
8..13 and for the quote and backslash characters, a four-digit numeric escape
for every other byte outside `0x20..0x7e`, the byte itself otherwise. -/
def jsReference (b : Nat) : List Nat :=
  if b = 8 then bytes "\\b"
  else if b = 9 then bytes "\\t"
  else if b = 10 then bytes "\\n"
  else if b = 11 then bytes "\\v"
  else if b = 12 then bytes "\\f"
  else if b = 13 then bytes "\\r"
  else if b = 34 then bytes "\\\""
  else if b = 39 then bytes "\\\x27"
  else if b = 92 then bytes "\\\\"
  else if 32 ≤ b ∧ b ≤ 126 then [b]
  else bytes "\\u" ++
    [hexDigit (b / 4096 % 16), hexDigit (b / 256 % 16), hexDigit (b / 16 % 16), hexDigit (b % 16)]

/-- Specification of "no unescaped quote or backslash": reading the text from
the left, a backslash introduces an escape and must be followed by a character
(the escaped one, which may itself be a quote or a backslash); outside an
escape no double quote and no single quote occurs.  The flag says whether the
previous character was an escape introducer. -/
def jsSafeFrom : Bool → List Nat → Bool
  | afterBackslash, [] => !afterBackslash
  | true, _ :: rest => jsSafeFrom false rest
  | false, c :: rest =>
    if c = 92 then jsSafeFrom true rest
    else decide (c ≠ 34 ∧ c ≠ 39) && jsSafeFrom false rest

/-- Specification of the escape directives of a template: the character after
a backslash, decoded. -/
def decodeEscape (c : Nat) : Nat :=
  if c = 110 then 10
  else if c = 114 then 13
  else if c = 116 then 9
  else c

/-- Specification: a template with its escape sequences decoded (used for
templates without placeholders).  The flag says whether the previous character
was an unescaped backslash; a backslash that ends the template has no
character to decode and yields nothing. -/
def decodeEscapesFrom : Bool → List Nat → List Nat
  | _, [] => []
  | true, c :: rest => decodeEscape c :: decodeEscapesFrom false rest
  | false, c :: rest =>
    if c = 92 then decodeEscapesFrom true rest else c :: decodeEscapesFrom false rest

/-- Specification: whether a template has a placeholder, that is an opening
brace that is not escaped by a backslash. -/
def hasPlaceholderFrom : Bool → List Nat → Bool
  | _, [] => false
  | true, _ :: rest => hasPlaceholderFrom false rest
  | false, c :: rest =>
    if c = 92 then hasPlaceholderFrom true rest
    else if c = 123 then true
    else hasPlaceholderFrom false rest

/-- A piece of a template, in the words of the specification: a literal
character (escape directives decoded) or a reference `{n}` to a parameter. -/
inductive Segment where
  | lit (c : Nat)
  | param (n : Nat)
  deriving DecidableEq, Repr

/-- The modes of the template scan of the specification. -/
inductive ScanMode where
  | literal
  | escape
  | placeholder (n : Nat)
  deriving DecidableEq, Repr

/-- Specification of the template scan (literal mode, escape look-ahead,
placeholder mode with a base-10 accumulator): the segments of a template up to
its end or up to the first character inside a placeholder that is neither a
digit nor the closing brace. -/
def segmentsFrom : ScanMode → List Nat → List Segment
  | _, [] => []
  | .literal, c :: rest =>
    if c = 92 then segmentsFrom .escape rest
    else if c = 123 then segmentsFrom (.placeholder 0) rest
    else .lit c :: segmentsFrom .literal rest
  | .escape, c :: rest => .lit (decodeEscape c) :: segmentsFrom .literal rest
  | .placeholder n, c :: rest =>
    if 48 ≤ c ∧ c ≤ 57 then segmentsFrom (.placeholder (n * 10 + (c - 48))) rest
    else if c = 125 then .param n :: segmentsFrom .literal rest
    else []

/-- Specification: whether the scan meets a character inside a placeholder
that is neither a digit nor the closing brace. -/
def malformedFrom : ScanMode → List Nat → Bool
  | _, [] => false
  | .literal, c :: rest =>
    if c = 92 then malformedFrom .escape rest
    else if c = 123 then malformedFrom (.placeholder 0) rest
    else malformedFrom .literal rest
  | .escape, _ :: rest => malformedFrom .literal rest
  | .placeholder n, c :: rest =>
    if 48 ≤ c ∧ c ≤ 57 then malformedFrom (.placeholder (n * 10 + (c - 48))) rest
    else if c = 125 then malformedFrom .literal rest
    else true

/-- The text a segment stands for: the character itself, or the value of the
parameter (escaped in escaping mode). -/
def segmentText (escapeJs charSigned : Bool) (values : List (List Nat)) : Segment → List Nat
  | .lit c => [c]
  | .param n =>
    if escapeJs then printjs charSigned (values.getD n []) else cstr (values.getD n [])

/-- Specification of a rendering: the texts of the segments, in template order. -/
def renderSegments (escapeJs charSigned : Bool) (values : List (List Nat))
    (segs : List Segment) : List Nat :=
  segs.flatMap (segmentText escapeJs charSigned values)

/-- Specification: every placeholder among the segments refers to one of the
first `nparam` parameters. -/
def indicesBelow (nparam : Nat) (segs : List Segment) : Bool :=
  segs.all (fun seg => match seg with
    | .param n => decide (n < nparam)
    | .lit _ => true)

/-- Specification: a line terminator is a carriage return or a newline. -/
def isTerminator (b : Nat) : Bool := b == 13 || b == 10

/-- The length of the longest run of bytes without a terminator in a stream
that is entered with a run of `k` such bytes already read. -/
def longestRunFrom : Nat → List Nat → Nat
  | k, [] => k
  | k, b :: rest =>
    if isTerminator b then max k (longestRunFrom 0 rest) else longestRunFrom (k + 1) rest

/-- The length of the unterminated remainder at the end of a stream that is
entered with a run of `k` bytes without a terminator already read. -/
def trailingRunFrom : Nat → List Nat → Nat
  | k, [] => k
  | k, b :: rest => if isTerminator b then trailingRunFrom 0 rest else trailingRunFrom (k + 1) rest

/-- Specification: the field delimiters are the space and the carriage return. -/
def isDelimiter (c : Nat) : Bool := c == 32 || c == 13

/-- Specification: tokenizing a line on the delimiters: the non-empty pieces
between delimiters, in order. -/
def tokenize (line : List Nat) : List (List Nat) :=
  (line.splitOnP isDelimiter).filter (fun f => !f.isEmpty)

/-- Specification: a field of a progress line is a non-empty run of bytes
other than NUL, space and carriage return. -/
def IsField (f : List Nat) : Prop := f ≠ [] ∧ ∀ c ∈ f, c ≠ 0 ∧ c ≠ 32 ∧ c ≠ 13

/-- Specification: the progress line made of a file name, a percentage `p`
followed by the percent sign, a size, a speed and an ETA, separated by single
spaces. -/
def progressLine (f0 p f2 f3 f4 : List Nat) : List Nat :=
  f0 ++ [32] ++ (p ++ [37]) ++ [32] ++ f2 ++ [32] ++ f3 ++ [32] ++ f4

/-- The user progress template `{0}:{1}:{2}:{3}:{4}\n`, the last two
characters being a backslash and the letter n. -/
def colonTemplate : List Nat := bytes "{0}:{1}:{2}:{3}:{4}\\n"

/-! ## Auxiliary definitions used in the proofs -/

/-- The locals `inBrace`, `inEscape`, `paramIdx` of `printfmt` that stand for a
mode of the specification's scan. -/
def modeLocals : ScanMode → Bool × Bool × Int
  | .literal => (false, false, 0)
  | .escape => (false, true, 0)
  | .placeholder n => (true, false, wrap32 (n : Int))

/-- The shape of what `printjs` writes for one byte. -/
def EscapeUnit (l : List Nat) : Prop :=
  (∃ b, l = [b] ∧ 32 ≤ b ∧ b ≤ 126 ∧ b ≠ 34 ∧ b ≠ 39 ∧ b ≠ 92) ∨
  (∃ x t, l = 92 :: x :: t ∧ 32 ≤ x ∧ x ≤ 126 ∧
    ∀ c ∈ t, (48 ≤ c ∧ c ≤ 57) ∨ (97 ≤ c ∧ c ≤ 102))

/-- The exit code of the wrapper after the read loop has ended in `r`. -/
def exitCodeAfter (status : ChildStatus) : LoopResult → Option Nat
  | .finished _ =>
    match status with
    | .exited code => some code
    | _ => some 1
  | .failed _ => some 1
  | .waiting _ => none

/-- What the field loop makes of a byte of `fieldBuf`: a delimiter becomes NUL. -/
def zap (c : Nat) : Nat := if c = 32 ∨ c = 13 then 0 else c

/-- The offsets at which the field loop records a field start, for a part of
the line that begins at offset `i`; `prevDelim` says whether the byte before
it is a delimiter (or the part begins the line). -/
def fieldStartsFrom : Bool → Nat → List Nat → List Nat
  | _, _, [] => []
  | prevDelim, i, c :: rest =>
    if c = 32 ∨ c = 13 then fieldStartsFrom true (i + 1) rest
    else if prevDelim then i :: fieldStartsFrom false (i + 1) rest
    else fieldStartsFrom false (i + 1) rest

/-- Whether the last byte of `a` is a delimiter; `p` when `a` is empty. -/
def lastIsDelim (p : Bool) (a : List Nat) : Bool :=
  match a.getLast? with
  | none => p
  | some x => decide (x = 32 ∨ x = 13)

/-- The layout of `fieldBuf` after the field loop: each recorded offset (at or
after `k`) is followed by its field, a NUL, and the next offset comes later. -/
def Layout (buf : List Nat) : Nat → List Nat → List (List Nat) → Prop
  | _, [], [] => True
  | k, p :: ps, t :: ts =>
    k ≤ p ∧ (∃ r, buf.drop p = t ++ 0 :: r) ∧ t ≠ [] ∧ 0 ∉ t ∧ Layout buf (p + t.length + 1) ps ts
  | _, _, _ => False

/-- The classifier expressed through `tokenize`: a line whose first five
tokens exist and whose second token ends in a percent sign is a progress
update, with these five tokens as fields, the percent sign removed. -/
def classifySpec (line : List Nat) : Option (List (List Nat)) :=
  match tokenize line with
  | t0 :: t1 :: t2 :: t3 :: t4 :: _ =>
    if t1.getLast? = some 37 then some [t0, t1.dropLast, t2, t3, t4] else none
  | _ => none

/-- A configuration whose stdout template has a letter inside a placeholder. -/
def malformedExample : Config :=
  { txtConfig true with stdoutTemplate := bytes "{x}", stderrTemplate := bytes "E:{0};" }

/-- The child writes `h` and a newline to its standard output, then `b` and a
newline to its standard error, then closes its standard output. -/
def malformedExampleEvents : List Event :=
  [.ready none (some (.data 104)), .ready none (some (.data 10)),
   .ready (some (.data 98)) none, .ready (some (.data 10)) none,
   .ready none (some .closed)]

/-- The states of the read loop: the initial state, and every state that one
more iteration produces from such a state while the loop condition holds. -/
inductive Reachable (cfg : Config) : State → Prop where
  | init : Reachable cfg State.init
  | step (st : State) (stderr stdout : Option ReadResult) :
      Reachable cfg st → (st.doneStdout || st.doneStderr) = false →
      Reachable cfg (iteration cfg st stderr stdout)

/-- The state in which the read loop ended or waits. -/
def LoopResult.state : LoopResult → State
  | .finished st => st
  | .failed st => st
  | .waiting st => st

/-- The invariant of a channel buffer: at most capacity minus two bytes, none
of them a terminator. -/
def BufferOk (bufsize : Nat) (buf : List Nat) : Prop :=
  buf.length ≤ bufsize - 2 ∧ ∀ b ∈ buf, b ≠ 13 ∧ b ≠ 10

/-- The first half of an iteration: the read on the stderr pipe, if any. -/
def afterStderr (cfg : Config) (st : State) : Option ReadResult → State
  | some r => if st.doneStderr then st else stderrRead cfg st r
  | none => st

/-- The second half of an iteration: the read on the pseudoterminal, if any. -/
def afterStdout (cfg : Config) (st : State) : Option ReadResult → State
  | some r => if st.doneStdout then st else stdoutRead cfg st r
  | none => st

/-- Specification: the number that a decimal text denotes. -/
def decimalValue (digits : List Nat) : Nat :=
  digits.foldl (fun acc d => acc * 10 + (d - 48)) 0

/-- Scenario C and D: the script templates, the end template translated. -/
def exitExampleConfig : Config :=
  { jsConfig true with endTemplate := bytes "ui.stopScpProgress({0});\n" }

/-- Scenario C and D: the child closes its standard output at once. -/
def exitExampleEvents : List Event := [.ready none (some .closed)]

/-- Scenario B: the plain templates with the user's stderr template `ERR:{0}\n`. -/
def errExampleUserConfig : Config :=
  { txtConfig true with stderrTemplate := bytes "ERR:{0}\\n" }

/-- Scenario B: the templates of `errExampleUserConfig` after translation. -/
def errExampleConfig : Config :=
  { errExampleUserConfig with progressTemplate := bytes "{1}\n" }

/-- Scenario B: the child writes `Permission denied` and a newline to its
standard error, one byte per return of `select`, then closes it. -/
def errExampleEvents : List Event :=
  (bytes "Permission denied\n").map (fun b => Event.ready (some (.data b)) none) ++
    [.ready (some .closed) none]

/-- The plain templates with the stdout template `OUT:{0}`, translated. -/
def outExampleConfig : Config :=
  { txtConfig true with stdoutTemplate := bytes "OUT:{0}", progressTemplate := bytes "{1}\n" }

/-- The child's standard error reaches its end while `hi` and a newline are
still to come on the pseudoterminal. -/
def earlyExitEvents : List Event :=
  [.ready (some .closed) none, .ready none (some (.data 104)), .ready none (some (.data 105)),
   .ready none (some (.data 10)), .ready none (some .closed)]

/-- The same reads, the end of the child's standard error coming last. -/
def lateExitEvents : List Event :=
  [.ready none (some (.data 104)), .ready none (some (.data 105)),
   .ready none (some (.data 10)), .ready (some .closed) none, .ready none (some .closed)]

/-- A start template with an escape directive: `S`, a backslash and `n`. -/
def startExampleConfig : Config :=
  { txtConfig true with startTemplate := bytes "S\\n", progressTemplate := bytes "{1}\n" }

/-- The child writes a progress line without terminator to its standard
output, then closes it. -/
def residualExampleEvents : List Event :=
  (bytes "f 5% a b c").map (fun b => Event.ready none (some (.data b))) ++
    [.ready none (some .closed)]

/-- One piece of output of the wrapper: which statement of `main` wrote it,
and with which arguments. -/
inductive Emission where
  /-- `printf("%s", startTemplate)` -/
  | start
  /-- `printfmt(5, progressTemplate, ...)` with the five field pointers -/
  | progress (params : List (List Nat))
  /-- `printfmt(1, stdoutTemplate, stdoutBuf)` -/
  | stdout (buf : List Nat)
  /-- `printfmt(1, stderrTemplate, stderrBuf)` -/
  | stderr (buf : List Nat)
  /-- `printfmt(1, endTemplate, stdoutBuf)` after `sprintf` -/
  | finish (param : List Nat)
  deriving DecidableEq, Repr

/-- The bytes that a piece of output consists of. -/
def Emission.text (cfg : Config) : Emission → List Nat
  | .start => cstr cfg.startTemplate
  | .progress params =>
    (printfmt cfg.escapeJs cfg.charSigned 5 cfg.progressTemplate params).out
  | .stdout buf => (printfmt cfg.escapeJs cfg.charSigned 1 cfg.stdoutTemplate [buf]).out
  | .stderr buf => (printfmt cfg.escapeJs cfg.charSigned 1 cfg.stderrTemplate [buf]).out
  | .finish param => (printfmt cfg.escapeJs cfg.charSigned 1 cfg.endTemplate [param]).out

/-- The bytes of a sequence of pieces. -/
def traceText (cfg : Config) (tr : List Emission) : List Nat :=
  (tr.map (Emission.text cfg)).flatten

/-- The pieces written for a completed stdout line (see `stdoutLine`). -/
def stdoutLineTrace (shownStartTemplate : Bool) (line : List Nat) : List Emission :=
  let stdoutBuf := line ++ [0]
  let s := scanFields stdoutBuf line.length
  if isProgress s then
    (if shownStartTemplate then [] else [.start]) ++ [.progress (progressParams s)]
  else if cstr stdoutBuf ≠ [10] ∧ cstr stdoutBuf ≠ [13] then [.stdout stdoutBuf]
  else []

/-- The pieces written by `stderrRead`. -/
def stderrReadTrace (st : State) : ReadResult → List Emission
  | .closed => []
  | .data b =>
    match feedByte STDERR_BUFSIZE st.stderrBuf b with
    | (_, none) => []
    | (_, some line) => [.stderr (line ++ [0])]

/-- The pieces written by `stdoutRead`. -/
def stdoutReadTrace (st : State) : ReadResult → List Emission
  | .closed => []
  | .data b =>
    match feedByte STDOUT_BUFSIZE st.stdoutBuf b with
    | (_, none) => []
    | (_, some line) => stdoutLineTrace st.shownStartTemplate line

/-- The pieces written by the first half of an iteration. -/
def afterStderrTrace (st : State) : Option ReadResult → List Emission
  | some r => if st.doneStderr then [] else stderrReadTrace st r
  | none => []

/-- The pieces written by the second half of an iteration. -/
def afterStdoutTrace (st : State) : Option ReadResult → List Emission
  | some r => if st.doneStdout then [] else stdoutReadTrace st r
  | none => []

/-- The pieces written by the read loop. -/
def loopTrace (cfg : Config) : State → List Event → List Emission
  | _, [] => []
  | st, e :: rest =>
    if st.doneStdout || st.doneStderr then []
    else
      match e with
      | .selectFailed => []
      | .ready stderr stdout =>
        afterStderrTrace st stderr ++ afterStdoutTrace (afterStderr cfg st stderr) stdout ++
          loopTrace cfg (iteration cfg st stderr stdout) rest

/-- The pieces written by the flush after the loop. -/
def drainTrace (st : State) : List Emission :=
  (if st.stderrBuf.length ≠ 0 then [.stderr (st.stderrBuf ++ [0])] else []) ++
  (if st.stdoutBuf.length ≠ 0 then [.stdout (st.stdoutBuf ++ [0])] else [])

/-- The piece written after `waitpid`. -/
def finishTrace : ChildStatus → List Emission
  | .exited code => [.finish (decimal code)]
  | .signaled sig => [.finish (45 :: decimal sig)]
  | .other => []
  | .waitFailed => []

/-- All the pieces written by a run, in order. -/
def runTrace (cfg : Config) (events : List Event) (status : ChildStatus) : List Emission :=
  match readLoop cfg State.init events with
  | .finished st => loopTrace cfg State.init events ++ drainTrace st ++ finishTrace status
  | .failed _ => loopTrace cfg State.init events
  | .waiting _ => loopTrace cfg State.init events

/-- A piece that is neither the start template nor a progress update. -/
def Emission.isOther : Emission → Bool
  | .start => false
  | .progress _ => false
  | _ => true

/-- A piece that is not the start template. -/
def Emission.notStart : Emission → Bool
  | .start => false
  | _ => true

/-- Specification of start-template-once on a sequence of pieces: either it
holds neither the start template nor a progress update, or the start template
occurs once, immediately before the first progress update. -/
def StartOnce (tr : List Emission) : Prop :=
  (∀ e ∈ tr, e.isOther = true) ∨
  ∃ pre p post, tr = pre ++ .start :: .progress p :: post ∧
    (∀ e ∈ pre, e.isOther = true) ∧ (∀ e ∈ post, e.notStart = true)

/-- Two progress updates between bare carriage returns, then the end of the
child's standard output. -/
def progressExampleEvents : List Event :=
  (bytes "\rf 5% a b c\rf 9% a b c\r").map (fun b => Event.ready none (some (.data b))) ++
    [.ready none (some .closed)]

/-- Specification: a single pass from left to right over a template that
replaces every percent sign followed by a token letter `c` (one with
`tokens c = some r`) by the replacement `r`.  The flag says that the previous
byte was a percent sign that has not been written yet. -/
def substituteFrom (tokens : Nat → Option (List Nat)) : Bool → List Nat → List Nat
  | false, [] => []
  | true, [] => [37]
  | false, a :: rest =>
    if a = 37 then substituteFrom tokens true rest else a :: substituteFrom tokens false rest
  | true, c :: rest =>
    match tokens c with
    | some r => r ++ substituteFrom tokens false rest
    | none =>
      if c = 37 then 37 :: substituteFrom tokens true rest
      else 37 :: c :: substituteFrom tokens false rest

/-- Specification: the single substitution pass over a whole template. -/
def substituteTokens (tokens : Nat → Option (List Nat)) (template : List Nat) : List Nat :=
  substituteFrom tokens false template

/-- The user token of the stdout and stderr templates: `%s` stands for `{0}`. -/
def textToken (c : Nat) : Option (List Nat) :=
  if c = 115 then some (bytes "{0}") else none

/-- The user token of the end template: `%c` stands for `{0}`. -/
def codeToken (c : Nat) : Option (List Nat) :=
  if c = 99 then some (bytes "{0}") else none

/-- The user tokens of the progress template: `%f`, `%p`, `%t`, `%s`, `%e`
stand for `{0}`, `{1}`, `{2}`, `{3}`, `{4}`. -/
def progressToken (c : Nat) : Option (List Nat) :=
  if c = 102 then some (bytes "{0}")
  else if c = 112 then some (bytes "{1}")
  else if c = 116 then some (bytes "{2}")
  else if c = 115 then some (bytes "{3}")
  else if c = 101 then some (bytes "{4}")
  else none

/-- The token map with the single token `x`. -/
def singleToken (x : Nat) (rep : List Nat) (c : Nat) : Option (List Nat) :=
  if c = x then some rep else none

/-- Two token maps applied one after the other act as this one. -/
def eitherToken (m1 m2 : Nat → Option (List Nat)) (c : Nat) : Option (List Nat) :=
  match m1 c with
  | some r => some r
  | none => m2 c

/-- A piece of text in which `%x` does not occur and which does not end in a
percent sign; the flag says that a percent sign precedes the piece. -/
def cleanFrom (x : Nat) : Bool → List Nat → Bool
  | p, [] => !p
  | p, a :: rest => !(p && decide (a = x)) && cleanFrom x (decide (a = 37)) rest

/-- A replacement text that cannot take part in an occurrence of `%x`: it is
not empty, holds no percent sign and no NUL, and starts with an opening brace. -/
def GoodRep (rep : List Nat) : Prop :=
  37 ∉ rep ∧ 0 ∉ rep ∧ ∃ tl, rep = 123 :: tl

/-- A token map whose letters are lower-case letters and whose replacements
are good. -/
def GoodTokens (m : Nat → Option (List Nat)) : Prop :=
  ∀ c r, m c = some r → (97 ≤ c ∧ c ≤ 122) ∧ GoodRep r

/-- A token map all of whose replacements are a placeholder `{d}` with one
digit `d` below `nparam`. -/
def SafeTokens (nparam : Nat) (m : Nat → Option (List Nat)) : Prop :=
  ∀ c r, m c = some r → ∃ d, d < nparam ∧ d ≤ 9 ∧ r = [123, 48 + d, 125]

/-- Specification: a template is well formed for `nparam` parameters when the
scan, started outside a placeholder with or without a pending escape, meets
no malformed placeholder and every placeholder refers to one of the
parameters. -/
def WellFormedFrom (nparam : Nat) (pendingEscape : Bool) (template : List Nat) : Prop :=
  malformedFrom (if pendingEscape then .escape else .literal) template = false ∧
  indicesBelow nparam
    (segmentsFrom (if pendingEscape then .escape else .literal) template) = true

/-- The plain templates with the user progress template
`{0}:{1}:{2}:{3}:{4}\n`, which the translation leaves as it is. -/
def colonExampleConfig : Config :=
  { txtConfig true with progressTemplate := colonTemplate }

/-- The child writes the bytes of `text` to its standard output, one read
each, then closes it. -/
def stdoutExampleEvents (text : List Nat) : List Event :=
  text.map (fun b => Event.ready none (some (.data b))) ++ [.ready none (some .closed)]

/-! # Theorems -/

/-! ## printjs -/

theorem hexDigit_plain (d : Nat) (h : d < 16) :
    (48 ≤ hexDigit d ∧ hexDigit d ≤ 57) ∨ (97 ≤ hexDigit d ∧ hexDigit d ≤ 102) := by
  unfold hexDigit
  split <;> omega

theorem fmt04x_plain (v : Int) : ∀ c ∈ fmt04x v, (48 ≤ c ∧ c ≤ 57) ∨ (97 ≤ c ∧ c ≤ 102) := by
  intro c hc
  unfold fmt04x at hc
  simp only [List.mem_map] at hc
  obtain ⟨d, hd, rfl⟩ := hc
  apply hexDigit_plain
  rcases List.mem_append.mp hd with h | h
  · rw [List.eq_of_mem_replicate h]; omega
  · have := (List.dropWhile_sublist _).subset h
    simp only [List.mem_cons, List.mem_singleton, List.not_mem_nil, or_false] at this
    omega


theorem printjsChar_unit (charSigned : Bool) (b : Nat) (hb : b < 256) :
    EscapeUnit (printjsChar charSigned b) := by
  have esc : ∀ x, 32 ≤ x → x ≤ 126 → EscapeUnit [92, x] := fun x h1 h2 =>
    Or.inr ⟨x, [], rfl, h1, h2, fun _ h => absurd h (List.not_mem_nil _)⟩
  unfold printjsChar
  simp only []
  by_cases h0 : charValue charSigned b = 0
  · rw [if_pos h0]; exact esc 48 (by omega) (by omega)
  rw [if_neg h0]
  by_cases h8 : charValue charSigned b = 8
  · rw [if_pos h8]; exact esc 98 (by omega) (by omega)
  rw [if_neg h8]
  by_cases h9 : charValue charSigned b = 9
  · rw [if_pos h9]; exact esc 116 (by omega) (by omega)
  rw [if_neg h9]
  by_cases h10 : charValue charSigned b = 10
  · rw [if_pos h10]; exact esc 110 (by omega) (by omega)
  rw [if_neg h10]
  by_cases h13 : charValue charSigned b = 13
  · rw [if_pos h13]; exact esc 114 (by omega) (by omega)
  rw [if_neg h13]
  by_cases h11 : charValue charSigned b = 11
  · rw [if_pos h11]; exact esc 118 (by omega) (by omega)
  rw [if_neg h11]
  by_cases h12 : charValue charSigned b = 12
  · rw [if_pos h12]; exact esc 102 (by omega) (by omega)
  rw [if_neg h12]
  by_cases h34 : charValue charSigned b = 34
  · rw [if_pos h34]; exact esc 34 (by omega) (by omega)
  rw [if_neg h34]
  by_cases h39 : charValue charSigned b = 39
  · rw [if_pos h39]; exact esc 39 (by omega) (by omega)
  rw [if_neg h39]
  by_cases h92 : charValue charSigned b = 92
  · rw [if_pos h92]; exact esc 92 (by omega) (by omega)
  rw [if_neg h92]
  by_cases hp : charValue charSigned b > 31 ∧ charValue charSigned b < 127
  · rw [if_pos hp]
    left
    refine ⟨b, rfl, ?_⟩
    unfold charValue at *
    split_ifs at * <;> omega
  · rw [if_neg hp]
    right
    exact ⟨117, fmt04x (charValue charSigned b), rfl, by omega, by omega, fmt04x_plain _⟩

theorem jsSafeFrom_plain (t : List Nat)
    (ht : ∀ c ∈ t, (48 ≤ c ∧ c ≤ 57) ∨ (97 ≤ c ∧ c ≤ 102)) (rest : List Nat) :
    jsSafeFrom false (t ++ rest) = jsSafeFrom false rest := by
  induction t with
  | nil => rfl
  | cons c t ih =>
    have hc := ht c (List.mem_cons_self _ _)
    have ih := ih (fun x hx => ht x (List.mem_cons_of_mem _ hx))
    rw [List.cons_append]
    simp only [jsSafeFrom]
    rw [if_neg (by omega), ih]
    have : decide (c ≠ 34 ∧ c ≠ 39) = true := decide_eq_true (by omega)
    rw [this, Bool.true_and]

theorem jsSafeFrom_unit (l rest : List Nat) (hl : EscapeUnit l) :
    jsSafeFrom false (l ++ rest) = jsSafeFrom false rest := by
  rcases hl with ⟨b, rfl, _, _, h34, h39, h92⟩ | ⟨x, t, rfl, _, _, ht⟩
  · simp [jsSafeFrom, h34, h39, h92]
  · rw [List.cons_append, List.cons_append]
    simp only [jsSafeFrom, if_true]
    exact jsSafeFrom_plain t ht rest

theorem unit_printable (l : List Nat) (hl : EscapeUnit l) : ∀ c ∈ l, 32 ≤ c ∧ c ≤ 126 := by
  rcases hl with ⟨b, rfl, h1, h2, _⟩ | ⟨x, t, rfl, h1, h2, ht⟩
  · intro c hc; simp at hc; subst hc; exact ⟨h1, h2⟩
  · intro c hc
    simp only [List.mem_cons] at hc
    rcases hc with rfl | rfl | hc
    · omega
    · exact ⟨h1, h2⟩
    · have := ht c hc; omega

theorem jsSafeFrom_quote (c : Nat) (post : List Nat) (hc : c = 34 ∨ c = 39) :
    ∀ (pre : List Nat) (m : Bool), jsSafeFrom m (pre ++ c :: post) = true →
      (pre = [] ∧ m = true) ∨ pre.getLast? = some 92 := by
  intro pre
  induction pre with
  | nil =>
    intro m h
    cases m with
    | true => exact Or.inl ⟨rfl, rfl⟩
    | false =>
      rw [List.nil_append] at h
      simp only [jsSafeFrom] at h
      rw [if_neg (by omega)] at h
      have : decide (c ≠ 34 ∧ c ≠ 39) = false := decide_eq_false (by omega)
      rw [this] at h
      simp at h
  | cons x pre ih =>
    intro m h
    right
    rw [List.cons_append] at h
    have key : ∀ m2, jsSafeFrom m2 (pre ++ c :: post) = true → (m2 = true → x = 92) →
        (x :: pre).getLast? = some 92 := by
      intro m2 h2 hx
      rcases ih m2 h2 with ⟨rfl, hm⟩ | hl
      · simp [hx hm]
      · cases pre with
        | nil => simp at hl
        | cons y ys => rw [List.getLast?_cons_cons]; exact hl
    cases m with
    | true =>
      simp only [jsSafeFrom] at h
      exact key false h (by simp)
    | false =>
      simp only [jsSafeFrom] at h
      by_cases hx : x = 92
      · rw [if_pos hx] at h
        exact key true h (fun _ => hx)
      · rw [if_neg hx] at h
        simp only [Bool.and_eq_true] at h
        exact key false h.2 (by simp)

/-- C6: for every byte string, everything `printjs` writes is printable ASCII;
read from the left, every backslash either introduces an escape (and is
followed by the escaped character) or is itself the escaped character, and no
quote occurs outside an escape; in particular every double or single quote in
the output is immediately preceded by a backslash. -/
theorem printjs_output_safe (charSigned : Bool) (str : List Nat) (hbyte : ∀ b ∈ str, b < 256) :
    (∀ c ∈ printjs charSigned str, 32 ≤ c ∧ c ≤ 126) ∧
    jsSafeFrom false (printjs charSigned str) = true ∧
    (∀ pre c post, printjs charSigned str = pre ++ c :: post → (c = 34 ∨ c = 39) →
      pre.getLast? = some 92) := by
  have main : (∀ c ∈ printjs charSigned str, 32 ≤ c ∧ c ≤ 126) ∧
      jsSafeFrom false (printjs charSigned str) = true := by
    induction str with
    | nil => exact ⟨by simp [printjs], rfl⟩
    | cons b rest ih =>
      have ih := ih (fun x hx => hbyte x (List.mem_cons_of_mem _ hx))
      have hu := printjsChar_unit charSigned b (hbyte b (List.mem_cons_self _ _))
      unfold printjs
      split_ifs with h0
      · exact ⟨by simp, rfl⟩
      · refine ⟨?_, ?_⟩
        · intro c hc
          rcases List.mem_append.mp hc with h | h
          · exact unit_printable _ hu c h
          · exact ih.1 c h
        · rw [jsSafeFrom_unit _ _ hu]; exact ih.2
  refine ⟨main.1, main.2, ?_⟩
  intro pre c post hsplit hc
  have h := main.2
  rw [hsplit] at h
  rcases jsSafeFrom_quote c post hc pre false h with ⟨_, hm⟩ | hl
  · exact absurd hm (by simp)
  · exact hl

theorem printjs_output_safe_witness :
    (∀ c ∈ printjs true [34, 10, 233, 92, 65], 32 ≤ c ∧ c ≤ 126) ∧
    jsSafeFrom false (printjs true [34, 10, 233, 92, 65]) = true ∧
    (∀ pre c post, printjs true [34, 10, 233, 92, 65] = pre ++ c :: post → (c = 34 ∨ c = 39) →
      pre.getLast? = some 92) :=
  printjs_output_safe true [34, 10, 233, 92, 65] (by decide)

set_option maxRecDepth 100000 in
theorem printjsChar_eq_reference_ascii :
    ∀ b, b < 128 → ∀ s : Bool, printjsChar s (b + 1) = jsReference (b + 1) ∨ b + 1 = 128 := by
  decide

set_option maxRecDepth 100000 in
theorem printjsChar_eq_reference_unsigned :
    ∀ b, b < 256 → b ≠ 0 → printjsChar false b = jsReference b := by
  decide

/-- C7: where plain `char` is signed, `printjs` writes the byte 0xe9 as
`\u` followed by the eight digits `ffffffe9`, where the reference map has the
four-digit escape `\u00e9`. -/
theorem printjs_high_byte_signed :
    printjs true [233] = bytes "\\uffffffe9" ∧ [233].flatMap jsReference = bytes "\\u00e9" := by
  decide

/-! ## printfmt -/

theorem cstr_nil : cstr [] = [] := rfl

theorem cstr_cons_zero (rest : List Nat) : cstr (0 :: rest) = [] := by
  simp [cstr]

theorem cstr_cons_ne (c : Nat) (rest : List Nat) (h : c ≠ 0) :
    cstr (c :: rest) = c :: cstr rest := by
  simp [cstr, h]

theorem escapeChar_eq_decodeEscape (c : Nat) : escapeChar c = decodeEscape c := by
  unfold escapeChar decodeEscape
  split_ifs <;> omega

theorem wrap32_digit (n c : Nat) (h48 : 48 ≤ c) :
    wrap32 (wrap32 (n : Int) * 10 + ((c : Int) - 48)) = wrap32 ((n * 10 + (c - 48) : Nat) : Int) := by
  unfold wrap32
  omega

theorem wrap32_small (n : Nat) (h : n < 2147483648) : wrap32 (n : Int) = (n : Int) := by
  unfold wrap32
  omega

theorem emit_mk (o out : List Nat) (st : FmtStatus) :
    FmtResult.emit o ⟨out, st⟩ = ⟨o ++ out, st⟩ := rfl

theorem printfmtLoop_cons (escapeJs charSigned : Bool) (params : List (List Nat))
    (c : Nat) (rest : List Nat) (inBrace inEscape : Bool) (paramIdx : Int) :
    printfmtLoop escapeJs charSigned params (c :: rest) inBrace inEscape paramIdx =
      if c = 0 then ⟨[], .done⟩
      else if inEscape then
        (printfmtLoop escapeJs charSigned params rest inBrace false paramIdx).emit [escapeChar c]
      else if inBrace then
        if 48 ≤ c ∧ c ≤ 57 then
          printfmtLoop escapeJs charSigned params rest true false
            (wrap32 (paramIdx * 10 + ((c : Int) - 48)))
        else if c = 125 then
          match paramAt params paramIdx with
          | none => ⟨[], .outOfRange⟩
          | some p =>
            (printfmtLoop escapeJs charSigned params rest false false paramIdx).emit
              (if escapeJs then printjs charSigned p else cstr p)
        else ⟨[], .malformed⟩
      else
        if c = 123 then printfmtLoop escapeJs charSigned params rest true false 0
        else if c = 92 then printfmtLoop escapeJs charSigned params rest false true paramIdx
        else (printfmtLoop escapeJs charSigned params rest false false paramIdx).emit [c] := by
  conv_lhs => unfold printfmtLoop

theorem segmentsFrom_placeholder_cons (n c : Nat) (rest : List Nat) :
    segmentsFrom (.placeholder n) (c :: rest) =
      if 48 ≤ c ∧ c ≤ 57 then segmentsFrom (.placeholder (n * 10 + (c - 48))) rest
      else if c = 125 then .param n :: segmentsFrom .literal rest
      else [] := by
  conv_lhs => unfold segmentsFrom

theorem malformedFrom_placeholder_cons (n c : Nat) (rest : List Nat) :
    malformedFrom (.placeholder n) (c :: rest) =
      if 48 ≤ c ∧ c ≤ 57 then malformedFrom (.placeholder (n * 10 + (c - 48))) rest
      else if c = 125 then malformedFrom .literal rest
      else true := by
  conv_lhs => unfold malformedFrom

theorem indicesBelow_cons (nparam : Nat) (seg : Segment) (segs : List Segment) :
    indicesBelow nparam (seg :: segs) = true ↔
      (∀ n, seg = .param n → n < nparam) ∧ indicesBelow nparam segs = true := by
  unfold indicesBelow
  rw [List.all_cons, Bool.and_eq_true]
  cases seg <;> simp

theorem renderSegments_cons (escapeJs charSigned : Bool) (values : List (List Nat))
    (seg : Segment) (segs : List Segment) :
    renderSegments escapeJs charSigned values (seg :: segs) =
      segmentText escapeJs charSigned values seg ++
        renderSegments escapeJs charSigned values segs := by
  simp [renderSegments]

theorem renderSegments_nil (escapeJs charSigned : Bool) (values : List (List Nat)) :
    renderSegments escapeJs charSigned values [] = [] := rfl

/-- The loop of `printfmt` computes the rendering of the specification: from
any mode, with any value of `paramIdx` outside a placeholder. -/
theorem printfmtLoop_spec (escapeJs charSigned : Bool) (params : List (List Nat)) :
    ∀ (t : List Nat) (mode : ScanMode) (inBrace inEscape : Bool) (paramIdx : Int),
      inBrace = (modeLocals mode).1 → inEscape = (modeLocals mode).2.1 →
      (inBrace = true → paramIdx = (modeLocals mode).2.2) →
      indicesBelow (min params.length 2147483648) (segmentsFrom mode (cstr t)) = true →
      printfmtLoop escapeJs charSigned params t inBrace inEscape paramIdx =
        ⟨renderSegments escapeJs charSigned params (segmentsFrom mode (cstr t)),
         if malformedFrom mode (cstr t) then .malformed else .done⟩ := by
  intro t
  induction t with
  | nil =>
    intro mode ib ie idx _ _ _ _
    cases mode <;> simp [printfmtLoop, cstr_nil, segmentsFrom, malformedFrom, renderSegments]
  | cons c rest ih =>
    intro mode ib ie idx hib hie hidx hbelow
    rw [printfmtLoop_cons]
    by_cases hc : c = 0
    · subst hc
      cases mode <;>
        simp [cstr_cons_zero, segmentsFrom, malformedFrom, renderSegments]
    · rw [cstr_cons_ne c rest hc] at hbelow ⊢
      rw [if_neg hc]
      cases mode with
      | literal =>
        simp only [modeLocals] at hib hie
        subst hib; subst hie
        simp only [segmentsFrom, malformedFrom, Bool.false_eq_true, if_false] at hbelow ⊢
        by_cases h123 : c = 123
        · have h92 : c ≠ 92 := by omega
          simp only [if_neg h92, if_pos h123] at hbelow ⊢
          exact ih (.placeholder 0) true false 0 rfl rfl (fun _ => by simp [modeLocals, wrap32])
            hbelow
        · by_cases h92 : c = 92
          · simp only [if_pos h92, if_neg h123] at hbelow ⊢
            exact ih .escape false true idx rfl rfl (by simp) hbelow
          · simp only [if_neg h92, if_neg h123] at hbelow ⊢
            rw [indicesBelow_cons] at hbelow
            rw [ih .literal false false idx rfl rfl (by simp) hbelow.2, emit_mk,
              renderSegments_cons]
            rfl
      | escape =>
        simp only [modeLocals] at hib hie
        subst hib; subst hie
        simp only [segmentsFrom, malformedFrom, if_true] at hbelow ⊢
        rw [indicesBelow_cons] at hbelow
        rw [ih .literal false false idx rfl rfl (by simp) hbelow.2, emit_mk,
          renderSegments_cons, escapeChar_eq_decodeEscape]
        rfl
      | placeholder n =>
        simp only [modeLocals] at hib hie hidx
        subst hib; subst hie
        have hidx := hidx rfl
        rw [hidx]
        rw [segmentsFrom_placeholder_cons] at hbelow ⊢
        rw [malformedFrom_placeholder_cons]
        simp only [Bool.false_eq_true, if_false, if_true]
        by_cases hd : 48 ≤ c ∧ c ≤ 57
        · simp only [if_pos hd] at hbelow ⊢
          rw [wrap32_digit n c hd.1]
          exact ih (.placeholder (n * 10 + (c - 48))) true false _ rfl rfl (fun _ => rfl) hbelow
        · by_cases h125 : c = 125
          · simp only [if_neg hd, if_pos h125] at hbelow ⊢
            rw [indicesBelow_cons] at hbelow
            have hn0 := hbelow.1 n rfl
            have hn : n < params.length := by omega
            have hp : paramAt params (wrap32 (n : Int)) = some (params.getD n []) := by
              rw [wrap32_small n (by omega)]
              unfold paramAt
              simp [List.getD, List.get?_eq_getElem?, List.getElem?_eq_getElem hn]
            rw [hp]
            simp only []
            rw [ih .literal false false _ rfl rfl (by simp) hbelow.2, emit_mk,
              renderSegments_cons]
            rfl
          · simp only [if_neg hd, if_neg h125]
            rfl

theorem noPlaceholder_segments :
    ∀ (l : List Nat) (e : Bool), hasPlaceholderFrom e l = false →
      segmentsFrom (if e then .escape else .literal) l = (decodeEscapesFrom e l).map Segment.lit ∧
      malformedFrom (if e then .escape else .literal) l = false := by
  intro l
  induction l with
  | nil => intro e _; cases e <;> exact ⟨rfl, rfl⟩
  | cons c rest ih =>
    intro e h
    cases e with
    | true =>
      simp only [hasPlaceholderFrom] at h
      have := ih false h
      simp only [Bool.false_eq_true, if_false] at this
      simp only [if_true, segmentsFrom, malformedFrom, decodeEscapesFrom, List.map_cons, this]
      exact ⟨trivial, trivial⟩
    | false =>
      simp only [hasPlaceholderFrom] at h
      simp only [Bool.false_eq_true, if_false, segmentsFrom, malformedFrom, decodeEscapesFrom]
      by_cases h92 : c = 92
      · rw [if_pos h92] at h
        have := ih true h
        simp only [if_true] at this
        simp only [if_pos h92, this]
        exact ⟨trivial, trivial⟩
      · rw [if_neg h92] at h
        by_cases h123 : c = 123
        · rw [if_pos h123] at h; exact absurd h (by simp)
        · rw [if_neg h123] at h
          have := ih false h
          simp only [Bool.false_eq_true, if_false] at this
          simp only [if_neg h92, if_neg h123, this, List.map_cons]
          exact ⟨trivial, trivial⟩

theorem indicesBelow_map_lit (k : Nat) (l : List Nat) :
    indicesBelow k (l.map Segment.lit) = true := by
  induction l with
  | nil => rfl
  | cons c rest ih => rw [List.map_cons, indicesBelow_cons]; exact ⟨fun _ h => (by cases h), ih⟩

theorem renderSegments_map_lit (escapeJs charSigned : Bool) (values : List (List Nat))
    (l : List Nat) : renderSegments escapeJs charSigned values (l.map Segment.lit) = l := by
  induction l with
  | nil => rfl
  | cons c rest ih => rw [List.map_cons, renderSegments_cons, ih]; rfl

/-- C4: for every template without a placeholder, `printfmt` runs to the end of
the template and writes the template with its escape sequences decoded,
whatever the escaping mode, the parameter count and the parameters are. -/
theorem printfmt_no_placeholder (escapeJs charSigned : Bool) (nparam : Nat)
    (format : List Nat) (params : List (List Nat))
    (h : hasPlaceholderFrom false (cstr format) = false) :
    printfmt escapeJs charSigned nparam format params =
      ⟨decodeEscapesFrom false (cstr format), .done⟩ := by
  have hs := noPlaceholder_segments (cstr format) false h
  simp only [Bool.false_eq_true, if_false] at hs
  unfold printfmt
  rw [printfmtLoop_spec escapeJs charSigned (params.take nparam) format .literal false false 0
    rfl rfl (by simp) (by rw [hs.1]; exact indicesBelow_map_lit _ _)]
  rw [hs.1, hs.2, renderSegments_map_lit]
  rfl

theorem printfmt_no_placeholder_witness :
    printfmt true true 1 (bytes "a\\n\\\x7bb\\\\\\q") [bytes "x"] =
      ⟨decodeEscapesFrom false (cstr (bytes "a\\n\\\x7bb\\\\\\q")), .done⟩ ∧
    decodeEscapesFrom false (cstr (bytes "a\\n\\\x7bb\\\\\\q")) = bytes "a\n\x7bb\\q" :=
  ⟨printfmt_no_placeholder true true 1 (bytes "a\\n\\\x7bb\\\\\\q") [bytes "x"] (by decide),
   by decide⟩

theorem indicesBelow_mono (k m : Nat) (hkm : k ≤ m) (segs : List Segment)
    (h : indicesBelow k segs = true) : indicesBelow m segs = true := by
  induction segs with
  | nil => rfl
  | cons seg rest ih =>
    rw [indicesBelow_cons] at h ⊢
    exact ⟨fun n hn => Nat.lt_of_lt_of_le (h.1 n hn) hkm, ih h.2⟩

theorem renderSegments_congr (escapeJs charSigned : Bool) (values values2 : List (List Nat))
    (segs : List Segment)
    (h : ∀ seg ∈ segs, segmentText escapeJs charSigned values2 seg =
      segmentText escapeJs charSigned values seg) :
    renderSegments escapeJs charSigned values2 segs =
      renderSegments escapeJs charSigned values segs := by
  induction segs with
  | nil => rfl
  | cons seg rest ih =>
    rw [renderSegments_cons, renderSegments_cons, h seg (List.mem_cons_self _ _),
      ih (fun x hx => h x (List.mem_cons_of_mem _ hx))]

theorem segmentText_set (escapeJs charSigned : Bool) (values : List (List Nat)) (i : Nat)
    (v : List Nat) (seg : Segment) (hseg : seg ≠ .param i) :
    segmentText escapeJs charSigned (values.set i v) seg =
      segmentText escapeJs charSigned values seg := by
  cases seg with
  | lit c => rfl
  | param n =>
    have hne : i ≠ n := fun h => hseg (by rw [h])
    simp only [segmentText, List.getD_eq_getElem?_getD, List.getElem?_set_ne hne]

/-- What `printfmt` writes and how it ends, for a call that supplies `nparam`
values and a template whose placeholders (up to the first malformed one) are
all below `nparam`. -/
theorem printfmt_spec (escapeJs charSigned : Bool) (nparam : Nat) (format : List Nat)
    (values : List (List Nat)) (hlen : values.length = nparam) (hint : nparam < 2147483648)
    (hidx : indicesBelow nparam (segmentsFrom .literal (cstr format)) = true) :
    printfmt escapeJs charSigned nparam format values =
      ⟨renderSegments escapeJs charSigned values (segmentsFrom .literal (cstr format)),
       if malformedFrom .literal (cstr format) then .malformed else .done⟩ := by
  unfold printfmt
  have ht : values.take nparam = values := by rw [← hlen]; exact List.take_length _
  rw [ht]
  exact printfmtLoop_spec escapeJs charSigned values format .literal false false 0 rfl rfl
    (by simp) (indicesBelow_mono _ _ (by omega) _ hidx)

/-- C5: with escaping off and every placeholder index below `nparam`, what
`printfmt` writes is the concatenation, in template order, of the decoded
literal characters and of `values[n]` for each placeholder `{n}`; replacing
`values[i]` leaves the text of every segment other than `{i}` unchanged, and
leaves the whole output unchanged when the template has no `{i}`. -/
theorem printfmt_substitution (charSigned : Bool) (nparam : Nat) (format : List Nat)
    (values : List (List Nat)) (hlen : values.length = nparam) (hint : nparam < 2147483648)
    (hidx : indicesBelow nparam (segmentsFrom .literal (cstr format)) = true) :
    (printfmt false charSigned nparam format values).out =
      ((segmentsFrom .literal (cstr format)).map (segmentText false charSigned values)).flatten ∧
    (∀ (i : Nat) (v : List Nat),
      (printfmt false charSigned nparam format (values.set i v)).out =
        ((segmentsFrom .literal (cstr format)).map
          (segmentText false charSigned (values.set i v))).flatten ∧
      ∀ seg ∈ segmentsFrom .literal (cstr format), seg ≠ .param i →
        segmentText false charSigned (values.set i v) seg =
          segmentText false charSigned values seg) ∧
    (∀ (i : Nat) (v : List Nat), Segment.param i ∉ segmentsFrom .literal (cstr format) →
      (printfmt false charSigned nparam format (values.set i v)).out =
        (printfmt false charSigned nparam format values).out) := by
  have hflat : ∀ vals segs, (segs.map (segmentText false charSigned vals)).flatten =
      renderSegments false charSigned vals segs := by
    intro vals segs; simp [renderSegments, List.flatMap]
  have hset : ∀ (i : Nat) (v : List Nat),
      (printfmt false charSigned nparam format (values.set i v)).out =
        renderSegments false charSigned (values.set i v) (segmentsFrom .literal (cstr format)) := by
    intro i v
    rw [printfmt_spec false charSigned nparam format (values.set i v)
      (by rw [List.length_set]; exact hlen) hint hidx]
  refine ⟨?_, ?_, ?_⟩
  · rw [printfmt_spec false charSigned nparam format values hlen hint hidx, hflat]
  · intro i v
    refine ⟨by rw [hset, hflat], ?_⟩
    intro seg _ hseg
    exact segmentText_set false charSigned values i v seg hseg
  · intro i v hi
    rw [hset, printfmt_spec false charSigned nparam format values hlen hint hidx]
    apply renderSegments_congr
    intro seg hseg
    exact segmentText_set false charSigned values i v seg (fun h => hi (h ▸ hseg))

theorem printfmt_substitution_witness :
    (printfmt false true 3 (bytes "first: {0}, second: {1}, third: {2}")
      [bytes "a", bytes "b", bytes "c"]).out = bytes "first: a, second: b, third: c" :=
  (printfmt_substitution true 3 (bytes "first: {0}, second: {1}, third: {2}")
    [bytes "a", bytes "b", bytes "c"] (by decide) (by decide) (by decide)).1.trans (by decide)

/-! ## Malformed templates and the run -/

theorem stderrRead_flags (cfg : Config) (st : State) (r : ReadResult) :
    (stderrRead cfg st r).doneStderr = (st.doneStderr || decide (r = .closed)) ∧
    (stderrRead cfg st r).doneStdout = st.doneStdout := by
  cases r with
  | closed => simp [stderrRead]
  | data b =>
    unfold stderrRead
    rcases h : feedByte STDERR_BUFSIZE st.stderrBuf b with ⟨buf, _ | line⟩ <;> simp [h]

theorem stdoutRead_flags (cfg : Config) (st : State) (r : ReadResult) :
    (stdoutRead cfg st r).doneStdout = (st.doneStdout || decide (r = .closed)) ∧
    (stdoutRead cfg st r).doneStderr = st.doneStderr := by
  cases r with
  | closed => simp [stdoutRead]
  | data b =>
    unfold stdoutRead
    rcases h : feedByte STDOUT_BUFSIZE st.stdoutBuf b with ⟨buf, _ | line⟩ <;> simp [h]

theorem iteration_flags (cfg cfg2 : Config) (st st2 : State) (e o : Option ReadResult)
    (h1 : st.doneStderr = st2.doneStderr) (h2 : st.doneStdout = st2.doneStdout) :
    (iteration cfg st e o).doneStderr = (iteration cfg2 st2 e o).doneStderr ∧
    (iteration cfg st e o).doneStdout = (iteration cfg2 st2 e o).doneStdout := by
  unfold iteration
  cases e with
  | none =>
    cases o with
    | none => exact ⟨h1, h2⟩
    | some r =>
      simp only [← h2]
      cases hd : st.doneStdout with
      | true => simp [h1, h2.symm.trans hd, hd]
      | false =>
        simp only [Bool.false_eq_true, if_false]
        rw [(stdoutRead_flags cfg st r).1, (stdoutRead_flags cfg st r).2,
          (stdoutRead_flags cfg2 st2 r).1, (stdoutRead_flags cfg2 st2 r).2, h1, h2]
        exact ⟨rfl, rfl⟩
  | some re =>
    have hA : (if st.doneStderr then st else stderrRead cfg st re).doneStderr =
        (if st2.doneStderr then st2 else stderrRead cfg2 st2 re).doneStderr := by
      rw [← h1]
      cases st.doneStderr with
      | true => simpa using h1
      | false =>
        simp only [Bool.false_eq_true, if_false]
        rw [(stderrRead_flags cfg st re).1, (stderrRead_flags cfg2 st2 re).1, h1]
    have hB : (if st.doneStderr then st else stderrRead cfg st re).doneStdout =
        (if st2.doneStderr then st2 else stderrRead cfg2 st2 re).doneStdout := by
      rw [← h1]
      cases st.doneStderr with
      | true => simpa using h2
      | false =>
        simp only [Bool.false_eq_true, if_false]
        rw [(stderrRead_flags cfg st re).2, (stderrRead_flags cfg2 st2 re).2, h2]
    cases o with
    | none => exact ⟨hA, hB⟩
    | some r =>
      simp only []
      generalize (if st.doneStderr then st else stderrRead cfg st re) = s1 at hA hB ⊢
      generalize (if st2.doneStderr then st2 else stderrRead cfg2 st2 re) = s2 at hA hB ⊢
      rw [← hB]
      cases hd : s1.doneStdout with
      | true => simp [hA, hB.symm.trans hd, hd]
      | false =>
        simp only [Bool.false_eq_true, if_false]
        rw [(stdoutRead_flags cfg s1 r).1, (stdoutRead_flags cfg s1 r).2,
          (stdoutRead_flags cfg2 s2 r).1, (stdoutRead_flags cfg2 s2 r).2, hA, hB]
        exact ⟨rfl, rfl⟩

theorem run_exitCode (cfg : Config) (events : List Event) (status : ChildStatus) :
    (run cfg events status).map RunResult.exitCode =
      exitCodeAfter status (readLoop cfg State.init events) := by
  unfold run
  cases readLoop cfg State.init events with
  | finished st => cases status <;> rfl
  | failed st => rfl
  | waiting st => rfl

theorem readLoop_exitCode_congr (cfg cfg2 : Config) (status : ChildStatus) :
    ∀ (events : List Event) (st st2 : State), st.doneStderr = st2.doneStderr →
      st.doneStdout = st2.doneStdout →
      exitCodeAfter status (readLoop cfg st events) =
        exitCodeAfter status (readLoop cfg2 st2 events) := by
  intro events
  induction events with
  | nil =>
    intro st st2 h1 h2
    simp only [readLoop, h1, h2]
    split <;> rfl
  | cons e rest ih =>
    intro st st2 h1 h2
    simp only [readLoop, h1, h2]
    split
    · rfl
    · cases e with
      | selectFailed => rfl
      | ready a b =>
        have := iteration_flags cfg cfg2 st st2 a b h1 h2
        exact ih _ _ this.1 this.2

/-- C8, as stated, fails: a run in which the stdout template has a letter
inside a placeholder.  `printfmt` returns -1 on the first stdout line, the run
goes on (the later stderr line is rendered) and the wrapper exits with the
child's exit code 0. -/
theorem malformed_template_run_continues :
    malformedFrom .literal (cstr malformedExample.stdoutTemplate) = true ∧
    (printfmt false true 1 malformedExample.stdoutTemplate [[104, 10, 0]]).status = .malformed ∧
    run malformedExample malformedExampleEvents (.exited 0) =
      some { out := bytes "E:b\n;", exitCode := 0 } := by
  decide

/-- C8, amended: for every template in which a character other than a digit or
the closing brace occurs inside a placeholder (the placeholders before it being
in range), `printfmt` writes the rendering of the template up to that
placeholder and returns -1.  The result is not looked at: whether the run ends
and with which exit code is the same for all templates, and when the loop has
finished and the child has exited normally the exit code is the child's. -/
theorem malformed_template_not_fatal (escapeJs charSigned : Bool) (nparam : Nat)
    (format : List Nat) (values : List (List Nat)) (hlen : values.length = nparam)
    (hint : nparam < 2147483648)
    (hidx : indicesBelow nparam (segmentsFrom .literal (cstr format)) = true)
    (hbad : malformedFrom .literal (cstr format) = true) :
    printfmt escapeJs charSigned nparam format values =
      ⟨renderSegments escapeJs charSigned values (segmentsFrom .literal (cstr format)),
       .malformed⟩ ∧
    (∀ (cfg cfg2 : Config) (events : List Event) (status : ChildStatus),
      (run cfg events status).map RunResult.exitCode =
        (run cfg2 events status).map RunResult.exitCode) ∧
    (∀ (cfg : Config) (events : List Event) (st : State) (code : Nat),
      readLoop cfg State.init events = .finished st →
        ∃ out, run cfg events (.exited code) = some { out := out, exitCode := code }) := by
  refine ⟨?_, ?_, ?_⟩
  · rw [printfmt_spec escapeJs charSigned nparam format values hlen hint hidx, hbad]
    rfl
  · intro cfg cfg2 events status
    rw [run_exitCode, run_exitCode]
    exact readLoop_exitCode_congr cfg cfg2 status events _ _ rfl rfl
  · intro cfg events st code h
    unfold run
    rw [h]
    exact ⟨_, rfl⟩

theorem malformed_template_not_fatal_witness :
    printfmt false true 1 (bytes "a{0}b{x}c{0}") [bytes "v"] = ⟨bytes "avb", .malformed⟩ :=
  (malformed_template_not_fatal false true 1 (bytes "a{0}b{x}c{0}") [bytes "v"]
    (by decide) (by decide) (by decide) (by decide)).1.trans (by decide)

/-! ## Line reassembly -/

theorem isTerminator_iff (b : Nat) : isTerminator b = true ↔ b = 13 ∨ b = 10 := by
  simp [isTerminator]

theorem lineComplete_snoc (bufsize : Nat) (buf : List Nat) (b : Nat) :
    lineComplete bufsize (buf ++ [b]) =
      (isTerminator b || decide (buf.length + 1 = bufsize - 1)) := by
  unfold lineComplete
  rw [List.getLast?_concat, List.length_append, List.length_singleton]
  by_cases h : isTerminator b = true
  · have h2 := (isTerminator_iff b).mp h
    rw [h, Bool.true_or]
    apply decide_eq_true
    rcases h2 with h2 | h2
    · exact Or.inl (by rw [h2])
    · exact Or.inr (Or.inl (by rw [h2]))
  · have hn : ¬ (b = 13 ∨ b = 10) := fun h2 => h ((isTerminator_iff b).mpr h2)
    have hf : isTerminator b = false := by simpa using h
    rw [hf, Bool.false_or]
    apply decide_eq_decide.mpr
    constructor
    · rintro (h1 | h1 | h1)
      · exact absurd (Or.inl (Option.some.inj h1)) hn
      · exact absurd (Or.inr (Option.some.inj h1)) hn
      · exact h1
    · intro h1; exact Or.inr (Or.inr h1)

theorem feedByte_eq (bufsize : Nat) (buf : List Nat) (b : Nat) :
    feedByte bufsize buf b =
      if isTerminator b || decide (buf.length + 1 = bufsize - 1) then ([], some (buf ++ [b]))
      else (buf ++ [b], none) := by
  unfold feedByte
  rw [lineComplete_snoc]

theorem feedChannel_cons_complete (bufsize : Nat) (buf : List Nat) (b : Nat) (rest : List Nat)
    (h : (isTerminator b || decide (buf.length + 1 = bufsize - 1)) = true) :
    feedChannel bufsize buf (b :: rest) =
      ((feedChannel bufsize [] rest).1, (buf ++ [b]) :: (feedChannel bufsize [] rest).2) := by
  conv_lhs => unfold feedChannel
  rw [feedByte_eq, if_pos h]

theorem feedChannel_cons_continue (bufsize : Nat) (buf : List Nat) (b : Nat) (rest : List Nat)
    (h : (isTerminator b || decide (buf.length + 1 = bufsize - 1)) = false) :
    feedChannel bufsize buf (b :: rest) = feedChannel bufsize (buf ++ [b]) rest := by
  conv_lhs => unfold feedChannel
  rw [feedByte_eq, if_neg (by simp [h])]

theorem feedChannel_short (bufsize : Nat) :
    ∀ (s buf : List Nat), (∀ b ∈ s, b ≠ 13 ∧ b ≠ 10) → buf.length + s.length < bufsize - 1 →
      feedChannel bufsize buf s = (buf ++ s, []) := by
  intro s
  induction s with
  | nil => intro buf _ _; simp [feedChannel]
  | cons b rest ih =>
    intro buf hnt hlen
    have hb := hnt b (List.mem_cons_self _ _)
    have hterm : isTerminator b = false := by
      cases h : isTerminator b with
      | false => rfl
      | true => have := (isTerminator_iff b).mp h; omega
    simp only [List.length_cons] at hlen
    rw [feedChannel_cons_continue bufsize buf b rest
      (by rw [hterm, Bool.false_or]; exact decide_eq_false (by omega))]
    rw [ih (buf ++ [b]) (fun x hx => hnt x (List.mem_cons_of_mem _ hx))
      (by rw [List.length_append, List.length_singleton]; omega)]
    simp

theorem feedChannel_fill (bufsize : Nat) :
    ∀ (s buf rest : List Nat), (∀ b ∈ s, b ≠ 13 ∧ b ≠ 10) → s ≠ [] →
      buf.length + s.length = bufsize - 1 →
      feedChannel bufsize buf (s ++ rest) =
        ((feedChannel bufsize [] rest).1, (buf ++ s) :: (feedChannel bufsize [] rest).2) := by
  intro s
  induction s with
  | nil => intro buf rest _ h _; exact absurd rfl h
  | cons b s ih =>
    intro buf rest hnt _ hlen
    have hb := hnt b (List.mem_cons_self _ _)
    have hterm : isTerminator b = false := by
      cases h : isTerminator b with
      | false => rfl
      | true => have := (isTerminator_iff b).mp h; omega
    simp only [List.length_cons] at hlen
    rw [List.cons_append]
    cases s with
    | nil =>
      simp only [List.length_nil] at hlen
      rw [List.nil_append, feedChannel_cons_complete bufsize buf b rest
        (by rw [hterm, Bool.false_or]; exact decide_eq_true (by omega))]
    | cons c s2 =>
      rw [feedChannel_cons_continue bufsize buf b _
        (by rw [hterm, Bool.false_or]; exact decide_eq_false (by simp at hlen; omega))]
      rw [ih (buf ++ [b]) rest (fun x hx => hnt x (List.mem_cons_of_mem _ hx)) (by simp)
        (by rw [List.length_append, List.length_singleton]; omega)]
      simp

/-- C10: on either channel, a stream of bytes none of which is a terminator
completes no line while fewer than 1023 bytes have been read; the 1023rd byte
completes a line made of exactly the first 1023 bytes, and the rest of the
stream is read into an empty buffer. -/
theorem forced_flush (bufsize : Nat) (hb : bufsize = STDOUT_BUFSIZE ∨ bufsize = STDERR_BUFSIZE)
    (stream : List Nat) (hnt : ∀ b ∈ stream, b ≠ 13 ∧ b ≠ 10) :
    (stream.length < 1023 → feedChannel bufsize [] stream = (stream, [])) ∧
    (1023 ≤ stream.length →
      (stream.take 1023).length = 1023 ∧
      feedChannel bufsize [] stream =
        ((feedChannel bufsize [] (stream.drop 1023)).1,
         stream.take 1023 :: (feedChannel bufsize [] (stream.drop 1023)).2)) := by
  have hsize : bufsize - 1 = 1023 := by
    rcases hb with h | h <;> rw [h] <;> rfl
  constructor
  · intro hlen
    have := feedChannel_short bufsize stream [] hnt (by simp; omega)
    simpa using this
  · intro hlen
    have htake : (stream.take 1023).length = 1023 := by
      rw [List.length_take]; omega
    refine ⟨htake, ?_⟩
    have h := feedChannel_fill bufsize (stream.take 1023) [] (stream.drop 1023)
      (fun x hx => hnt x (List.mem_of_mem_take hx))
      (by intro h0; rw [h0] at htake; simp at htake) (by simp; omega)
    rw [List.take_append_drop] at h
    simpa using h

theorem forced_flush_witness :
    feedChannel STDOUT_BUFSIZE [] (List.replicate 1025 97) =
      ((feedChannel STDOUT_BUFSIZE [] ((List.replicate 1025 97).drop 1023)).1,
       (List.replicate 1025 97).take 1023 ::
         (feedChannel STDOUT_BUFSIZE [] ((List.replicate 1025 97).drop 1023)).2) :=
  ((forced_flush STDOUT_BUFSIZE (Or.inl rfl) (List.replicate 1025 97)
    (fun b hb => by rw [List.eq_of_mem_replicate hb]; omega)).2
    (by rw [List.length_replicate]; omega)).2

theorem longestRunFrom_ge (s : List Nat) : ∀ k, k ≤ longestRunFrom k s := by
  induction s with
  | nil => intro k; exact Nat.le_refl _
  | cons b rest ih =>
    intro k
    unfold longestRunFrom
    split
    · exact Nat.le_max_left _ _
    · exact Nat.le_trans (Nat.le_succ k) (ih (k + 1))

theorem feedChannel_count (bufsize : Nat) :
    ∀ (s buf : List Nat), longestRunFrom buf.length s ≤ bufsize - 2 →
      (feedChannel bufsize buf s).2.length = s.countP isTerminator ∧
      (feedChannel bufsize buf s).1.length = trailingRunFrom buf.length s := by
  intro s
  induction s with
  | nil => intro buf _; simp [feedChannel, trailingRunFrom]
  | cons b rest ih =>
    intro buf hrun
    unfold longestRunFrom at hrun
    unfold trailingRunFrom
    by_cases hterm : isTerminator b = true
    · rw [if_pos hterm] at hrun
      rw [if_pos hterm, feedChannel_cons_complete bufsize buf b rest (by rw [hterm]; rfl)]
      have := ih [] (Nat.le_trans (Nat.le_max_right _ _) hrun)
      simp only [List.length_nil] at this
      rw [List.countP_cons_of_pos _ _ hterm]
      simp only [List.length_cons]
      exact ⟨by rw [this.1], this.2⟩
    · rw [if_neg hterm] at hrun
      have hge := longestRunFrom_ge rest (buf.length + 1)
      have hf : isTerminator b = false := by simpa using hterm
      rw [if_neg hterm, feedChannel_cons_continue bufsize buf b rest
        (by rw [hf, Bool.false_or]; exact decide_eq_false (by omega))]
      have := ih (buf ++ [b]) (by rw [List.length_append, List.length_singleton]; exact hrun)
      rw [List.length_append, List.length_singleton] at this
      rw [List.countP_cons_of_neg _ _ hterm]
      exact this

theorem trailingRunFrom_pos (s : List Nat) :
    ∀ k, (∃ b, s.getLast? = some b ∧ b ≠ 13 ∧ b ≠ 10) → 0 < trailingRunFrom k s := by
  induction s with
  | nil => intro k ⟨b, h, _⟩; simp at h
  | cons c rest ih =>
    intro k ⟨b, hlast, hb⟩
    unfold trailingRunFrom
    cases rest with
    | nil =>
      simp only [List.getLast?_singleton, Option.some.injEq] at hlast
      subst hlast
      have hf : ¬ isTerminator c = true := fun h => by
        have := (isTerminator_iff c).mp h; omega
      rw [if_neg hf]
      unfold trailingRunFrom
      omega
    | cons d rest2 =>
      rw [List.getLast?_cons_cons] at hlast
      split
      · exact ih 0 ⟨b, hlast, hb⟩
      · exact ih (k + 1) ⟨b, hlast, hb⟩

/-- C9, as stated, fails: a stream of 1024 bytes without any terminator (N = 0,
remainder of length 1024) completes one line during normal feeding, not none. -/
theorem line_count_fails_on_long_line :
    (List.replicate 1024 97).countP isTerminator = 0 ∧
    (List.replicate 1024 97).getLast? = some 97 ∧
    (feedChannel STDOUT_BUFSIZE [] (List.replicate 1024 97)).2.length = 1 ∧
    (feedChannel STDOUT_BUFSIZE [] (List.replicate 1024 97)).2.length ≠
      (List.replicate 1024 97).countP isTerminator := by
  have h3 : (feedChannel STDOUT_BUFSIZE [] (List.replicate 1024 97)).2.length = 1 := by
    have h := feedChannel_fill STDOUT_BUFSIZE (List.replicate 1023 97) [] [97]
      (fun b hb => by rw [List.eq_of_mem_replicate hb]; omega)
      (by intro h0; have := congrArg List.length h0
          rw [List.length_replicate, List.length_nil] at this; omega)
      (by rw [List.length_replicate]; rfl)
    rw [show (1024 : Nat) = 1023 + 1 from rfl, List.replicate_succ', h]
    rfl
  have h1 : (List.replicate 1024 97).countP isTerminator = 0 := by
    rw [List.countP_replicate]; rfl
  refine ⟨h1, ?_, h3, by rw [h1, h3]; omega⟩
  rw [show 1024 = 1023 + 1 from rfl, List.replicate_succ', List.getLast?_concat]

/-- C9, amended: on either channel, a stream in which no run of bytes between
terminators is longer than capacity minus two (1022 bytes), with N terminators
and ending in an unterminated remainder, completes exactly N lines while it is
fed and leaves a non-empty buffer, which the flush after the loop hands on as
exactly one more line. -/
theorem line_count (bufsize : Nat) (hb : bufsize = STDOUT_BUFSIZE ∨ bufsize = STDERR_BUFSIZE)
    (stream : List Nat) (hrun : longestRunFrom 0 stream ≤ 1022)
    (hlast : ∃ b, stream.getLast? = some b ∧ b ≠ 13 ∧ b ≠ 10) :
    (feedChannel bufsize [] stream).2.length = stream.countP isTerminator ∧
    (residualLines (feedChannel bufsize [] stream).1).length = 1 := by
  have hsize : bufsize - 2 = 1022 := by
    rcases hb with h | h <;> rw [h] <;> rfl
  have h := feedChannel_count bufsize stream [] (by rw [hsize]; exact hrun)
  refine ⟨h.1, ?_⟩
  have hpos := trailingRunFrom_pos stream 0 hlast
  unfold residualLines
  rw [if_pos (by rw [h.2]; simp only [List.length_nil]; omega)]
  rfl

theorem line_count_witness :
    (feedChannel STDERR_BUFSIZE [] (bytes "ab\ncd\r\nef")).2.length = 3 ∧
    (residualLines (feedChannel STDERR_BUFSIZE [] (bytes "ab\ncd\r\nef")).1).length = 1 :=
  line_count STDERR_BUFSIZE (Or.inr rfl) (bytes "ab\ncd\r\nef") (by decide)
    ⟨102, by decide, by decide, by decide⟩

/-! ## The line classifier -/

theorem isDelimiter_iff (c : Nat) : isDelimiter c = true ↔ c = 32 ∨ c = 13 := by
  simp [isDelimiter]

theorem tokenize_nil : tokenize [] = [] := by
  simp [tokenize, List.splitOnP_nil]

theorem tokenize_cons_delim (c : Nat) (cs : List Nat) (h : c = 32 ∨ c = 13) :
    tokenize (c :: cs) = tokenize cs := by
  unfold tokenize
  rw [List.splitOnP_cons, if_pos ((isDelimiter_iff c).mpr h)]
  simp

theorem splitOnP_head (l : List Nat) :
    ∃ rest, l.splitOnP isDelimiter = l.takeWhile (fun c => !isDelimiter c) :: rest ∧
      rest.filter (fun f => !f.isEmpty) = tokenize (l.dropWhile (fun c => !isDelimiter c)) := by
  induction l with
  | nil => exact ⟨[], by simp [List.splitOnP_nil], by simp [tokenize_nil]⟩
  | cons c cs ih =>
    obtain ⟨rest, h1, h2⟩ := ih
    by_cases hc : isDelimiter c = true
    · refine ⟨cs.splitOnP isDelimiter, ?_, ?_⟩
      · rw [List.splitOnP_cons, if_pos hc]
        simp [hc]
      · rw [List.dropWhile_cons_of_neg (by simp [hc])]
        rw [tokenize_cons_delim c cs ((isDelimiter_iff c).mp hc)]
        rfl
    · refine ⟨rest, ?_, ?_⟩
      · rw [List.splitOnP_cons, if_neg hc, h1]
        simp [hc]
      · rw [List.dropWhile_cons_of_pos (by simpa using hc)]
        exact h2

theorem tokenize_cons_field (c : Nat) (cs : List Nat) (h : ¬ (c = 32 ∨ c = 13)) :
    tokenize (c :: cs) =
      (c :: cs.takeWhile (fun c => !isDelimiter c)) ::
        tokenize (cs.dropWhile (fun c => !isDelimiter c)) := by
  have hc : ¬ isDelimiter c = true := fun h2 => h ((isDelimiter_iff c).mp h2)
  obtain ⟨rest, h1, h2⟩ := splitOnP_head cs
  unfold tokenize at h2 ⊢
  rw [List.splitOnP_cons, if_neg hc, h1]
  simp [h2]

theorem lastIsDelim_cons (p : Bool) (x : Nat) (a : List Nat) :
    lastIsDelim p (x :: a) = lastIsDelim (decide (x = 32 ∨ x = 13)) a := by
  cases a with
  | nil => simp [lastIsDelim]
  | cons y ys =>
    unfold lastIsDelim
    rw [List.getLast?_cons_cons]
    cases h : (y :: ys).getLast? with
    | none => simp at h
    | some z => rfl

theorem lastIsDelim_concat (p : Bool) (a : List Nat) (x : Nat) :
    lastIsDelim p (a ++ [x]) = decide (x = 32 ∨ x = 13) := by
  simp [lastIsDelim, List.getLast?_concat]

theorem fieldStartsFrom_snoc (c : Nat) :
    ∀ (a : List Nat) (p : Bool) (i : Nat),
      fieldStartsFrom p i (a ++ [c]) =
        fieldStartsFrom p i a ++
          (if ¬ (c = 32 ∨ c = 13) ∧ lastIsDelim p a = true then [i + a.length] else []) := by
  intro a
  induction a with
  | nil =>
    intro p i
    simp only [List.nil_append, fieldStartsFrom, lastIsDelim, List.getLast?_nil, List.length_nil,
      Nat.add_zero]
    by_cases hc : c = 32 ∨ c = 13
    · simp [hc]
    · cases p <;> simp [hc]
  | cons x a ih =>
    intro p i
    rw [List.cons_append, lastIsDelim_cons]
    simp only [fieldStartsFrom, List.length_cons]
    have e : i + (a.length + 1) = i + 1 + a.length := by omega
    by_cases hx : x = 32 ∨ x = 13
    · rw [if_pos hx, if_pos hx, ih true (i + 1), e]
      simp [hx]
    · rw [if_neg hx, if_neg hx, ih false (i + 1), e]
      cases p <;> simp [hx]

theorem getD_append_cons (l1 l2 : List Nat) (x d : Nat) :
    (l1 ++ x :: l2).getD l1.length d = x := by
  induction l1 with
  | nil => rfl
  | cons y ys ih => simpa using ih

theorem set_append_cons (l1 l2 : List Nat) (x y : Nat) :
    (l1 ++ x :: l2).set l1.length y = l1 ++ y :: l2 := by
  simp

theorem zap_eq_zero (x : Nat) (hx : x ≠ 0) : zap x = 0 ↔ (x = 32 ∨ x = 13) := by
  unfold zap
  split_ifs with h
  · simp [h]
  · simp [hx, h]

theorem zap_of_not_delim (c : Nat) (h : ¬ (c = 32 ∨ c = 13)) : zap c = c := by
  unfold zap; rw [if_neg h]

theorem zap_of_delim (c : Nat) (h : c = 32 ∨ c = 13) : zap c = 0 := by
  unfold zap; rw [if_pos h]

/-- One iteration of the field loop at offset `a.length`, where `a` is the
part of the line already scanned and `c` is the byte at that offset. -/
theorem fieldStep_at (a b Z : List Nat) (c : Nat) (fields : List Nat) (h0 : 0 ∉ a) :
    fieldStep ⟨a.map zap ++ c :: b ++ Z, fields⟩ a.length =
      ⟨(a ++ [c]).map zap ++ b ++ Z,
       if ¬ (c = 32 ∨ c = 13) ∧ fields.length < 5 ∧ lastIsDelim true a = true
       then fields ++ [a.length] else fields⟩ := by
  have hbuf : a.map zap ++ c :: b ++ Z = a.map zap ++ c :: (b ++ Z) := by simp
  have hget : (a.map zap ++ c :: (b ++ Z)).getD a.length 0 = c := by
    have := getD_append_cons (a.map zap) (b ++ Z) c 0
    rwa [List.length_map] at this
  have hset : (a.map zap ++ c :: (b ++ Z)).set a.length 0 = a.map zap ++ 0 :: (b ++ Z) := by
    have := set_append_cons (a.map zap) (b ++ Z) c 0
    rwa [List.length_map] at this
  have hprev : (a.length = 0 ∨ (a.map zap ++ c :: (b ++ Z)).getD (a.length - 1) 0 = 0) ↔
      lastIsDelim true a = true := by
    rcases List.eq_nil_or_concat a with rfl | ⟨a2, x, ha⟩
    · simp [lastIsDelim]
    · rw [List.concat_eq_append] at ha
      subst ha
      have hx : x ≠ 0 := fun h => h0 (by simp [h])
      rw [lastIsDelim_concat]
      have hg : ((a2 ++ [x]).map zap ++ c :: (b ++ Z)).getD ((a2 ++ [x]).length - 1) 0
          = zap x := by
        have := getD_append_cons (a2.map zap) (c :: (b ++ Z)) (zap x) 0
        rw [List.length_map] at this
        simpa using this
      rw [hg, zap_eq_zero x hx]
      simp
  unfold fieldStep
  simp only [hbuf, hget]
  by_cases hc : c = 32 ∨ c = 13
  · rw [if_pos hc, hset, if_neg (by tauto)]
    simp [zap_of_delim c hc]
  · rw [if_neg hc]
    by_cases h2 : fields.length < 5 ∧ lastIsDelim true a = true
    · rw [if_pos ⟨h2.1, hprev.mpr h2.2⟩, if_pos ⟨hc, h2.1, h2.2⟩]
      simp [zap_of_not_delim c hc]
    · rw [if_neg (fun h => h2 ⟨h.1, hprev.mp h.2⟩), if_neg (fun h => h2 ⟨h.2.1, h.2.2⟩)]
      simp [zap_of_not_delim c hc]

theorem take5_snoc (S : List Nat) (x : Nat) :
    (S ++ [x]).take 5 = if (S.take 5).length < 5 then S.take 5 ++ [x] else S.take 5 := by
  by_cases h : S.length < 5
  · have h1 : S.take 5 = S := List.take_of_length_le (by omega)
    rw [h1, if_pos h]
    exact List.take_of_length_le (by simp; omega)
  · have h1 : (S.take 5).length = 5 := by rw [List.length_take]; omega
    rw [if_neg (by omega), List.take_append_of_le_length (by omega)]

/-- The state of the field loop after `n` iterations. -/
theorem scan_prefix (ln Z : List Nat) (h0 : 0 ∉ ln) :
    ∀ n, n ≤ ln.length →
      (List.range n).foldl fieldStep ⟨ln ++ Z, []⟩ =
        ⟨(ln.take n).map zap ++ ln.drop n ++ Z,
         (fieldStartsFrom true 0 (ln.take n)).take 5⟩ := by
  intro n
  induction n with
  | zero => intro _; simp [fieldStartsFrom]
  | succ n ih =>
    intro hn
    have hlt : n < ln.length := by omega
    rw [List.range_succ, List.foldl_append, ih (by omega)]
    simp only [List.foldl_cons, List.foldl_nil]
    have hdrop : ln.drop n = ln[n] :: ln.drop (n + 1) := List.drop_eq_getElem_cons hlt
    have htake : ln.take (n + 1) = ln.take n ++ [ln[n]] := by
      rw [List.take_succ, List.getElem?_eq_getElem hlt]; rfl
    have hlen : (ln.take n).length = n := by rw [List.length_take]; omega
    have h0a : 0 ∉ ln.take n := fun h => h0 (List.mem_of_mem_take h)
    have hstep := fieldStep_at (ln.take n) (ln.drop (n + 1)) Z ln[n]
      ((fieldStartsFrom true 0 (ln.take n)).take 5) h0a
    rw [hlen] at hstep
    rw [hdrop, hstep, htake, fieldStartsFrom_snoc, hlen, Nat.zero_add]
    congr 1
    by_cases hc : ln[n] = 32 ∨ ln[n] = 13
    · simp [hc]
    · by_cases hl : lastIsDelim true (List.take n ln) = true
      · simp only [hc, hl, not_false_eq_true, true_and, and_true, if_true]
        rw [take5_snoc]
      · simp [hc, hl]

theorem layout_mono (buf : List Nat) (k k2 : Nat) (ps : List Nat) (ts : List (List Nat))
    (hk : k ≤ k2) (h : Layout buf k2 ps ts) : Layout buf k ps ts := by
  cases ps with
  | nil => cases ts with
    | nil => trivial
    | cons t ts => exact h
  | cons p ps => cases ts with
    | nil => exact h
    | cons t ts =>
      unfold Layout at h ⊢
      exact ⟨Nat.le_trans hk h.1, h.2⟩

theorem layout_length (buf : List Nat) :
    ∀ (ps : List Nat) (ts : List (List Nat)) (k : Nat), Layout buf k ps ts →
      ps.length = ts.length := by
  intro ps
  induction ps with
  | nil =>
    intro ts k h
    cases ts with
    | nil => rfl
    | cons t ts => exact absurd h (by unfold Layout; exact not_false)
  | cons p ps ih =>
    intro ts k h
    cases ts with
    | nil => exact absurd h (by unfold Layout; exact not_false)
    | cons t ts =>
      unfold Layout at h
      simp only [List.length_cons]
      rw [ih ts _ h.2.2.2.2]

theorem zapped_field (Z : List Nat) :
    ∀ cs : List Nat, ∃ r, cs.map zap ++ 0 :: Z =
      cs.takeWhile (fun c => !isDelimiter c) ++ 0 :: r := by
  intro cs
  induction cs with
  | nil => exact ⟨Z, rfl⟩
  | cons c cs ih =>
    by_cases hc : c = 32 ∨ c = 13
    · refine ⟨cs.map zap ++ 0 :: Z, ?_⟩
      have hd : isDelimiter c = true := (isDelimiter_iff c).mpr hc
      rw [List.takeWhile_cons_of_neg (by simp [hd])]
      simp [zap_of_delim c hc]
    · obtain ⟨r, hr⟩ := ih
      refine ⟨r, ?_⟩
      have hd : ¬ isDelimiter c = true := fun h => hc ((isDelimiter_iff c).mp h)
      rw [List.takeWhile_cons_of_pos (by simpa using hd)]
      simp only [List.map_cons, List.cons_append, zap_of_not_delim c hc]
      rw [hr]

/-- The buffer left by the field loop holds, at each recorded offset, the
corresponding token of the line followed by a NUL. -/
theorem layout_scan (Z : List Nat) :
    ∀ (l pre : List Nat), 0 ∉ l →
      Layout (pre ++ l.map zap ++ 0 :: Z) pre.length
        (fieldStartsFrom true pre.length l) (tokenize l) ∧
      Layout (pre ++ l.map zap ++ 0 :: Z)
        (pre.length + (l.takeWhile (fun c => !isDelimiter c)).length + 1)
        (fieldStartsFrom false pre.length l)
        (tokenize (l.dropWhile (fun c => !isDelimiter c))) := by
  intro l
  induction l with
  | nil =>
    intro pre _
    simp only [fieldStartsFrom, List.dropWhile_nil, tokenize_nil]
    exact ⟨by unfold Layout; trivial, by unfold Layout; trivial⟩
  | cons c cs ih =>
    intro pre h0
    have h0c : c ≠ 0 := fun h => h0 (by simp [h])
    have h0s : 0 ∉ cs := fun h => h0 (List.mem_cons_of_mem _ h)
    have hbuf : pre ++ (c :: cs).map zap ++ 0 :: Z = (pre ++ [zap c]) ++ cs.map zap ++ 0 :: Z := by
      simp
    have ih := ih (pre ++ [zap c]) h0s
    rw [← hbuf, List.length_append, List.length_singleton] at ih
    by_cases hc : c = 32 ∨ c = 13
    · have hd : isDelimiter c = true := (isDelimiter_iff c).mpr hc
      simp only [fieldStartsFrom, if_pos hc]
      rw [tokenize_cons_delim c cs hc, List.takeWhile_cons_of_neg (by simp [hd]),
        List.dropWhile_cons_of_neg (by simp [hd]), tokenize_cons_delim c cs hc]
      exact ⟨layout_mono _ _ _ _ _ (Nat.le_succ _) ih.1, by simpa using ih.1⟩
    · have hd : ¬ isDelimiter c = true := fun h => hc ((isDelimiter_iff c).mp h)
      simp only [fieldStartsFrom, if_neg hc, if_true, Bool.false_eq_true, if_false]
      rw [tokenize_cons_field c cs hc, List.takeWhile_cons_of_pos (by simpa using hd),
        List.dropWhile_cons_of_pos (by simpa using hd)]
      have hlay : Layout (pre ++ (c :: cs).map zap ++ 0 :: Z)
          (pre.length + ((c :: cs.takeWhile (fun c => !isDelimiter c)).length) + 1)
          (fieldStartsFrom false (pre.length + 1) cs)
          (tokenize (cs.dropWhile (fun c => !isDelimiter c))) := by
        have := ih.2
        simp only [List.length_cons]
        have e : pre.length + ((cs.takeWhile (fun c => !isDelimiter c)).length + 1) + 1
            = pre.length + 1 + (cs.takeWhile (fun c => !isDelimiter c)).length + 1 := by omega
        rw [e]; exact this
      refine ⟨?_, hlay⟩
      unfold Layout
      refine ⟨Nat.le_refl _, ?_, by simp, ?_, hlay⟩
      · obtain ⟨r, hr⟩ := zapped_field Z cs
        refine ⟨r, ?_⟩
        rw [List.append_assoc, List.drop_left]
        simp only [List.map_cons, List.cons_append, zap_of_not_delim c hc]
        rw [hr]
      · intro hmem
        rcases List.mem_cons.mp hmem with h | h
        · exact h0c h.symm
        · exact h0s ((List.takeWhile_sublist _).subset h)

theorem cstr_append_zero (t r : List Nat) (h : 0 ∉ t) : cstr (t ++ 0 :: r) = t := by
  induction t with
  | nil => exact cstr_cons_zero r
  | cons c cs ih =>
    have hc : c ≠ 0 := fun e => h (by simp [e])
    rw [List.cons_append, cstr_cons_ne c _ hc,
      ih (fun hm => h (List.mem_cons_of_mem _ hm))]

theorem strncpy_line (l : List Nat) (n : Nat) (h0 : 0 ∉ l) (hlen : l.length < n) :
    strncpy (l ++ [0]) n = l ++ 0 :: List.replicate (n - l.length - 1) 0 := by
  unfold strncpy
  rw [cstr_append_zero l [] h0, List.take_of_length_le (by omega)]
  obtain ⟨m, hm⟩ : ∃ m, n - l.length = m + 1 := ⟨n - l.length - 1, by omega⟩
  rw [hm, List.replicate_succ]
  simp

theorem scanFields_eq (l : List Nat) (h0 : 0 ∉ l) (hlen : l.length < STDOUT_BUFSIZE) :
    scanFields (l ++ [0]) l.length =
      ⟨l.map zap ++ 0 :: List.replicate (STDOUT_BUFSIZE - l.length - 1) 0,
       (fieldStartsFrom true 0 l).take 5⟩ := by
  unfold scanFields
  rw [strncpy_line l STDOUT_BUFSIZE h0 hlen,
    scan_prefix l (0 :: List.replicate (STDOUT_BUFSIZE - l.length - 1) 0) h0 l.length
      (Nat.le_refl _)]
  simp

theorem at_offset (buf u v : List Nat) (p x y : Nat) (h : buf.drop p = u ++ x :: v) :
    buf.getD (p + u.length) 0 = x ∧ (buf.set (p + u.length) y).drop p = u ++ y :: v := by
  constructor
  · have := getD_append_cons u v x 0
    rw [← h] at this
    rw [← this, List.getD_eq_getElem?_getD, List.getD_eq_getElem?_getD, List.getElem?_drop]
  · rw [List.drop_set, if_neg (by omega), h]
    simp

theorem cstr_drop_set_after (buf t r : List Nat) (p j : Nat) (h : buf.drop p = t ++ 0 :: r)
    (h0 : 0 ∉ t) (hj : p + t.length ≤ j) : cstr ((buf.set j 0).drop p) = t := by
  rw [List.drop_set, if_neg (by omega), h,
    List.set_append_right _ _ (by omega)]
  cases hm : j - p - t.length with
  | zero => exact cstr_append_zero t r h0
  | succ m => exact cstr_append_zero t _ h0

theorem cstr_drop_set_before (buf t r : List Nat) (p j : Nat) (h : buf.drop p = t ++ 0 :: r)
    (h0 : 0 ∉ t) (hj : j < p) : cstr ((buf.set j 0).drop p) = t := by
  rw [List.drop_set_of_lt _ _ hj, h, cstr_append_zero t r h0]

theorem classify_short (l : List Nat) (h0 : 0 ∉ l) (hlen : l.length < STDOUT_BUFSIZE)
    (hshort : (tokenize l).length < 5) :
    isProgress (scanFields (l ++ [0]) l.length) = false := by
  have hlay := (layout_scan (List.replicate (STDOUT_BUFSIZE - l.length - 1) 0) l [] h0).1
  have hl := layout_length _ _ _ _ hlay
  simp only [List.length_nil] at hl
  rw [scanFields_eq l h0 hlen]
  unfold isProgress
  apply decide_eq_false
  intro h
  have := h.1
  simp only [List.length_take] at this
  omega

theorem classify_long (l : List Nat) (h0 : 0 ∉ l) (hlen : l.length < STDOUT_BUFSIZE)
    (t0 init t2 t3 t4 : List Nat) (x : Nat) (ts : List (List Nat))
    (htok : tokenize l = t0 :: (init ++ [x]) :: t2 :: t3 :: t4 :: ts) :
    isProgress (scanFields (l ++ [0]) l.length) = decide (x = 37) ∧
    (x = 37 → (progressParams (scanFields (l ++ [0]) l.length)).map cstr =
      [t0, init, t2, t3, t4]) := by
  have hlay := (layout_scan (List.replicate (STDOUT_BUFSIZE - l.length - 1) 0) l [] h0).1
  rw [scanFields_eq l h0 hlen]
  simp only [List.nil_append, List.length_nil] at hlay
  generalize l.map zap ++ 0 :: List.replicate (STDOUT_BUFSIZE - l.length - 1) 0 = buf at hlay ⊢
  rw [htok] at hlay
  generalize fieldStartsFrom true 0 l = ps at hlay ⊢
  rcases ps with _ | ⟨p0, _ | ⟨p1, _ | ⟨p2, _ | ⟨p3, _ | ⟨p4, ps⟩⟩⟩⟩⟩
  all_goals try (simp [Layout] at hlay; done)
  simp only [Layout] at hlay
  obtain ⟨_, ⟨r0, hr0⟩, _, hz0, hp1, ⟨r1, hr1⟩, _, hz1, hp2, ⟨r2, hr2⟩, _, hz2, hp3,
    ⟨r3, hr3⟩, _, hz3, hp4, ⟨r4, hr4⟩, _, hz4, _⟩ := hlay
  have hzi : 0 ∉ init := fun h => hz1 (List.mem_append_left _ h)
  have hx0 : x ≠ 0 := fun h => hz1 (by simp [h])
  have hfields : (p0 :: p1 :: p2 :: p3 :: p4 :: ps).take 5 = [p0, p1, p2, p3, p4] := rfl
  rw [hfields]
  have hperc : percentPos ⟨buf, [p0, p1, p2, p3, p4]⟩ = p1 + init.length := by
    unfold percentPos strlen
    simp only [List.getD_cons_succ, List.getD_cons_zero]
    rw [hr1, cstr_append_zero _ _ hz1, List.length_append, List.length_singleton]
    omega
  have hr1' : buf.drop p1 = init ++ x :: 0 :: r1 := by rw [hr1]; simp
  have hat := at_offset buf init (0 :: r1) p1 x 0 hr1'
  simp only [List.length_append, List.length_singleton] at hp2
  constructor
  · unfold isProgress
    rw [hperc, hat.1]
    simp
  · intro _
    unfold progressParams
    simp only [hperc, List.getD_cons_succ, List.getD_cons_zero, List.map_cons, List.map_nil]
    rw [cstr_drop_set_after buf t0 r0 p0 _ hr0 hz0 (by omega),
      hat.2, cstr_append_zero init _ hzi,
      cstr_drop_set_before buf t2 r2 p2 _ hr2 hz2 (by omega),
      cstr_drop_set_before buf t3 r3 p3 _ hr3 hz3 (by omega),
      cstr_drop_set_before buf t4 r4 p4 _ hr4 hz4 (by omega)]

theorem tokenize_ne_nil (l : List Nat) : ∀ t ∈ tokenize l, t ≠ [] := by
  intro t ht
  unfold tokenize at ht
  have := (List.mem_filter.mp ht).2
  intro h
  rw [h] at this
  simp at this

/-- The classifier computes `classifySpec` on every line that has no NUL byte
and fits the buffer. -/
theorem classify_eq_spec (l : List Nat) (h0 : 0 ∉ l) (hlen : l.length < STDOUT_BUFSIZE) :
    classify l = classifySpec l := by
  unfold classify classifySpec
  simp only []
  by_cases hshort : (tokenize l).length < 5
  · rw [classify_short l h0 hlen hshort]
    rcases htok : tokenize l with _ | ⟨t0, _ | ⟨t1, _ | ⟨t2, _ | ⟨t3, _ | ⟨t4, ts⟩⟩⟩⟩⟩
    all_goals rw [htok] at hshort
    all_goals first
      | rfl
      | (simp only [List.length_cons] at hshort; omega)
  · have hge : 5 ≤ (tokenize l).length := by omega
    clear hshort
    rcases htok : tokenize l with _ | ⟨t0, _ | ⟨t1, _ | ⟨t2, _ | ⟨t3, _ | ⟨t4, ts⟩⟩⟩⟩⟩
    all_goals rw [htok] at hge
    all_goals try (simp only [List.length_cons, List.length_nil] at hge; omega)
    have ht1 : t1 ≠ [] := tokenize_ne_nil l t1 (by rw [htok]; simp)
    rcases List.eq_nil_or_concat t1 with h | ⟨init, x, h⟩
    · exact absurd h ht1
    · rw [List.concat_eq_append] at h
      subst h
      have := classify_long l h0 hlen t0 init t2 t3 t4 x ts htok
      rw [this.1]
      simp only [List.getLast?_concat, Option.some.injEq, List.dropLast_concat]
      by_cases hx : x = 37
      · rw [if_pos (by simpa using hx), if_pos hx, this.2 hx]
      · rw [if_neg (by simpa using hx), if_neg hx]

set_option maxRecDepth 100000 in
/-- C1, as stated, fails: a line with six fields, the second ending in a
percent sign, is classified as a progress update. -/
theorem classify_six_fields :
    (tokenize (bytes "f 1% 2K 2M 00:50 ETA\r")).length = 6 ∧
    classify (bytes "f 1% 2K 2M 00:50 ETA\r") =
      some [bytes "f", bytes "1", bytes "2K", bytes "2M", bytes "00:50"] := by
  decide

/-- C1, amended: a completed stdout line (without NUL byte, as long as the
buffer allows) is classified as a progress update if and only if tokenizing it
on spaces and carriage returns yields at least five fields and the second
field ends in a percent sign; every other such line takes the plain-line
branch: it is rendered with the stdout template, or dropped when it is a bare
terminator. -/
theorem classify_progress_iff (line : List Nat) (h0 : 0 ∉ line)
    (hlen : line.length < STDOUT_BUFSIZE) :
    ((classify line).isSome = true ↔
      5 ≤ (tokenize line).length ∧ ((tokenize line).getD 1 []).getLast? = some 37) ∧
    ((classify line).isSome = false → ∀ (cfg : Config) (shown : Bool),
      stdoutLine cfg shown line =
        (shown,
         if cstr (line ++ [0]) ≠ [10] ∧ cstr (line ++ [0]) ≠ [13] then
           (printfmt cfg.escapeJs cfg.charSigned 1 cfg.stdoutTemplate [line ++ [0]]).out
         else [])) := by
  constructor
  · rw [classify_eq_spec line h0 hlen]
    unfold classifySpec
    rcases tokenize line with _ | ⟨t0, _ | ⟨t1, _ | ⟨t2, _ | ⟨t3, _ | ⟨t4, ts⟩⟩⟩⟩⟩
    all_goals simp
  · intro hnone cfg shown
    have hp : isProgress (scanFields (line ++ [0]) line.length) = false := by
      unfold classify at hnone
      simp only [] at hnone
      cases hprog : isProgress (scanFields (line ++ [0]) line.length) with
      | false => rfl
      | true => rw [hprog] at hnone; simp at hnone
    unfold stdoutLine
    simp only [hp, Bool.false_eq_true, if_false]
    split <;> rfl

set_option maxRecDepth 100000 in
theorem classify_progress_iff_witness :
    (classify (bytes "a.txt  7% 1KB 2KB/s 00:01 ETA\r")).isSome = true ↔
      5 ≤ (tokenize (bytes "a.txt  7% 1KB 2KB/s 00:01 ETA\r")).length ∧
      ((tokenize (bytes "a.txt  7% 1KB 2KB/s 00:01 ETA\r")).getD 1 []).getLast? = some 37 :=
  (classify_progress_iff (bytes "a.txt  7% 1KB 2KB/s 00:01 ETA\r") (by decide) (by decide)).1

set_option maxRecDepth 100000 in
/-- A line with NUL bytes is outside the amended C1 and C2: `strncpy` stops at
the first NUL and pads `fieldBuf` with NULs, each of which the field loop
counts as the start of an empty field, so a line with two fields is classified
as a progress update. -/
theorem classify_nul_bytes :
    tokenize [97, 32, 53, 37, 0, 0, 0, 0, 10] = [[97], [53, 37, 0, 0, 0, 0, 10]] ∧
    classify [97, 32, 53, 37, 0, 0, 0, 0, 10] = some [[97], [53], [], [], []] := by
  decide

set_option maxRecDepth 100000 in
/-- C2, as stated, fails: a line with exactly five fields whose second field is
the percent sign alone is a progress update whose percent field is empty. -/
theorem classify_bare_percent :
    tokenize (bytes "a % b c d\r") = [bytes "a", bytes "%", bytes "b", bytes "c", bytes "d"] ∧
    classify (bytes "a % b c d\r") = some [bytes "a", [], bytes "b", bytes "c", bytes "d"] := by
  decide

/-- C2, amended: for every line (without NUL byte, as long as the buffer
allows) with exactly five fields delimited by spaces or carriage returns whose
second field ends in a percent sign, classification succeeds and returns five
field strings: the second field without its trailing percent sign (possibly
empty), and the other four fields unchanged, each of them non-empty. -/
theorem classify_five_fields (line : List Nat) (h0 : 0 ∉ line)
    (hlen : line.length < STDOUT_BUFSIZE) (t0 t1 t2 t3 t4 : List Nat)
    (htok : tokenize line = [t0, t1, t2, t3, t4]) (hpct : t1.getLast? = some 37) :
    classify line = some [t0, t1.dropLast, t2, t3, t4] ∧
    t1.dropLast ++ [37] = t1 ∧ t0 ≠ [] ∧ t2 ≠ [] ∧ t3 ≠ [] ∧ t4 ≠ [] := by
  have hne := tokenize_ne_nil line
  rw [htok] at hne
  refine ⟨?_, ?_, hne t0 (by simp), hne t2 (by simp), hne t3 (by simp), hne t4 (by simp)⟩
  · rw [classify_eq_spec line h0 hlen]
    unfold classifySpec
    rw [htok]
    simp only [hpct, if_true]
  · rcases List.eq_nil_or_concat t1 with h | ⟨init, x, h⟩
    · rw [h] at hpct; simp at hpct
    · rw [List.concat_eq_append] at h
      subst h
      rw [List.getLast?_concat] at hpct
      rw [List.dropLast_concat, Option.some.inj hpct]

set_option maxRecDepth 100000 in
theorem classify_five_fields_witness :
    classify (bytes "myfile.txt 50% 2112KB 2.1MB/s 00:50\r") =
      some [bytes "myfile.txt", bytes "50", bytes "2112KB", bytes "2.1MB/s", bytes "00:50"] :=
  (classify_five_fields (bytes "myfile.txt 50% 2112KB 2.1MB/s 00:50\r") (by decide) (by decide)
    (bytes "myfile.txt") (bytes "50%") (bytes "2112KB") (bytes "2.1MB/s") (bytes "00:50")
    (by decide) (by decide)).1

/-! ## End to end: a progress line -/

theorem tokenize_field_append (f rest : List Nat) (hf : f ≠ [])
    (hnd : ∀ c ∈ f, c ≠ 32 ∧ c ≠ 13) :
    tokenize (f ++ rest) =
      (f ++ rest.takeWhile (fun c => !isDelimiter c)) ::
        tokenize (rest.dropWhile (fun c => !isDelimiter c)) := by
  cases f with
  | nil => exact absurd rfl hf
  | cons c cs =>
    have hc := hnd c (List.mem_cons_self _ _)
    have hcs : ∀ a ∈ cs, (fun c => !isDelimiter c) a = true := by
      intro a ha
      have := hnd a (List.mem_cons_of_mem _ ha)
      simp [isDelimiter, this.1, this.2]
    rw [List.cons_append, tokenize_cons_field c _ (by omega),
      List.takeWhile_append_of_pos hcs, List.dropWhile_append_of_pos hcs]
    rfl

theorem tokenize_field_space (f rest : List Nat) (hf : f ≠ [])
    (hnd : ∀ c ∈ f, c ≠ 32 ∧ c ≠ 13) :
    tokenize (f ++ 32 :: rest) = f :: tokenize rest := by
  rw [tokenize_field_append f _ hf hnd]
  have h32 : ((fun c => !isDelimiter c) 32) = false := by decide
  rw [List.takeWhile_cons_of_neg (by simp [h32]), List.dropWhile_cons_of_neg (by simp [h32]),
    List.append_nil, tokenize_cons_delim 32 rest (Or.inl rfl)]

theorem tokenize_field_end (f term : List Nat) (hf : f ≠ [])
    (hnd : ∀ c ∈ f, c ≠ 32 ∧ c ≠ 13) (hterm : term = [] ∨ term = [13]) :
    tokenize (f ++ term) = [f] := by
  rw [tokenize_field_append f _ hf hnd]
  rcases hterm with rfl | rfl
  · simp [tokenize_nil]
  · have h13 : ((fun c => !isDelimiter c) 13) = false := by decide
    rw [List.takeWhile_cons_of_neg (by simp [h13]), List.dropWhile_cons_of_neg (by simp [h13]),
      List.append_nil, tokenize_cons_delim 13 [] (Or.inr rfl), tokenize_nil]

theorem tokenize_progressLine (f0 p f2 f3 f4 term : List Nat) (h0 : IsField f0)
    (hp : ∀ c ∈ p, c ≠ 0 ∧ c ≠ 32 ∧ c ≠ 13) (h2 : IsField f2) (h3 : IsField f3)
    (h4 : IsField f4) (hterm : term = [] ∨ term = [13]) :
    tokenize (progressLine f0 p f2 f3 f4 ++ term) = [f0, p ++ [37], f2, f3, f4] := by
  have e : progressLine f0 p f2 f3 f4 ++ term =
      f0 ++ 32 :: ((p ++ [37]) ++ 32 :: (f2 ++ 32 :: (f3 ++ 32 :: (f4 ++ term)))) := by
    simp [progressLine]
  have hp' : ∀ c ∈ p ++ [37], c ≠ 32 ∧ c ≠ 13 := by
    intro c hc
    rcases List.mem_append.mp hc with h | h
    · exact ⟨(hp c h).2.1, (hp c h).2.2⟩
    · simp at h; omega
  rw [e, tokenize_field_space f0 _ h0.1 (fun c hc => (h0.2 c hc).2),
    tokenize_field_space (p ++ [37]) _ (by simp) hp',
    tokenize_field_space f2 _ h2.1 (fun c hc => (h2.2 c hc).2),
    tokenize_field_space f3 _ h3.1 (fun c hc => (h3.2 c hc).2),
    tokenize_field_end f4 term h4.1 (fun c hc => (h4.2 c hc).2) hterm]

theorem progressLine_no_nul (f0 p f2 f3 f4 term : List Nat) (h0 : IsField f0)
    (hp : ∀ c ∈ p, c ≠ 0 ∧ c ≠ 32 ∧ c ≠ 13) (h2 : IsField f2) (h3 : IsField f3)
    (h4 : IsField f4) (hterm : term = [] ∨ term = [13]) :
    0 ∉ progressLine f0 p f2 f3 f4 ++ term := by
  intro h
  simp only [progressLine, List.mem_append, List.mem_singleton, List.mem_cons] at h
  have k0 := fun hm => (h0.2 0 hm).1 rfl
  have kp := fun hm => (hp 0 hm).1 rfl
  have k2 := fun hm => (h2.2 0 hm).1 rfl
  have k3 := fun hm => (h3.2 0 hm).1 rfl
  have k4 := fun hm => (h4.2 0 hm).1 rfl
  rcases hterm with rfl | rfl <;> simp at h <;> tauto

theorem str_replaceLoop_absent (substr replacement s : List Nat) (h : strstr s substr = none) :
    ∀ fuel, str_replaceLoop substr replacement fuel s = some s := by
  intro fuel
  cases fuel <;> simp [str_replaceLoop, h]

theorem translate_colonTemplate (charSigned : Bool) (fuel : Nat) :
    translateTemplates fuel { txtConfig charSigned with progressTemplate := colonTemplate } =
      some { txtConfig charSigned with progressTemplate := colonTemplate } := by
  have hA : ∀ (t sub rep : List Nat), strstr (cstr t) (cstr sub) = none →
      str_replace fuel t sub rep = some (cstr t) := by
    intro t sub rep h
    exact str_replaceLoop_absent _ _ _ h fuel
  have e1 := hA (bytes "") (bytes "%s") (bytes "{0}") (by decide)
  have e2 := hA (bytes "") (bytes "%c") (bytes "{0}") (by decide)
  have p1 := hA colonTemplate (bytes "%f") (bytes "{0}") (by decide)
  have p2 := hA colonTemplate (bytes "%p") (bytes "{1}") (by decide)
  have p3 := hA colonTemplate (bytes "%t") (bytes "{2}") (by decide)
  have p4 := hA colonTemplate (bytes "%s") (bytes "{3}") (by decide)
  have p5 := hA colonTemplate (bytes "%e") (bytes "{4}") (by decide)
  have hc : cstr colonTemplate = colonTemplate := by decide
  have hn : cstr (bytes "") = bytes "" := by decide
  rw [hc] at p1 p2 p3 p4 p5
  rw [hn] at e1 e2
  simp only [translateTemplates, translateProgress, txtConfig, TXT_STDOUT_TEMPLATE,
    TXT_STDERR_TEMPLATE, TXT_END_TEMPLATE, e1, e2, p1, p2, p3, p4, p5, Option.bind_eq_bind,
    Option.some_bind, Option.pure_def]

theorem translate_default (charSigned : Bool) (fuel : Nat) :
    translateTemplates (fuel + 1) (txtConfig charSigned) =
      some { txtConfig charSigned with progressTemplate := bytes "{1}\n" } := by
  have hA : ∀ (t sub rep : List Nat), strstr (cstr t) (cstr sub) = none →
      str_replace (fuel + 1) t sub rep = some (cstr t) := by
    intro t sub rep h
    exact str_replaceLoop_absent _ _ _ h (fuel + 1)
  have e1 := hA (bytes "") (bytes "%s") (bytes "{0}") (by decide)
  have e2 := hA (bytes "") (bytes "%c") (bytes "{0}") (by decide)
  have p1 := hA TXT_PROGRESS_TEMPLATE (bytes "%f") (bytes "{0}") (by decide)
  have p2 : str_replace (fuel + 1) (bytes "%p\n") (bytes "%p") (bytes "{1}") =
      some (bytes "{1}\n") := by
    unfold str_replace
    have hs : strstr (cstr (bytes "%p\n")) (cstr (bytes "%p")) = some 0 := by decide
    rw [str_replaceLoop, hs]
    simp only []
    have hr : List.take 0 (cstr (bytes "%p\n")) ++ cstr (bytes "{1}") ++
        List.drop (0 + (cstr (bytes "%p")).length) (cstr (bytes "%p\n")) = bytes "{1}\n" := by
      decide
    rw [hr]
    exact str_replaceLoop_absent _ _ _ (by decide) fuel
  have p3 := hA (bytes "{1}\n") (bytes "%t") (bytes "{2}") (by decide)
  have p4 := hA (bytes "{1}\n") (bytes "%s") (bytes "{3}") (by decide)
  have p5 := hA (bytes "{1}\n") (bytes "%e") (bytes "{4}") (by decide)
  have hc : cstr TXT_PROGRESS_TEMPLATE = bytes "%p\n" := by decide
  have hd : cstr (bytes "{1}\n") = bytes "{1}\n" := by decide
  have hn : cstr (bytes "") = bytes "" := by decide
  rw [hc] at p1
  rw [hd] at p3 p4 p5
  rw [hn] at e1 e2
  simp only [translateTemplates, translateProgress, txtConfig, TXT_STDOUT_TEMPLATE,
    TXT_STDERR_TEMPLATE, TXT_END_TEMPLATE, e1, e2, p1, p2, p3, p4, p5, Option.bind_eq_bind,
    Option.some_bind, Option.pure_def]

theorem segments_colonTemplate :
    segmentsFrom .literal (cstr colonTemplate) =
      [.param 0, .lit 58, .param 1, .lit 58, .param 2, .lit 58, .param 3, .lit 58, .param 4,
       .lit 10] := by
  decide

theorem segments_defaultTemplate :
    segmentsFrom .literal (cstr (bytes "{1}\n")) = [.param 1, .lit 10] := by
  decide

/-! ## printjs and the reference map -/

/-- On byte strings whose bytes are all below 0x80, and on all byte strings
where plain `char` is unsigned, `printjs` is the reference map applied to each
byte of the string. -/
theorem printjs_eq_reference (charSigned : Bool) (str : List Nat)
    (hbyte : ∀ b ∈ str, b < 256) (hlow : charSigned = false ∨ ∀ b ∈ str, b < 128) :
    printjs charSigned str = (cstr str).flatMap jsReference := by
  induction str with
  | nil => rfl
  | cons b rest ih =>
    have ih := ih (fun x hx => hbyte x (List.mem_cons_of_mem _ hx))
      (hlow.imp id (fun h x hx => h x (List.mem_cons_of_mem _ hx)))
    unfold printjs
    by_cases hb : b = 0
    · rw [if_pos hb, hb, cstr_cons_zero]; rfl
    · rw [if_neg hb, cstr_cons_ne b rest hb, List.flatMap_cons, ih]
      congr 1
      have hb256 := hbyte b (List.mem_cons_self _ _)
      rcases hlow with h | h
      · rw [h]; exact printjsChar_eq_reference_unsigned b hb256 hb
      · have hb128 := h b (List.mem_cons_self _ _)
        obtain ⟨k, rfl⟩ : ∃ k, b = k + 1 := ⟨b - 1, by omega⟩
        rcases printjsChar_eq_reference_ascii k (by omega) charSigned with h2 | h2
        · exact h2
        · omega

/-- Scenario E: in escaping mode a stdout line with a double quote and a
newline is rendered with the two-character sequences, without raw control
byte. -/
theorem printfmt_js_quote_newline :
    (printfmt true true 1 (bytes "ui.addOutput(\"{0}\");\n") [bytes "say \"hi\"\n"]).out =
      bytes "ui.addOutput(\"say \\\"hi\\\"\\n\");\n" := by
  decide

/-! ## The read loop and line reassembly -/

/-- The read loop, given one byte of the child's standard output per return of
`select`, keeps in `stdoutBuf` exactly what `feedChannel` computes. -/
theorem readLoop_stdout_stream (cfg : Config) :
    ∀ (s : List Nat) (st : State), st.doneStdout = false → st.doneStderr = false →
      ∃ st2, readLoop cfg st (s.map (fun b => Event.ready none (some (.data b)))) = .waiting st2 ∧
        st2.stdoutBuf = (feedChannel STDOUT_BUFSIZE st.stdoutBuf s).1 ∧
        st2.stderrBuf = st.stderrBuf ∧ st2.doneStdout = false ∧ st2.doneStderr = false := by
  intro s
  induction s with
  | nil =>
    intro st h1 h2
    exact ⟨st, by simp [readLoop, h1, h2], rfl, rfl, h1, h2⟩
  | cons b rest ih =>
    intro st h1 h2
    simp only [List.map_cons, readLoop, h1, h2, Bool.or_self, Bool.false_eq_true, if_false]
    have hit : iteration cfg st none (some (.data b)) = stdoutRead cfg st (.data b) := by
      simp [iteration, h1]
    rw [hit]
    unfold stdoutRead
    conv_rhs => unfold feedChannel
    rcases hf : feedByte STDOUT_BUFSIZE st.stdoutBuf b with ⟨buf, _ | line⟩
    · simp only [hf]
      exact ih _ h1 h2
    · simp only [hf]
      exact ih _ h1 h2

/-- The read loop, given one byte of the child's standard error per return of
`select`, keeps in `stderrBuf` exactly what `feedChannel` computes. -/
theorem readLoop_stderr_stream (cfg : Config) :
    ∀ (s : List Nat) (st : State), st.doneStdout = false → st.doneStderr = false →
      ∃ st2, readLoop cfg st (s.map (fun b => Event.ready (some (.data b)) none)) = .waiting st2 ∧
        st2.stderrBuf = (feedChannel STDERR_BUFSIZE st.stderrBuf s).1 ∧
        st2.stdoutBuf = st.stdoutBuf ∧ st2.doneStdout = false ∧ st2.doneStderr = false := by
  intro s
  induction s with
  | nil =>
    intro st h1 h2
    exact ⟨st, by simp [readLoop, h1, h2], rfl, rfl, h1, h2⟩
  | cons b rest ih =>
    intro st h1 h2
    simp only [List.map_cons, readLoop, h1, h2, Bool.or_self, Bool.false_eq_true, if_false]
    have hit : iteration cfg st (some (.data b)) none = stderrRead cfg st (.data b) := by
      simp [iteration, h2]
    rw [hit]
    unfold stderrRead
    conv_rhs => unfold feedChannel
    rcases hf : feedByte STDERR_BUFSIZE st.stderrBuf b with ⟨buf, _ | line⟩
    · simp only [hf]
      exact ih _ h1 h2
    · simp only [hf]
      exact ih _ h1 h2

/-! ## Lossless reassembly -/

theorem feedChannel_flatten (bufsize : Nat) :
    ∀ (s buf : List Nat),
      (feedChannel bufsize buf s).2.flatten ++ (feedChannel bufsize buf s).1 = buf ++ s := by
  intro s
  induction s with
  | nil => intro buf; simp [feedChannel]
  | cons b rest ih =>
    intro buf
    cases h : (isTerminator b || decide (buf.length + 1 = bufsize - 1)) with
    | true =>
      rw [feedChannel_cons_complete bufsize buf b rest h]
      simp only [List.flatten_cons, List.append_assoc]
      rw [ih []]
      simp
    | false =>
      rw [feedChannel_cons_continue bufsize buf b rest h, ih (buf ++ [b])]
      simp

/-- C20: on either channel (for any capacity), feeding a stream without NUL
bytes one byte at a time and flushing the residue hands on, as C strings, lines
whose concatenation in order is the stream itself. -/
theorem reassembly_lossless (bufsize : Nat) (stream : List Nat) (h0 : 0 ∉ stream) :
    (((feedChannel bufsize [] stream).2 ++ residualLines (feedChannel bufsize [] stream).1).map
      (fun l => cstr (l ++ [0]))).flatten = stream := by
  have hflat := feedChannel_flatten bufsize stream []
  rw [List.nil_append] at hflat
  have hres : (residualLines (feedChannel bufsize [] stream).1).flatten =
      (feedChannel bufsize [] stream).1 := by
    unfold residualLines
    split
    · simp
    · rename_i h
      have : (feedChannel bufsize [] stream).1 = [] := by
        cases hl : (feedChannel bufsize [] stream).1 with
        | nil => rfl
        | cons a as => rw [hl] at h; simp at h
      rw [this]; rfl
  have hall : ((feedChannel bufsize [] stream).2 ++
      residualLines (feedChannel bufsize [] stream).1).flatten = stream := by
    rw [List.flatten_append, hres, hflat]
  have hmap : ∀ l ∈ (feedChannel bufsize [] stream).2 ++
      residualLines (feedChannel bufsize [] stream).1, cstr (l ++ [0]) = l := by
    intro l hl
    apply cstr_append_zero
    intro hz
    apply h0
    rw [← hall]
    exact List.mem_flatten.mpr ⟨l, hl, hz⟩
  rw [List.map_congr_left hmap, List.map_id'']
  · exact hall
  · intro x; rfl

theorem reassembly_lossless_witness :
    (((feedChannel STDOUT_BUFSIZE [] (bytes "ab\r\ncd")).2 ++
      residualLines (feedChannel STDOUT_BUFSIZE [] (bytes "ab\r\ncd")).1).map
      (fun l => cstr (l ++ [0]))).flatten = bytes "ab\r\ncd" :=
  reassembly_lossless STDOUT_BUFSIZE (bytes "ab\r\ncd") (by decide)

/-! ## The buffer bound -/

theorem feedByte_cases (bufsize : Nat) (h2 : 2 ≤ bufsize) (buf : List Nat) (b : Nat)
    (hok : BufferOk bufsize buf) :
    (feedByte bufsize buf b = (buf ++ [b], none) ∧ BufferOk bufsize (buf ++ [b])) ∨
    (feedByte bufsize buf b = ([], some (buf ++ [b])) ∧
      (buf ++ [b]).length ≤ bufsize - 1) := by
  rw [feedByte_eq]
  cases h : (isTerminator b || decide (buf.length + 1 = bufsize - 1)) with
  | true =>
    right
    refine ⟨by simp, ?_⟩
    rw [List.length_append, List.length_singleton]
    have := hok.1
    omega
  | false =>
    left
    refine ⟨by simp, ?_, ?_⟩
    · rw [List.length_append, List.length_singleton]
      have h1 := hok.1
      have hne : ¬ (buf.length + 1 = bufsize - 1) := by
        intro e
        rw [decide_eq_true e, Bool.or_true] at h
        exact absurd h (by simp)
      omega
    · intro x hx
      rcases List.mem_append.mp hx with hx | hx
      · exact hok.2 x hx
      · have hxb : x = b := by simpa using hx
        have hnt : isTerminator b = false := by
          cases ht : isTerminator b with
          | false => rfl
          | true => rw [ht, Bool.true_or] at h; exact absurd h (by simp)
        rw [hxb]
        constructor
        · intro e; rw [e] at hnt; exact absurd hnt (by decide)
        · intro e; rw [e] at hnt; exact absurd hnt (by decide)

theorem bufferOk_nil (bufsize : Nat) : BufferOk bufsize [] :=
  ⟨Nat.zero_le _, fun _ h => absurd h (List.not_mem_nil _)⟩

theorem stderrRead_ok (cfg : Config) (st : State) (r : ReadResult)
    (h1 : BufferOk STDERR_BUFSIZE st.stderrBuf) (h2 : BufferOk STDOUT_BUFSIZE st.stdoutBuf) :
    BufferOk STDERR_BUFSIZE (stderrRead cfg st r).stderrBuf ∧
    BufferOk STDOUT_BUFSIZE (stderrRead cfg st r).stdoutBuf := by
  cases r with
  | closed => exact ⟨h1, h2⟩
  | data b =>
    unfold stderrRead
    rcases feedByte_cases STDERR_BUFSIZE (by decide) st.stderrBuf b h1 with ⟨e, hok⟩ | ⟨e, _⟩
    · simp only [e]; exact ⟨hok, h2⟩
    · simp only [e]; exact ⟨bufferOk_nil _, h2⟩

theorem stdoutRead_ok (cfg : Config) (st : State) (r : ReadResult)
    (h1 : BufferOk STDERR_BUFSIZE st.stderrBuf) (h2 : BufferOk STDOUT_BUFSIZE st.stdoutBuf) :
    BufferOk STDERR_BUFSIZE (stdoutRead cfg st r).stderrBuf ∧
    BufferOk STDOUT_BUFSIZE (stdoutRead cfg st r).stdoutBuf := by
  cases r with
  | closed => exact ⟨h1, h2⟩
  | data b =>
    unfold stdoutRead
    rcases feedByte_cases STDOUT_BUFSIZE (by decide) st.stdoutBuf b h2 with ⟨e, hok⟩ | ⟨e, _⟩
    · simp only [e]; exact ⟨h1, hok⟩
    · simp only [e]; exact ⟨h1, bufferOk_nil _⟩

theorem iteration_eq (cfg : Config) (st : State) (e o : Option ReadResult) :
    iteration cfg st e o = afterStdout cfg (afterStderr cfg st e) o := by
  cases e <;> cases o <;> rfl

theorem iteration_ok (cfg : Config) (st : State) (e o : Option ReadResult)
    (h1 : BufferOk STDERR_BUFSIZE st.stderrBuf) (h2 : BufferOk STDOUT_BUFSIZE st.stdoutBuf) :
    BufferOk STDERR_BUFSIZE (iteration cfg st e o).stderrBuf ∧
    BufferOk STDOUT_BUFSIZE (iteration cfg st e o).stdoutBuf := by
  rw [iteration_eq]
  have hA : BufferOk STDERR_BUFSIZE (afterStderr cfg st e).stderrBuf ∧
      BufferOk STDOUT_BUFSIZE (afterStderr cfg st e).stdoutBuf := by
    cases e with
    | none => exact ⟨h1, h2⟩
    | some r =>
      show BufferOk STDERR_BUFSIZE (if st.doneStderr then st else stderrRead cfg st r).stderrBuf ∧
        BufferOk STDOUT_BUFSIZE (if st.doneStderr then st else stderrRead cfg st r).stdoutBuf
      split
      · exact ⟨h1, h2⟩
      · exact stderrRead_ok cfg st r h1 h2
  cases o with
  | none => exact hA
  | some r =>
    show BufferOk STDERR_BUFSIZE (if (afterStderr cfg st e).doneStdout then afterStderr cfg st e
        else stdoutRead cfg (afterStderr cfg st e) r).stderrBuf ∧
      BufferOk STDOUT_BUFSIZE (if (afterStderr cfg st e).doneStdout then afterStderr cfg st e
        else stdoutRead cfg (afterStderr cfg st e) r).stdoutBuf
    split
    · exact hA
    · exact stdoutRead_ok cfg _ r hA.1 hA.2

theorem reachable_ok (cfg : Config) (st : State) (h : Reachable cfg st) :
    BufferOk STDERR_BUFSIZE st.stderrBuf ∧ BufferOk STDOUT_BUFSIZE st.stdoutBuf := by
  induction h with
  | init => exact ⟨bufferOk_nil _, bufferOk_nil _⟩
  | step st e o _ _ ih => exact iteration_ok cfg st e o ih.1 ih.2

/-- Every state in which the read loop ends or waits is reachable. -/
theorem readLoop_reachable (cfg : Config) :
    ∀ (events : List Event) (st : State), Reachable cfg st →
      Reachable cfg (readLoop cfg st events).state := by
  intro events
  induction events with
  | nil =>
    intro st h
    unfold readLoop
    split <;> exact h
  | cons e rest ih =>
    intro st h
    unfold readLoop
    split
    · exact h
    · rename_i hc
      cases e with
      | selectFailed => exact h
      | ready a b =>
        exact ih _ (Reachable.step st a b h (by simpa using hc))

/-- C11: in every reachable state of the read loop each channel's buffer holds
at most capacity minus two bytes; a byte read is appended inside the buffer,
and either leaves at most capacity minus two bytes, or completes a line of at
most capacity minus one bytes (so the NUL that ends it is inside the 1024-byte
buffer) and empties the buffer. -/
theorem buffer_bound (cfg : Config) (st : State) (h : Reachable cfg st) :
    st.stderrBuf.length ≤ STDERR_BUFSIZE - 2 ∧ st.stdoutBuf.length ≤ STDOUT_BUFSIZE - 2 ∧
    (∀ b : Nat,
      (feedByte STDERR_BUFSIZE st.stderrBuf b = (st.stderrBuf ++ [b], none) ∧
        (st.stderrBuf ++ [b]).length ≤ STDERR_BUFSIZE - 2) ∨
      (feedByte STDERR_BUFSIZE st.stderrBuf b = ([], some (st.stderrBuf ++ [b])) ∧
        (st.stderrBuf ++ [b]).length ≤ STDERR_BUFSIZE - 1)) ∧
    (∀ b : Nat,
      (feedByte STDOUT_BUFSIZE st.stdoutBuf b = (st.stdoutBuf ++ [b], none) ∧
        (st.stdoutBuf ++ [b]).length ≤ STDOUT_BUFSIZE - 2) ∨
      (feedByte STDOUT_BUFSIZE st.stdoutBuf b = ([], some (st.stdoutBuf ++ [b])) ∧
        (st.stdoutBuf ++ [b]).length ≤ STDOUT_BUFSIZE - 1)) := by
  have hok := reachable_ok cfg st h
  refine ⟨hok.1.1, hok.2.1, ?_, ?_⟩
  · intro b
    rcases feedByte_cases STDERR_BUFSIZE (by decide) st.stderrBuf b hok.1 with ⟨e, hb⟩ | ⟨e, hb⟩
    · exact Or.inl ⟨e, hb.1⟩
    · exact Or.inr ⟨e, hb⟩
  · intro b
    rcases feedByte_cases STDOUT_BUFSIZE (by decide) st.stdoutBuf b hok.2 with ⟨e, hb⟩ | ⟨e, hb⟩
    · exact Or.inl ⟨e, hb.1⟩
    · exact Or.inr ⟨e, hb⟩

theorem buffer_bound_witness :
    (iteration (txtConfig true) State.init none (some (.data 97))).stdoutBuf.length ≤
      STDOUT_BUFSIZE - 2 :=
  (buffer_bound (txtConfig true) (iteration (txtConfig true) State.init none (some (.data 97)))
    (Reachable.step State.init none (some (.data 97)) Reachable.init rfl)).2.1

/-! ## The exit mapping -/

set_option maxRecDepth 100000 in
/-- `sprintf("%d")` on the values `WEXITSTATUS` and `WTERMSIG` can take: the
digits written are decimal digits and denote the number. -/
theorem decimal_correct :
    ∀ n, n < 256 → decimalValue (decimal n) = n ∧
      (decimal n).all (fun d => decide (48 ≤ d ∧ d ≤ 57)) = true := by
  decide

/-- C13: when the read loop has ended, a child that exited normally with code
`c` gets the end template rendered with the decimal text of `c` as its single
parameter and the wrapper exits with `c`; a child killed by signal `s` gets the
end template rendered with a minus sign and the decimal text of `s`, and the
wrapper exits with 1; for any other disposition the wrapper exits with 1
without rendering the end template. -/
theorem exit_mapping (cfg : Config) (events : List Event) (st : State)
    (hloop : readLoop cfg State.init events = .finished st) :
    (∀ c : Nat, run cfg events (.exited c) =
      some { out := st.out ++ drain cfg st ++
               (printfmt cfg.escapeJs cfg.charSigned 1 cfg.endTemplate [decimal c]).out,
             exitCode := c }) ∧
    (∀ s : Nat, run cfg events (.signaled s) =
      some { out := st.out ++ drain cfg st ++
               (printfmt cfg.escapeJs cfg.charSigned 1 cfg.endTemplate [45 :: decimal s]).out,
             exitCode := 1 }) ∧
    run cfg events .other = some { out := st.out ++ drain cfg st, exitCode := 1 } ∧
    run cfg events .waitFailed = some { out := st.out ++ drain cfg st, exitCode := 1 } ∧
    (∀ n, n < 256 → decimalValue (decimal n) = n) := by
  refine ⟨?_, ?_, ?_, ?_, fun n hn => (decimal_correct n hn).1⟩
  all_goals
    try intro c
    unfold run
    rw [hloop]
    rfl

set_option maxRecDepth 100000 in
theorem exit_mapping_witness :
    (translateTemplates 1 (jsConfig true)).map Config.endTemplate =
      some exitExampleConfig.endTemplate ∧
    run exitExampleConfig exitExampleEvents (.exited 3) =
      some { out := bytes "ui.stopScpProgress(3);\n", exitCode := 3 } ∧
    run exitExampleConfig exitExampleEvents (.signaled 9) =
      some { out := bytes "ui.stopScpProgress(-9);\n", exitCode := 1 } :=
  ⟨by decide,
   ((exit_mapping exitExampleConfig exitExampleEvents
      { State.init with doneStdout := true } (by decide)).1 3).trans (by decide),
   ((exit_mapping exitExampleConfig exitExampleEvents
      { State.init with doneStdout := true } (by decide)).2.1 9).trans (by decide)⟩

/-! ## Plain stdout lines -/

theorem cstr_bare_terminator (line : List Nat) (t : Nat)
    (hbody : ∀ b ∈ line.dropLast, b ≠ t) (h : cstr (line ++ [0]) = [t]) : line = [t] := by
  cases line with
  | nil => simp [cstr] at h
  | cons c rest =>
    by_cases hc : c = 0
    · rw [hc, List.cons_append, cstr_cons_zero] at h; simp at h
    · rw [List.cons_append, cstr_cons_ne c _ hc] at h
      have hct : c = t := by simpa using (List.cons.inj h).1
      cases rest with
      | nil => rw [hct]
      | cons d ds =>
        exfalso
        apply hbody c _ hct
        simp [List.dropLast]

set_option maxRecDepth 100000 in
theorem bare_terminator_not_progress :
    isProgress (scanFields ([10] ++ [0]) 1) = false ∧
    isProgress (scanFields ([13] ++ [0]) 1) = false := by
  decide

theorem classify_none_iff (line : List Nat) :
    classify line = none ↔ isProgress (scanFields (line ++ [0]) line.length) = false := by
  unfold classify
  simp only []
  cases isProgress (scanFields (line ++ [0]) line.length) <;> simp

/-- A line completed from a reachable state is the buffer contents, which hold
no terminator, followed by the byte read. -/
theorem completed_line_shape (bufsize : Nat) (buf : List Nat) (b : Nat) (line rest : List Nat)
    (hok : BufferOk bufsize buf) (hcomp : feedByte bufsize buf b = (rest, some line)) :
    line = buf ++ [b] ∧ line ≠ [] ∧ ∀ x ∈ line.dropLast, x ≠ 13 ∧ x ≠ 10 := by
  rw [feedByte_eq] at hcomp
  split at hcomp
  · have : line = buf ++ [b] := by
      have := (Prod.mk.inj hcomp).2
      exact (Option.some.inj this).symm
    subst this
    refine ⟨rfl, by simp, ?_⟩
    rw [List.dropLast_concat]
    exact hok.2
  · have := (Prod.mk.inj hcomp).2
    exact absurd this (by simp)

/-- C16: a stdout line completed in a reachable state that is a bare newline or
a bare carriage return produces no output; every other completed stdout line
that is not a progress update is rendered through the stdout template with the
raw line (the buffer, NUL-terminated) as its single parameter. -/
theorem empty_line_suppression (cfg : Config) (st : State) (hreach : Reachable cfg st)
    (b : Nat) (line : List Nat)
    (hcomp : feedByte STDOUT_BUFSIZE st.stdoutBuf b = ([], some line)) (shown : Bool) :
    ((line = [10] ∨ line = [13]) → stdoutLine cfg shown line = (shown, [])) ∧
    (line ≠ [10] → line ≠ [13] → classify line = none →
      stdoutLine cfg shown line =
        (shown, (printfmt cfg.escapeJs cfg.charSigned 1 cfg.stdoutTemplate [line ++ [0]]).out)) := by
  have hshape := completed_line_shape STDOUT_BUFSIZE st.stdoutBuf b line []
    (reachable_ok cfg st hreach).2 hcomp
  constructor
  · rintro (h | h)
    · subst h
      unfold stdoutLine
      simp only [List.length_singleton, bare_terminator_not_progress.1, Bool.false_eq_true,
        if_false]
      rw [if_neg (by decide)]
    · subst h
      unfold stdoutLine
      simp only [List.length_singleton, bare_terminator_not_progress.2, Bool.false_eq_true,
        if_false]
      rw [if_neg (by decide)]
  · intro h10 h13 hcl
    have hp := (classify_none_iff line).mp hcl
    unfold stdoutLine
    simp only [hp, Bool.false_eq_true, if_false]
    rw [if_pos]
    constructor
    · intro h
      exact h10 (cstr_bare_terminator line 10 (fun x hx => (hshape.2.2 x hx).2) h)
    · intro h
      exact h13 (cstr_bare_terminator line 13 (fun x hx => (hshape.2.2 x hx).1) h)

theorem empty_line_suppression_witness :
    stdoutLine (txtConfig true) false [10] = (false, []) :=
  (empty_line_suppression (txtConfig true) State.init Reachable.init 10 [10] (by decide) false).1
    (Or.inl rfl)

/-! ## Line terminators -/

theorem printjs_append_zero (charSigned : Bool) (l r : List Nat) :
    printjs charSigned (l ++ 0 :: r) = printjs charSigned (cstr l) := by
  induction l with
  | nil => simp [printjs, cstr]
  | cons c cs ih =>
    by_cases hc : c = 0
    · subst hc; simp [printjs, cstr_cons_zero]
    · rw [List.cons_append, cstr_cons_ne c cs hc]
      simp only [printjs, if_neg hc, ih]

set_option maxRecDepth 100000 in
/-- C17, as stated, fails: the stderr line `Permission denied` completed by a
newline is rendered by the template `ERR:{0}\n` with its newline, so two
newlines follow the text. -/
theorem stderr_line_keeps_terminator :
    translateTemplates 1 errExampleUserConfig = some errExampleConfig ∧
    run errExampleConfig errExampleEvents (.exited 1) =
      some { out := bytes "ERR:Permission denied\n\n", exitCode := 1 } := by
  decide

theorem cstr_no_nul (l : List Nat) (h : 0 ∉ l) : cstr l = l := by
  have := cstr_append_zero l [] h
  induction l with
  | nil => rfl
  | cons c cs ih =>
    have hc : c ≠ 0 := fun e => h (by simp [e])
    rw [cstr_cons_ne c cs hc, ih (fun hm => h (List.mem_cons_of_mem _ hm))
      (cstr_append_zero cs [] (fun hm => h (List.mem_cons_of_mem _ hm)))]

theorem flatten_map_segmentText (escapeJs charSigned : Bool) (values : List (List Nat))
    (segs : List Segment) :
    (segs.map (segmentText escapeJs charSigned values)).flatten =
      renderSegments escapeJs charSigned values segs := by
  simp [renderSegments, List.flatMap]

/-! ## The end of the loop -/

set_option maxRecDepth 100000 in
/-- C14: the loop ends as soon as one channel is done.  From any state in which
the stderr pipe is done the loop ends at once, whatever is still to be read
from the pseudoterminal; in the example run the line `hi` that follows the end
of the child's standard error is never read, and the run writes nothing, while
the same reads in the other order write `OUT:hi` and the newline. -/
theorem loop_ends_with_first_channel :
    (∀ (cfg : Config) (st : State) (events : List Event), st.doneStderr = true →
      readLoop cfg st events = .finished st) ∧
    readLoop outExampleConfig State.init earlyExitEvents =
      .finished { State.init with doneStderr := true } ∧
    run outExampleConfig earlyExitEvents (.exited 0) = some { out := [], exitCode := 0 } ∧
    run outExampleConfig lateExitEvents (.exited 0) =
      some { out := bytes "OUT:hi\n", exitCode := 0 } := by
  refine ⟨?_, by decide, by decide, by decide⟩
  intro cfg st events h
  cases events <;> simp [readLoop, h]

/-! ## Draining -/

set_option maxRecDepth 100000 in
/-- C15, as stated, fails: a residual with the five-field progress shape is
written through the stdout template at the end of the run, where the rule for
a completed line renders the progress template. -/
theorem residual_not_classified :
    run outExampleConfig residualExampleEvents (.exited 0) =
      some { out := bytes "OUT:f 5% a b c", exitCode := 0 } ∧
    stdoutLine outExampleConfig false (bytes "f 5% a b c") = (true, bytes "5\n") := by
  decide

/-- C15, amended: at the end of the loop a stderr residual is rendered through
the stderr template exactly as a completed stderr line is, and a stdout
residual is rendered through the stdout template with the raw residual as its
single parameter, without being classified; this is what the rule for a
completed stdout line produces whenever the residual is not classified as a
progress update. -/
theorem drain_rule (cfg : Config) (st : State) (hreach : Reachable cfg st) :
    drain cfg st =
      (if st.stderrBuf ≠ [] then stderrLine cfg st.stderrBuf else []) ++
      (if st.stdoutBuf ≠ [] then
        (printfmt cfg.escapeJs cfg.charSigned 1 cfg.stdoutTemplate [st.stdoutBuf ++ [0]]).out
       else []) ∧
    (st.stdoutBuf ≠ [] → classify st.stdoutBuf = none → ∀ shown : Bool,
      stdoutLine cfg shown st.stdoutBuf =
        (shown,
         (printfmt cfg.escapeJs cfg.charSigned 1 cfg.stdoutTemplate [st.stdoutBuf ++ [0]]).out)) := by
  constructor
  · unfold drain stderrLine
    congr 1
    · by_cases h : st.stderrBuf = []
      · simp [h]
      · have : st.stderrBuf.length ≠ 0 := fun e => h (List.length_eq_zero.mp e)
        rw [if_pos this, if_pos h]
    · by_cases h : st.stdoutBuf = []
      · simp [h]
      · have : st.stdoutBuf.length ≠ 0 := fun e => h (List.length_eq_zero.mp e)
        rw [if_pos this, if_pos h]
  · intro hne hcl shown
    have hok := (reachable_ok cfg st hreach).2
    have hp := (classify_none_iff _).mp hcl
    unfold stdoutLine
    simp only [hp, Bool.false_eq_true, if_false]
    rw [if_pos]
    constructor
    · intro h
      have hl := cstr_bare_terminator st.stdoutBuf 10
        (fun x hx => (hok.2 x (List.mem_of_mem_dropLast hx)).2) h
      exact (hok.2 10 (by rw [hl]; simp)).2 rfl
    · intro h
      have hl := cstr_bare_terminator st.stdoutBuf 13
        (fun x hx => (hok.2 x (List.mem_of_mem_dropLast hx)).1) h
      exact (hok.2 13 (by rw [hl]; simp)).1 rfl

theorem drain_rule_witness :
    drain outExampleConfig
      (iteration outExampleConfig
        (iteration outExampleConfig State.init none (some (.data 97))) none (some (.data 98))) =
      bytes "OUT:ab" :=
  (drain_rule outExampleConfig
    (iteration outExampleConfig
      (iteration outExampleConfig State.init none (some (.data 97))) none (some (.data 98)))
    (Reachable.step _ none (some (.data 98))
      (Reachable.step State.init none (some (.data 97)) Reachable.init rfl) (by decide))).1.trans
    (by decide)

/-! ## Start template once -/

theorem traceText_append (cfg : Config) (a b : List Emission) :
    traceText cfg (a ++ b) = traceText cfg a ++ traceText cfg b := by
  simp [traceText]

theorem traceText_nil (cfg : Config) : traceText cfg [] = [] := rfl

theorem stdoutLine_text (cfg : Config) (shown : Bool) (line : List Nat) :
    (stdoutLine cfg shown line).2 = traceText cfg (stdoutLineTrace shown line) := by
  unfold stdoutLine stdoutLineTrace
  simp only []
  split
  · cases shown <;> simp [traceText, Emission.text]
  · split <;> simp [traceText, Emission.text]

theorem stderrRead_text (cfg : Config) (st : State) (r : ReadResult) :
    (stderrRead cfg st r).out = st.out ++ traceText cfg (stderrReadTrace st r) := by
  cases r with
  | closed => simp [stderrRead, stderrReadTrace, traceText]
  | data b =>
    unfold stderrRead stderrReadTrace
    rcases hf : feedByte STDERR_BUFSIZE st.stderrBuf b with ⟨buf, _ | line⟩
    · simp [hf, traceText]
    · simp [hf, traceText, Emission.text, stderrLine]

theorem stdoutRead_text (cfg : Config) (st : State) (r : ReadResult) :
    (stdoutRead cfg st r).out = st.out ++ traceText cfg (stdoutReadTrace st r) := by
  cases r with
  | closed => simp [stdoutRead, stdoutReadTrace, traceText]
  | data b =>
    unfold stdoutRead stdoutReadTrace
    rcases hf : feedByte STDOUT_BUFSIZE st.stdoutBuf b with ⟨buf, _ | line⟩
    · simp [hf, traceText]
    · simp [hf, stdoutLine_text]

theorem afterStderr_text (cfg : Config) (st : State) (e : Option ReadResult) :
    (afterStderr cfg st e).out = st.out ++ traceText cfg (afterStderrTrace st e) := by
  cases e with
  | none => simp [afterStderr, afterStderrTrace, traceText]
  | some r =>
    show (if st.doneStderr then st else stderrRead cfg st r).out =
      st.out ++ traceText cfg (if st.doneStderr then [] else stderrReadTrace st r)
    split
    · simp [traceText]
    · exact stderrRead_text cfg st r

theorem afterStdout_text (cfg : Config) (st : State) (o : Option ReadResult) :
    (afterStdout cfg st o).out = st.out ++ traceText cfg (afterStdoutTrace st o) := by
  cases o with
  | none => simp [afterStdout, afterStdoutTrace, traceText]
  | some r =>
    show (if st.doneStdout then st else stdoutRead cfg st r).out =
      st.out ++ traceText cfg (if st.doneStdout then [] else stdoutReadTrace st r)
    split
    · simp [traceText]
    · exact stdoutRead_text cfg st r

/-- What the read loop has written when it ends or waits is what was written
before, followed by the pieces of `loopTrace`. -/
theorem readLoop_text (cfg : Config) :
    ∀ (events : List Event) (st : State),
      (readLoop cfg st events).state.out = st.out ++ traceText cfg (loopTrace cfg st events) := by
  intro events
  induction events with
  | nil =>
    intro st
    unfold readLoop loopTrace
    split <;> simp [LoopResult.state, traceText]
  | cons e rest ih =>
    intro st
    unfold readLoop loopTrace
    split
    · simp [LoopResult.state, traceText]
    · cases e with
      | selectFailed => simp [LoopResult.state, traceText]
      | ready a b =>
        simp only []
        rw [ih, traceText_append, traceText_append, iteration_eq, afterStdout_text,
          afterStderr_text]
        simp

theorem isOther_notStart (e : Emission) (h : e.isOther = true) : e.notStart = true := by
  cases e <;> simp_all [Emission.isOther, Emission.notStart]

theorem startOnce_prepend (a tr : List Emission) (ha : ∀ e ∈ a, e.isOther = true)
    (h : StartOnce tr) : StartOnce (a ++ tr) := by
  rcases h with h | ⟨pre, p, post, e, h1, h2⟩
  · left
    intro x hx
    rcases List.mem_append.mp hx with hx | hx
    · exact ha x hx
    · exact h x hx
  · right
    refine ⟨a ++ pre, p, post, by rw [e, List.append_assoc], ?_, h2⟩
    intro x hx
    rcases List.mem_append.mp hx with hx | hx
    · exact ha x hx
    · exact h1 x hx

theorem startOnce_append (tr b : List Emission) (hb : ∀ e ∈ b, e.isOther = true)
    (h : StartOnce tr) : StartOnce (tr ++ b) := by
  rcases h with h | ⟨pre, p, post, e, h1, h2⟩
  · left
    intro x hx
    rcases List.mem_append.mp hx with hx | hx
    · exact h x hx
    · exact hb x hx
  · right
    refine ⟨pre, p, post ++ b, by rw [e]; simp, h1, ?_⟩
    intro x hx
    rcases List.mem_append.mp hx with hx | hx
    · exact h2 x hx
    · exact isOther_notStart x (hb x hx)

theorem stdoutLine_shown (cfg : Config) (shown : Bool) (line : List Nat) :
    (stdoutLine cfg shown line).1 =
      (shown || isProgress (scanFields (line ++ [0]) line.length)) := by
  unfold stdoutLine
  simp only []
  split
  · rename_i h; simp [h]
  · rename_i h
    have : isProgress (scanFields (line ++ [0]) line.length) = false := by simpa using h
    split <;> simp [this]

theorem stdoutLineTrace_shown (line : List Nat) :
    ∀ e ∈ stdoutLineTrace true line, e.notStart = true := by
  intro e he
  unfold stdoutLineTrace at he
  simp only [if_true, List.nil_append] at he
  split at he
  · simp at he; subst he; rfl
  · split at he
    · simp at he; subst he; rfl
    · simp at he

theorem stdoutLineTrace_fresh (line : List Nat) :
    (isProgress (scanFields (line ++ [0]) line.length) = false ∧
      ∀ e ∈ stdoutLineTrace false line, e.isOther = true) ∨
    (isProgress (scanFields (line ++ [0]) line.length) = true ∧
      ∃ p, stdoutLineTrace false line = [.start, .progress p]) := by
  unfold stdoutLineTrace
  simp only []
  cases h : isProgress (scanFields (line ++ [0]) line.length) with
  | true => right; exact ⟨rfl, progressParams (scanFields (line ++ [0]) line.length), by simp⟩
  | false =>
    left
    refine ⟨rfl, ?_⟩
    intro e he
    simp only [Bool.false_eq_true, if_false] at he
    split at he
    · simp at he; subst he; rfl
    · simp at he

theorem afterStderr_shown (cfg : Config) (st : State) (e : Option ReadResult) :
    (afterStderr cfg st e).shownStartTemplate = st.shownStartTemplate ∧
    ∀ x ∈ afterStderrTrace st e, x.isOther = true := by
  cases e with
  | none => exact ⟨rfl, by simp [afterStderrTrace]⟩
  | some r =>
    show (if st.doneStderr then st else stderrRead cfg st r).shownStartTemplate =
        st.shownStartTemplate ∧
      ∀ x ∈ (if st.doneStderr then [] else stderrReadTrace st r), x.isOther = true
    split
    · exact ⟨rfl, by simp⟩
    · cases r with
      | closed => exact ⟨rfl, by simp [stderrReadTrace]⟩
      | data b =>
        unfold stderrRead stderrReadTrace
        rcases hf : feedByte STDERR_BUFSIZE st.stderrBuf b with ⟨buf, _ | line⟩
        · simp only [hf]
          exact ⟨trivial, by simp⟩
        · simp only [hf]
          refine ⟨trivial, ?_⟩
          intro x hx
          simp at hx; subst hx; rfl

theorem afterStdout_shown (cfg : Config) (st : State) (o : Option ReadResult) :
    (st.shownStartTemplate = true →
      (afterStdout cfg st o).shownStartTemplate = true ∧
      ∀ x ∈ afterStdoutTrace st o, x.notStart = true) ∧
    (st.shownStartTemplate = false →
      ((afterStdout cfg st o).shownStartTemplate = false ∧
        ∀ x ∈ afterStdoutTrace st o, x.isOther = true) ∨
      ((afterStdout cfg st o).shownStartTemplate = true ∧
        ∃ p, afterStdoutTrace st o = [.start, .progress p])) := by
  have base : (st.shownStartTemplate = true →
      st.shownStartTemplate = true ∧ ∀ x ∈ ([] : List Emission), x.notStart = true) ∧
    (st.shownStartTemplate = false →
      (st.shownStartTemplate = false ∧ ∀ x ∈ ([] : List Emission), x.isOther = true) ∨
      (st.shownStartTemplate = true ∧ ∃ p, ([] : List Emission) = [.start, .progress p])) :=
    ⟨fun h => ⟨h, by simp⟩, fun h => Or.inl ⟨h, by simp⟩⟩
  cases o with
  | none => exact base
  | some r =>
    show (st.shownStartTemplate = true →
        (if st.doneStdout then st else stdoutRead cfg st r).shownStartTemplate = true ∧
        ∀ x ∈ (if st.doneStdout then [] else stdoutReadTrace st r), x.notStart = true) ∧
      (st.shownStartTemplate = false →
        ((if st.doneStdout then st else stdoutRead cfg st r).shownStartTemplate = false ∧
          ∀ x ∈ (if st.doneStdout then [] else stdoutReadTrace st r), x.isOther = true) ∨
        ((if st.doneStdout then st else stdoutRead cfg st r).shownStartTemplate = true ∧
          ∃ p, (if st.doneStdout then [] else stdoutReadTrace st r) = [.start, .progress p]))
    split
    · exact base
    · cases r with
      | closed => exact base
      | data b =>
        unfold stdoutRead stdoutReadTrace
        rcases hf : feedByte STDOUT_BUFSIZE st.stdoutBuf b with ⟨buf, _ | line⟩
        · simp only [hf]
          exact base
        · simp only [hf, stdoutLine_shown]
          constructor
          · intro h
            rw [h]
            exact ⟨rfl, stdoutLineTrace_shown line⟩
          · intro h
            rw [h]
            rcases stdoutLineTrace_fresh line with ⟨hp, ht⟩ | ⟨hp, ht⟩
            · left; rw [hp]; exact ⟨rfl, ht⟩
            · right; rw [hp]; exact ⟨rfl, ht⟩

theorem loopTrace_discipline (cfg : Config) :
    ∀ (events : List Event) (st : State),
      (st.shownStartTemplate = true → ∀ x ∈ loopTrace cfg st events, x.notStart = true) ∧
      (st.shownStartTemplate = false → StartOnce (loopTrace cfg st events)) := by
  intro events
  induction events with
  | nil =>
    intro st
    exact ⟨fun _ => by simp [loopTrace], fun _ => Or.inl (by simp [loopTrace])⟩
  | cons e rest ih =>
    intro st
    unfold loopTrace
    split
    · exact ⟨fun _ => by simp, fun _ => Or.inl (by simp)⟩
    · cases e with
      | selectFailed => exact ⟨fun _ => by simp, fun _ => Or.inl (by simp)⟩
      | ready a b =>
        simp only []
        have h1 := afterStderr_shown cfg st a
        have h2 := afterStdout_shown cfg (afterStderr cfg st a) b
        have hi := ih (iteration cfg st a b)
        rw [iteration_eq] at hi ⊢
        rw [h1.1] at h2
        constructor
        · intro hs
          have h3 := h2.1 hs
          intro x hx
          rcases List.mem_append.mp hx with hx | hx
          · rcases List.mem_append.mp hx with hx | hx
            · exact isOther_notStart x (h1.2 x hx)
            · exact h3.2 x hx
          · exact hi.1 h3.1 x hx
        · intro hs
          rw [List.append_assoc]
          apply startOnce_prepend _ _ h1.2
          rcases h2.2 hs with ⟨h3, h4⟩ | ⟨h3, p, h4⟩
          · exact startOnce_prepend _ _ h4 (hi.2 h3)
          · right
            rw [h4]
            exact ⟨[], p, _, rfl, by simp, hi.1 h3⟩

/-- C12: the pieces that a run writes, in order, either hold neither the start
template nor a progress update, or hold the start template exactly once,
immediately before the first progress update; and what the run writes is the
text of these pieces. -/
theorem start_template_once (cfg : Config) (events : List Event) (status : ChildStatus) :
    StartOnce (runTrace cfg events status) ∧
    (∀ r, run cfg events status = some r → r.out = traceText cfg (runTrace cfg events status)) := by
  have hd := (loopTrace_discipline cfg events State.init).2 rfl
  have ht := readLoop_text cfg events State.init
  constructor
  · unfold runTrace
    cases readLoop cfg State.init events with
    | finished st =>
      simp only []
      rw [List.append_assoc]
      apply startOnce_append _ _ _ hd
      intro x hx
      rcases List.mem_append.mp hx with hx | hx
      · unfold drainTrace at hx
        rcases List.mem_append.mp hx with hx | hx
        · split at hx
          · simp at hx; subst hx; rfl
          · simp at hx
        · split at hx
          · simp at hx; subst hx; rfl
          · simp at hx
      · cases status <;> simp [finishTrace] at hx <;> subst hx <;> rfl
    | failed st => exact hd
    | waiting st => exact hd
  · intro r hr
    unfold run at hr
    unfold runTrace
    cases hl : readLoop cfg State.init events with
    | finished st =>
      rw [hl] at hr ht
      simp only [LoopResult.state, State.init, List.nil_append] at ht
      simp only [Option.some.injEq] at hr
      subst hr
      simp only [traceText_append]
      cases status <;>
        simp [finish, ht, drain, drainTrace, finishTrace, traceText, Emission.text, State.init] <;>
        (split <;> split <;> simp [Emission.text])
    | failed st =>
      rw [hl] at hr ht
      simp only [LoopResult.state, State.init, List.nil_append] at ht
      simp only [Option.some.injEq] at hr
      subst hr
      exact ht
    | waiting st =>
      rw [hl] at hr
      simp at hr

set_option maxRecDepth 100000 in
theorem start_template_once_witness :
    StartOnce (runTrace startExampleConfig progressExampleEvents (.exited 0)) ∧
    run startExampleConfig progressExampleEvents (.exited 0) =
      some { out := bytes "S\\n5\n9\n", exitCode := 0 } :=
  ⟨(start_template_once startExampleConfig progressExampleEvents (.exited 0)).1, by decide⟩

/-! ## Placeholder translation -/

theorem strstr_cons (x a : Nat) (cs : List Nat) :
    strstr (a :: cs) [37, x] =
      if a = 37 ∧ cs.head? = some x then some 0
      else (strstr cs [37, x]).map (fun k => k + 1) := by
  cases cs with
  | nil => simp [strstr, List.isPrefixOf]
  | cons c cs =>
    simp only [strstr, List.isPrefixOf, List.head?_cons, Option.some.injEq, Bool.and_true,
      Bool.and_eq_true, beq_iff_eq]
    by_cases h : a = 37 ∧ c = x
    · rw [if_pos ⟨h.1.symm, h.2.symm⟩, if_pos h]
    · rw [if_neg (fun h2 => h ⟨h2.1.symm, h2.2.symm⟩), if_neg h]

theorem strstr_nil (x : Nat) : strstr [] [37, x] = none := by
  simp [strstr]

theorem substituteFrom_pending (m : Nat → Option (List Nat)) (c : Nat) (rest : List Nat)
    (h : m c = none) :
    substituteFrom m true (c :: rest) = 37 :: substituteFrom m false (c :: rest) := by
  by_cases hc : c = 37
  · subst hc
    simp [substituteFrom, h]
  · simp [substituteFrom, h, hc]

theorem cleanFrom_append (x : Nat) : ∀ (A : List Nat) (p : Bool) (B : List Nat),
    cleanFrom x p A = true → cleanFrom x false B = true → cleanFrom x p (A ++ B) = true
  | [], p, B, hA, hB => by
    simp [cleanFrom] at hA
    subst hA
    simpa using hB
  | a :: A, p, B, hA, hB => by
    simp only [cleanFrom, Bool.and_eq_true, List.cons_append] at hA ⊢
    exact ⟨hA.1, cleanFrom_append x A _ B hA.2 hB⟩

theorem cleanFrom_no_percent (x : Nat) : ∀ (l : List Nat), 37 ∉ l → cleanFrom x false l = true
  | [], _ => by simp [cleanFrom]
  | a :: l, h => by
    simp only [List.mem_cons, not_or] at h
    have ha : a ≠ 37 := fun e => h.1 e.symm
    simp only [cleanFrom, Bool.false_and, Bool.not_false, Bool.true_and, ha, decide_False]
    exact cleanFrom_no_percent x l h.2

theorem cleanFrom_rep (x : Nat) (hx : x ≠ 123) (p : Bool) (rep : List Nat) (h : GoodRep rep) :
    cleanFrom x p rep = true := by
  obtain ⟨h37, _, tl, rfl⟩ := h
  simp only [List.mem_cons, not_or] at h37
  have : (123 : Nat) ≠ x := fun e => hx e.symm
  simp only [cleanFrom, this, decide_False, Bool.and_false, Bool.not_false, Bool.true_and]
  exact cleanFrom_no_percent x tl h37.2

/-- In front of a clean piece of text the first occurrence of `%x` is the one
of what follows. -/
theorem strstr_after_clean (x : Nat) (s : List Nat) : ∀ (P : List Nat) (p : Bool),
    cleanFrom x p P = true →
    (p = true → (P ++ s).head? ≠ some x) ∧
    strstr (P ++ s) [37, x] = (strstr s [37, x]).map (fun k => k + P.length)
  | [], p, h => by
    simp [cleanFrom] at h
    subst h
    simp
  | a :: P, p, h => by
    simp only [cleanFrom, Bool.and_eq_true, Bool.not_eq_true', Bool.and_eq_false_imp,
      decide_eq_false_iff_not, decide_eq_true_eq] at h
    obtain ⟨ih1, ih2⟩ := strstr_after_clean x s P (decide (a = 37)) h.2
    refine ⟨fun hp => ?_, ?_⟩
    · simpa using h.1 hp
    · rw [List.cons_append, strstr_cons, if_neg, ih2]
      · cases strstr s [37, x] <;> simp [Nat.add_assoc]
      · rintro ⟨h1, h2⟩
        exact ih1 (by simpa using h1) h2

/-- The first occurrence of `%x`: the text splits around it, what precedes it
stays clean when a good replacement follows, and the single pass replaces it. -/
theorem strstr_first (x : Nat) (hx : x ≠ 123) (rep : List Nat) (hrep : GoodRep rep) :
    ∀ (s : List Nat) (p : Bool) (k : Nat), strstr s [37, x] = some k →
    (p = true → s.head? ≠ some x) →
    ∃ pre post, s = pre ++ 37 :: x :: post ∧ pre.length = k ∧
      cleanFrom x p (pre ++ rep) = true ∧
      substituteFrom (singleToken x rep) false s
        = pre ++ rep ++ substituteFrom (singleToken x rep) false post
  | [], p, k, h, _ => by simp [strstr_nil] at h
  | a :: cs, p, k, h, hp => by
    rw [strstr_cons] at h
    by_cases hpre : a = 37 ∧ cs.head? = some x
    · rw [if_pos hpre] at h
      obtain ⟨ha, hcs⟩ := hpre
      cases cs with
      | nil => simp at hcs
      | cons c post =>
        simp only [List.head?_cons, Option.some.injEq] at hcs
        subst ha hcs
        refine ⟨[], post, rfl, by simpa using h, ?_, ?_⟩
        · simpa using cleanFrom_rep c hx p rep hrep
        · simp [substituteFrom, singleToken]
    · rw [if_neg hpre] at h
      cases hk : strstr cs [37, x] with
      | none => simp [hk] at h
      | some k2 =>
        simp only [hk, Option.map_some', Option.some.injEq] at h
        obtain ⟨pre, post, hs, hlen, hclean, hpass⟩ :=
          strstr_first x hx rep hrep cs (decide (a = 37)) k2 hk
            (fun h1 h2 => hpre ⟨by simpa using h1, h2⟩)
        refine ⟨a :: pre, post, by rw [hs]; rfl, by simp [hlen, h], ?_, ?_⟩
        · simp only [List.cons_append, cleanFrom, Bool.and_eq_true, Bool.not_eq_true',
            Bool.and_eq_false_imp, decide_eq_false_iff_not, decide_eq_true_eq]
          refine ⟨fun h1 h2 => hp h1 (by simp [h2]), hclean⟩
        · by_cases ha : a = 37
          · subst ha
            cases cs with
            | nil => simp [strstr_nil] at hk
            | cons c cs2 =>
              have hc : singleToken x rep c = none := by
                have : c ≠ x := fun e => hpre ⟨rfl, by simp [e]⟩
                simp [singleToken, this]
              have e1 : substituteFrom (singleToken x rep) false (37 :: c :: cs2)
                  = substituteFrom (singleToken x rep) true (c :: cs2) := by
                simp [substituteFrom]
              rw [e1, substituteFrom_pending _ _ _ hc, hpass]
              simp
          · have e1 : substituteFrom (singleToken x rep) false (a :: cs)
                = a :: substituteFrom (singleToken x rep) false cs := by
              simp [substituteFrom, ha]
            rw [e1, hpass]
            simp

/-- Where `%x` does not occur the single pass changes nothing. -/
theorem substitute_absent (x : Nat) (rep : List Nat) : ∀ (s : List Nat),
    strstr s [37, x] = none → substituteFrom (singleToken x rep) false s = s
  | [], _ => by simp [substituteFrom]
  | a :: cs, h => by
    rw [strstr_cons] at h
    by_cases hpre : a = 37 ∧ cs.head? = some x
    · rw [if_pos hpre] at h
      cases h
    · rw [if_neg hpre] at h
      have hcs : strstr cs [37, x] = none := by
        cases hk : strstr cs [37, x] with
        | none => rfl
        | some k => simp [hk] at h
      have ih := substitute_absent x rep cs hcs
      by_cases ha : a = 37
      · subst ha
        cases cs with
        | nil => simp [substituteFrom]
        | cons c cs2 =>
          have hc : singleToken x rep c = none := by
            have : c ≠ x := fun e => hpre ⟨rfl, by simp [e]⟩
            simp [singleToken, this]
          have e1 : substituteFrom (singleToken x rep) false (37 :: c :: cs2)
              = substituteFrom (singleToken x rep) true (c :: cs2) := by
            simp [substituteFrom]
          rw [e1, substituteFrom_pending _ _ _ hc, ih]
      · have e1 : substituteFrom (singleToken x rep) false (a :: cs)
            = a :: substituteFrom (singleToken x rep) false cs := by
          simp [substituteFrom, ha]
        rw [e1, ih]

theorem strstr_no_percent (x : Nat) : ∀ (s : List Nat), s.count 37 = 0 → strstr s [37, x] = none
  | [], _ => strstr_nil x
  | a :: cs, h => by
    have h37 : 37 ∉ a :: cs := List.count_eq_zero.mp h
    simp only [List.mem_cons, not_or] at h37
    rw [strstr_cons, if_neg (fun h1 => h37.1 h1.1.symm),
      strstr_no_percent x cs (List.count_eq_zero.mpr h37.2)]
    rfl

/-- The loop of `str_replace` for a token `%x` and a good replacement: with
one unit of fuel for each percent sign it returns the single pass. -/
theorem str_replaceLoop_pass (x : Nat) (hx : x ≠ 123) (rep : List Nat) (hrep : GoodRep rep) :
    ∀ (fuel : Nat) (P s : List Nat), cleanFrom x false P = true → s.count 37 ≤ fuel →
      str_replaceLoop [37, x] rep fuel (P ++ s)
        = some (P ++ substituteFrom (singleToken x rep) false s) := by
  intro fuel
  induction fuel with
  | zero =>
    intro P s hP hs
    have h0 : strstr s [37, x] = none := strstr_no_percent x s (Nat.le_zero.mp hs)
    have h1 := (strstr_after_clean x s P false hP).2
    rw [h0] at h1
    simp only [Option.map_none'] at h1
    simp only [str_replaceLoop, h1, substitute_absent x rep s h0]
  | succ fuel ih =>
    intro P s hP hs
    have h1 := (strstr_after_clean x s P false hP).2
    cases hk : strstr s [37, x] with
    | none =>
      rw [hk] at h1
      simp only [Option.map_none'] at h1
      simp only [str_replaceLoop, h1, substitute_absent x rep s hk]
    | some k =>
      rw [hk] at h1
      simp only [Option.map_some'] at h1
      obtain ⟨pre, post, hs2, hlen, hclean, hpass⟩ :=
        strstr_first x hx rep hrep s false k hk (by simp)
      have hcount : post.count 37 ≤ fuel := by
        have : s.count 37 = pre.count 37 + (1 + List.count 37 (x :: post)) := by
          rw [hs2, List.count_append, List.count_cons_self, Nat.add_comm 1]
        have h2 : post.count 37 ≤ List.count 37 (x :: post) := by
          rw [List.count_cons]
          exact Nat.le_add_right _ _
        omega
      have htake : (P ++ s).take (k + P.length) = P ++ pre := by
        rw [hs2, ← List.append_assoc, ← hlen]
        have : pre.length + P.length = (P ++ pre).length := by simp [Nat.add_comm]
        rw [this, List.take_left]
      have hdrop : (P ++ s).drop (k + P.length + 2) = post := by
        rw [hs2, ← hlen]
        have e : P ++ (pre ++ 37 :: x :: post) = (P ++ pre ++ [37, x]) ++ post := by simp
        have : pre.length + P.length + 2 = (P ++ pre ++ [37, x]).length := by
          simp [Nat.add_comm, Nat.add_assoc]
        rw [e, this, List.drop_left]
      have hnext := ih (P ++ (pre ++ rep)) post (cleanFrom_append x P false _ hP hclean) hcount
      simp only [str_replaceLoop, h1, List.length_cons, List.length_nil, htake, hdrop]
      rw [hpass]
      simpa [List.append_assoc] using hnext

theorem cstr_holds_no_nul (s : List Nat) : 0 ∉ cstr s := by
  intro h
  have := List.mem_takeWhile_imp h
  simp at this

theorem cstr_idem (s : List Nat) : cstr (cstr s) = cstr s :=
  cstr_no_nul _ (cstr_holds_no_nul s)

/-- One call `str_replace(string, "%x", rep)` with a good replacement. -/
theorem str_replace_pass (x : Nat) (hx0 : x ≠ 0) (hx : x ≠ 123) (rep : List Nat)
    (hrep : GoodRep rep) (fuel : Nat) (t : List Nat) (hfuel : (cstr t).count 37 ≤ fuel) :
    str_replace fuel t [37, x] rep = some (substituteTokens (singleToken x rep) (cstr t)) := by
  have e1 : cstr [37, x] = [37, x] := cstr_no_nul _ (by simp [Ne.symm hx0])
  have e2 : cstr rep = rep := cstr_no_nul _ hrep.2.1
  have := str_replaceLoop_pass x hx rep hrep fuel [] (cstr t) rfl hfuel
  simpa [str_replace, e1, e2, substituteTokens] using this

theorem substituteFrom_no_nul (m : Nat → Option (List Nat))
    (hm : ∀ c r, m c = some r → 0 ∉ r) : ∀ (s : List Nat) (p : Bool), 0 ∉ s →
    0 ∉ substituteFrom m p s
  | [], false, _ => by simp [substituteFrom]
  | [], true, _ => by simp [substituteFrom]
  | a :: rest, false, h => by
    simp only [List.mem_cons, not_or] at h
    by_cases ha : a = 37
    · simpa [substituteFrom, ha] using substituteFrom_no_nul m hm rest true h.2
    · simp only [substituteFrom, ha, if_false, List.mem_cons, not_or]
      exact ⟨h.1, substituteFrom_no_nul m hm rest false h.2⟩
  | c :: rest, true, h => by
    simp only [List.mem_cons, not_or] at h
    cases hc : m c with
    | some r =>
      simp only [substituteFrom, hc, List.mem_append, not_or]
      exact ⟨hm c r hc, substituteFrom_no_nul m hm rest false h.2⟩
    | none =>
      by_cases h37 : c = 37
      · subst h37
        simp only [substituteFrom, hc, if_true, List.mem_cons, not_or]
        exact ⟨by decide, substituteFrom_no_nul m hm rest true h.2⟩
      · simp only [substituteFrom, hc, h37, if_false, List.mem_cons, not_or]
        exact ⟨by decide, h.1, substituteFrom_no_nul m hm rest false h.2⟩

theorem substituteFrom_count (m : Nat → Option (List Nat))
    (hm : ∀ c r, m c = some r → 37 ∉ r) : ∀ (s : List Nat) (p : Bool),
    (substituteFrom m p s).count 37 ≤ s.count 37 + (if p = true then 1 else 0)
  | [], false => by simp [substituteFrom]
  | [], true => by simp [substituteFrom]
  | a :: rest, false => by
    by_cases ha : a = 37
    · have := substituteFrom_count m hm rest true
      subst ha
      simpa [substituteFrom] using this
    · have := substituteFrom_count m hm rest false
      have hne : (a == 37) = false := by simpa using ha
      simpa [substituteFrom, ha, List.count_cons, hne] using this
  | c :: rest, true => by
    cases hc : m c with
    | some r =>
      have := substituteFrom_count m hm rest false
      have hr : r.count 37 = 0 := List.count_eq_zero.mpr (hm c r hc)
      simp only [substituteFrom, hc, List.count_append, hr, List.count_cons]
      simp only [Bool.false_eq_true, if_false, Nat.add_zero] at this
      omega
    | none =>
      by_cases h37 : c = 37
      · have := substituteFrom_count m hm rest true
        subst h37
        simp only [substituteFrom, hc, if_true, List.count_cons_self]
        simp only [if_true] at this
        omega
      · have := substituteFrom_count m hm rest false
        have hne : (c == 37) = false := by simpa using h37
        simp only [substituteFrom, hc, h37, if_false, List.count_cons_self, List.count_cons,
          hne, Bool.false_eq_true, if_true]
        simp only [Bool.false_eq_true, if_false, Nat.add_zero] at this
        omega

/-- After a pending percent sign the pass starts its output with the percent
sign or with the opening brace of a replacement. -/
theorem substituteFrom_head (m : Nat → Option (List Nat)) (hm : GoodTokens m) (s : List Nat) :
    ∃ h tl, substituteFrom m true s = h :: tl ∧ (h = 37 ∨ h = 123) := by
  cases s with
  | nil => exact ⟨37, [], by simp [substituteFrom], Or.inl rfl⟩
  | cons c rest =>
    cases hc : m c with
    | some r =>
      obtain ⟨_, _, _, tl, rfl⟩ := hm c r hc
      exact ⟨123, tl ++ substituteFrom m false rest, by simp [substituteFrom, hc], Or.inr rfl⟩
    | none =>
      rw [substituteFrom_pending m c rest hc]
      exact ⟨37, _, rfl, Or.inl rfl⟩

theorem substituteFrom_skip (m : Nat → Option (List Nat)) (Y : List Nat) : ∀ (r : List Nat),
    37 ∉ r → substituteFrom m false (r ++ Y) = r ++ substituteFrom m false Y
  | [], _ => rfl
  | a :: r, h => by
    simp only [List.mem_cons, not_or] at h
    have ha : a ≠ 37 := fun e => h.1 e.symm
    have ih := substituteFrom_skip m Y r h.2
    simp [substituteFrom, ha, ih]

theorem goodTokens_none (m : Nat → Option (List Nat)) (hm : GoodTokens m) (h : Nat)
    (hh : h = 37 ∨ h = 123) : m h = none := by
  cases hc : m h with
  | none => rfl
  | some r =>
    have := (hm h r hc).1
    omega

/-- Two passes one after the other are one pass with both sets of tokens. -/
theorem substituteFrom_compose (m1 m2 : Nat → Option (List Nat)) (h1 : GoodTokens m1)
    (h2 : GoodTokens m2) : ∀ (s : List Nat) (p : Bool),
    substituteFrom m2 false (substituteFrom m1 p s) = substituteFrom (eitherToken m1 m2) p s
  | [], false => by simp [substituteFrom]
  | [], true => by simp [substituteFrom]
  | a :: rest, false => by
    by_cases ha : a = 37
    · simpa [substituteFrom, ha] using substituteFrom_compose m1 m2 h1 h2 rest true
    · simpa [substituteFrom, ha] using substituteFrom_compose m1 m2 h1 h2 rest false
  | c :: rest, true => by
    cases hc : m1 c with
    | some r =>
      have e : eitherToken m1 m2 c = some r := by simp [eitherToken, hc]
      have hr := (h1 c r hc).2.1
      simp only [substituteFrom, hc, e]
      rw [substituteFrom_skip m2 _ r hr, substituteFrom_compose m1 m2 h1 h2 rest false]
    | none =>
      by_cases h37 : c = 37
      · subst h37
        have e : eitherToken m1 m2 37 = none := by
          simp [eitherToken, hc, goodTokens_none m2 h2 37 (Or.inl rfl)]
        obtain ⟨h, tl, hz, hh⟩ := substituteFrom_head m1 h1 rest
        have ih := substituteFrom_compose m1 m2 h1 h2 rest true
        have step : substituteFrom m2 false (37 :: substituteFrom m1 true rest)
            = 37 :: substituteFrom m2 false (substituteFrom m1 true rest) := by
          rw [hz]
          have : substituteFrom m2 false (37 :: h :: tl) = substituteFrom m2 true (h :: tl) := by
            simp [substituteFrom]
          rw [this, substituteFrom_pending m2 h tl (goodTokens_none m2 h2 h hh)]
        simp only [substituteFrom, hc, e, if_true] at step ⊢
        rw [step, ih]
      · have ih := substituteFrom_compose m1 m2 h1 h2 rest false
        cases hc2 : m2 c with
        | some r2 =>
          have e : eitherToken m1 m2 c = some r2 := by simp [eitherToken, hc, hc2]
          simp [substituteFrom, hc, e, h37, hc2, ih]
        | none =>
          have e : eitherToken m1 m2 c = none := by simp [eitherToken, hc, hc2]
          simp [substituteFrom, hc, e, h37, hc2, ih]

/-- The output of a pass holds no occurrence of a token of the pass. -/
theorem substituteFrom_no_token (m : Nat → Option (List Nat)) (hm : GoodTokens m) (x : Nat)
    (rx : List Nat) (hx : m x = some rx) : ∀ (s : List Nat) (p : Bool),
    strstr (substituteFrom m p s) [37, x] = none
  | [], false => by simp [substituteFrom, strstr_nil]
  | [], true => by simp [substituteFrom, strstr_cons, strstr_nil]
  | a :: rest, false => by
    by_cases ha : a = 37
    · simpa [substituteFrom, ha] using substituteFrom_no_token m hm x rx hx rest true
    · have ih := substituteFrom_no_token m hm x rx hx rest false
      simp [substituteFrom, ha, strstr_cons, ih]
  | c :: rest, true => by
    have hxr := (hm x rx hx).1
    cases hc : m c with
    | some r =>
      have ih := substituteFrom_no_token m hm x rx hx rest false
      have hr := (hm c r hc).2.1
      have := (strstr_after_clean x (substituteFrom m false rest) r false
        (cleanFrom_no_percent x r hr)).2
      simp only [substituteFrom, hc, this, ih, Option.map_none']
    | none =>
      have hcx : c ≠ x := fun e => by simp [e, hx] at hc
      by_cases h37 : c = 37
      · subst h37
        have ih := substituteFrom_no_token m hm x rx hx rest true
        obtain ⟨h, tl, hz, hh⟩ := substituteFrom_head m hm rest
        have hne : h ≠ x := by omega
        simp only [substituteFrom, hc, if_true, strstr_cons, ih, Option.map_none']
        rw [if_neg]
        rw [hz]
        simp [hne]
      · have ih := substituteFrom_no_token m hm x rx hx rest false
        simp [substituteFrom, hc, h37, strstr_cons, ih, hcx]

theorem goodRep_placeholder (d : Nat) (hd : d ≠ 37 ∧ d ≠ 0) : GoodRep [123, d, 125] :=
  ⟨by simp [Ne.symm hd.1], by simp [Ne.symm hd.2], _, rfl⟩

theorem goodTokens_single (x : Nat) (hx : 97 ≤ x ∧ x ≤ 122) (rep : List Nat)
    (hrep : GoodRep rep) : GoodTokens (singleToken x rep) := by
  intro c r h
  unfold singleToken at h
  split at h
  · next e =>
    cases h
    exact ⟨e ▸ hx, hrep⟩
  · cases h

theorem goodTokens_either (m1 m2 : Nat → Option (List Nat)) (h1 : GoodTokens m1)
    (h2 : GoodTokens m2) : GoodTokens (eitherToken m1 m2) := by
  intro c r h
  unfold eitherToken at h
  cases hc : m1 c with
  | some r1 =>
    have e : r1 = r := by simpa [hc] using h
    exact e ▸ h1 c r1 hc
  | none =>
    rw [hc] at h
    exact h2 c r h

/-- One further call of `str_replace` on the output of a pass adds its token
to the pass. -/
theorem str_replace_stage (x : Nat) (hx : 97 ≤ x ∧ x ≤ 122) (rep : List Nat)
    (hrep : GoodRep rep) (m : Nat → Option (List Nat)) (hm : GoodTokens m) (fuel : Nat)
    (s : List Nat) (h0 : 0 ∉ s) (hfuel : s.count 37 ≤ fuel) :
    str_replace fuel (substituteTokens m s) [37, x] rep
      = some (substituteTokens (eitherToken m (singleToken x rep)) s) := by
  have hnul : 0 ∉ substituteTokens m s :=
    substituteFrom_no_nul m (fun c r h => (hm c r h).2.2.1) s false h0
  have hcount : (substituteTokens m s).count 37 ≤ fuel := by
    have := substituteFrom_count m (fun c r h => (hm c r h).2.1) s false
    simp only [Bool.false_eq_true, if_false, Nat.add_zero] at this
    exact Nat.le_trans this hfuel
  have e := cstr_no_nul _ hnul
  have := str_replace_pass x (by omega) (by omega) rep hrep fuel (substituteTokens m s)
    (by rw [e]; exact hcount)
  rw [this, e]
  exact congrArg some
    (substituteFrom_compose m (singleToken x rep) hm (goodTokens_single x hx rep hrep) s false)

theorem textToken_eq : textToken = singleToken 115 (bytes "{0}") := rfl

theorem codeToken_eq : codeToken = singleToken 99 (bytes "{0}") := rfl

theorem progressToken_eq :
    progressToken =
      eitherToken (eitherToken (eitherToken (eitherToken (singleToken 102 (bytes "{0}"))
        (singleToken 112 (bytes "{1}"))) (singleToken 116 (bytes "{2}")))
        (singleToken 115 (bytes "{3}"))) (singleToken 101 (bytes "{4}")) := by
  funext c
  unfold progressToken eitherToken singleToken
  by_cases h1 : c = 102
  · simp [h1]
  by_cases h2 : c = 112
  · simp [h2]
  by_cases h3 : c = 116
  · simp [h3]
  by_cases h4 : c = 115
  · simp [h4]
  by_cases h5 : c = 101
  · simp [h5]
  simp [h1, h2, h3, h4, h5]

theorem goodTokens_progress : GoodTokens progressToken := by
  rw [progressToken_eq]
  have g : ∀ d, d ≠ 37 ∧ d ≠ 0 → GoodRep [123, d, 125] := goodRep_placeholder
  exact goodTokens_either _ _ (goodTokens_either _ _ (goodTokens_either _ _
    (goodTokens_either _ _
      (goodTokens_single 102 (by decide) _ (g 48 (by decide)))
      (goodTokens_single 112 (by decide) _ (g 49 (by decide))))
      (goodTokens_single 116 (by decide) _ (g 50 (by decide))))
      (goodTokens_single 115 (by decide) _ (g 51 (by decide))))
      (goodTokens_single 101 (by decide) _ (g 52 (by decide)))

/-- The five chained calls on the progress template are one pass with the
five tokens. -/
theorem translateProgress_pass (fuel : Nat) (t : List Nat) (hfuel : (cstr t).count 37 ≤ fuel) :
    translateProgress fuel t = some (substituteTokens progressToken (cstr t)) := by
  have g : ∀ d, d ≠ 37 ∧ d ≠ 0 → GoodRep [123, d, 125] := goodRep_placeholder
  have h0 := cstr_holds_no_nul t
  have gf := goodTokens_single 102 (by decide) _ (g 48 (by decide))
  have s1 : str_replace fuel t [37, 102] [123, 48, 125]
      = some (substituteTokens (singleToken 102 [123, 48, 125]) (cstr t)) :=
    str_replace_pass 102 (by decide) (by decide) _ (g 48 (by decide)) fuel t hfuel
  have s2 := str_replace_stage 112 (by decide) _ (g 49 (by decide)) _ gf fuel (cstr t) h0 hfuel
  have gp := goodTokens_either _ _ gf (goodTokens_single 112 (by decide) _ (g 49 (by decide)))
  have s3 := str_replace_stage 116 (by decide) _ (g 50 (by decide)) _ gp fuel (cstr t) h0 hfuel
  have gt := goodTokens_either _ _ gp (goodTokens_single 116 (by decide) _ (g 50 (by decide)))
  have s4 := str_replace_stage 115 (by decide) _ (g 51 (by decide)) _ gt fuel (cstr t) h0 hfuel
  have gs := goodTokens_either _ _ gt (goodTokens_single 115 (by decide) _ (g 51 (by decide)))
  have s5 := str_replace_stage 101 (by decide) _ (g 52 (by decide)) _ gs fuel (cstr t) h0 hfuel
  have b0 : bytes "%f" = [37, 102] := rfl
  have c0 : bytes "{0}" = [123, 48, 125] := rfl
  have b1 : bytes "%p" = [37, 112] := rfl
  have b2 : bytes "%t" = [37, 116] := rfl
  have b3 : bytes "%s" = [37, 115] := rfl
  have b4 : bytes "%e" = [37, 101] := rfl
  have c1 : bytes "{1}" = [123, 49, 125] := rfl
  have c2 : bytes "{2}" = [123, 50, 125] := rfl
  have c3 : bytes "{3}" = [123, 51, 125] := rfl
  have c4 : bytes "{4}" = [123, 52, 125] := rfl
  unfold translateProgress
  simp only [Option.bind_eq_bind, b0, b1, b2, b3, b4, c0, c1, c2, c3, c4]
  rw [s1]
  simp only [Option.some_bind]
  rw [s2]
  simp only [Option.some_bind]
  rw [s3]
  simp only [Option.some_bind]
  rw [s4]
  simp only [Option.some_bind]
  rw [s5, progressToken_eq]
  rfl

/-- C18: placeholder translation.  For every template `t` and every bound
`fuel` on the iterations of the loop of `str_replace` that is at least the
number of percent signs of `t`, the calls of `main` return: `%s` to `{0}`
(stdout and stderr templates) and `%c` to `{0}` (end template) give the single
pass with that token, the five chained calls on the progress template give
the single left-to-right pass that substitutes the five tokens at once, and
in each result no token of its slot occurs any more.  The block of `main`
that translates the four templates of a configuration returns these results. -/
theorem placeholder_translation (t : List Nat) (fuel : Nat)
    (hfuel : (cstr t).count 37 ≤ fuel) :
    (str_replace fuel t (bytes "%s") (bytes "{0}") = some (substituteTokens textToken (cstr t))
      ∧ strstr (substituteTokens textToken (cstr t)) (bytes "%s") = none)
    ∧ (str_replace fuel t (bytes "%c") (bytes "{0}") = some (substituteTokens codeToken (cstr t))
      ∧ strstr (substituteTokens codeToken (cstr t)) (bytes "%c") = none)
    ∧ (translateProgress fuel t = some (substituteTokens progressToken (cstr t))
      ∧ ∀ tok ∈ [bytes "%f", bytes "%p", bytes "%t", bytes "%s", bytes "%e"],
          strstr (substituteTokens progressToken (cstr t)) tok = none)
    ∧ ∀ cfg : Config, cfg.progressTemplate = t →
        (cstr cfg.stdoutTemplate).count 37 ≤ fuel → (cstr cfg.stderrTemplate).count 37 ≤ fuel →
        (cstr cfg.endTemplate).count 37 ≤ fuel →
        translateTemplates fuel cfg = some { cfg with
          stdoutTemplate := substituteTokens textToken (cstr cfg.stdoutTemplate),
          stderrTemplate := substituteTokens textToken (cstr cfg.stderrTemplate),
          progressTemplate := substituteTokens progressToken (cstr t),
          endTemplate := substituteTokens codeToken (cstr cfg.endTemplate) } := by
  have g : GoodRep (bytes "{0}") := goodRep_placeholder 48 (by decide)
  have hs : ∀ u : List Nat, (cstr u).count 37 ≤ fuel →
      str_replace fuel u (bytes "%s") (bytes "{0}")
        = some (substituteTokens textToken (cstr u)) := fun u hu =>
    str_replace_pass 115 (by decide) (by decide) _ g fuel u hu
  have hc : ∀ u : List Nat, (cstr u).count 37 ≤ fuel →
      str_replace fuel u (bytes "%c") (bytes "{0}")
        = some (substituteTokens codeToken (cstr u)) := fun u hu =>
    str_replace_pass 99 (by decide) (by decide) _ g fuel u hu
  have gs : GoodTokens textToken := goodTokens_single 115 (by decide) _ g
  have gc : GoodTokens codeToken := goodTokens_single 99 (by decide) _ g
  refine ⟨⟨hs t hfuel, ?_⟩, ⟨hc t hfuel, ?_⟩, ⟨translateProgress_pass fuel t hfuel, ?_⟩, ?_⟩
  · exact substituteFrom_no_token textToken gs 115 _ rfl (cstr t) false
  · exact substituteFrom_no_token codeToken gc 99 _ rfl (cstr t) false
  · intro tok htok
    simp only [List.mem_cons, List.mem_singleton, List.mem_nil_iff, or_false] at htok
    rcases htok with rfl | rfl | rfl | rfl | rfl
    · exact substituteFrom_no_token progressToken goodTokens_progress 102 _ rfl (cstr t) false
    · exact substituteFrom_no_token progressToken goodTokens_progress 112 _ rfl (cstr t) false
    · exact substituteFrom_no_token progressToken goodTokens_progress 116 _ rfl (cstr t) false
    · exact substituteFrom_no_token progressToken goodTokens_progress 115 _ rfl (cstr t) false
    · exact substituteFrom_no_token progressToken goodTokens_progress 101 _ rfl (cstr t) false
  · intro cfg hp ho he hend
    unfold translateTemplates
    rw [hs _ ho, hs _ he, hc _ hend, hp, translateProgress_pass fuel t hfuel]
    rfl

/-- The templates of `--js` with five iterations allowed: the translation
returns, and the progress template becomes the one with `{0}` to `{4}`. -/
theorem placeholder_translation_witness :
    (cstr JS_PROGRESS_TEMPLATE).count 37 ≤ 5
    ∧ translateProgress 5 JS_PROGRESS_TEMPLATE
        = some (substituteTokens progressToken (cstr JS_PROGRESS_TEMPLATE))
    ∧ substituteTokens progressToken (cstr JS_PROGRESS_TEMPLATE)
        = bytes "sp.setProgress(\"{0}\", {1}, \"{2}\", \"{3}\", \"{4}\");\n" :=
  ⟨by decide, (placeholder_translation JS_PROGRESS_TEMPLATE 5 (by decide)).2.2.1.1, by decide⟩

/-! ## The start template is written as it is -/

theorem plain_text_decoded : ∀ (l : List Nat), (∀ b ∈ l, b ≠ 92 ∧ b ≠ 123) →
    hasPlaceholderFrom false l = false ∧ decodeEscapesFrom false l = l
  | [], _ => ⟨rfl, rfl⟩
  | c :: rest, h => by
    have hc := h c (List.mem_cons_self _ _)
    have ih := plain_text_decoded rest (fun b hb => h b (List.mem_cons_of_mem _ hb))
    simp [hasPlaceholderFrom, decodeEscapesFrom, hc.1, hc.2, ih.1, ih.2]

/-- A template without backslash and opening brace is written as it is. -/
theorem printfmt_plain_text (escapeJs charSigned : Bool) (nparam : Nat)
    (format : List Nat) (params : List (List Nat))
    (h : ∀ b ∈ cstr format, b ≠ 92 ∧ b ≠ 123) :
    printfmt escapeJs charSigned nparam format params = ⟨cstr format, .done⟩ := by
  obtain ⟨h1, h2⟩ := plain_text_decoded (cstr format) h
  have hs := noPlaceholder_segments (cstr format) false h1
  simp only [Bool.false_eq_true, if_false] at hs
  unfold printfmt
  rw [printfmtLoop_spec escapeJs charSigned (params.take nparam) format .literal false false 0
    rfl rfl (by simp) (by rw [hs.1]; exact indicesBelow_map_lit _ _)]
  rw [hs.1, hs.2, renderSegments_map_lit, h2]
  rfl

set_option maxRecDepth 100000 in
/-- C19, as stated, fails: with the start template `S\n` (an `S`, a backslash
and an `n`) the first progress update writes `S`, the backslash and the `n`
before the progress rendering `5` and newline, where the template engine
applied to that template with zero parameters writes `S` and a newline. -/
theorem start_template_escape_kept :
    (stdoutLine startExampleConfig false (bytes "f 5% a b c\r")).2 = bytes "S\\n5\n" ∧
    (printfmt false true 0 startExampleConfig.startTemplate []).out = bytes "S\n" ∧
    (printfmt false true 5 startExampleConfig.progressTemplate
      (progressParams (scanFields (bytes "f 5% a b c\r" ++ [0]) 11))).out = bytes "5\n" := by
  decide

/-- C19, amended: on the first progress update the start template is written
byte for byte, without decoding escape directives and without reading
placeholders, immediately before the rendering of the progress template; this
is what the template engine writes for the start template with zero
parameters whenever the start template holds no backslash and no opening
brace. -/
theorem start_template_verbatim (cfg : Config) (line : List Nat)
    (h : isProgress (scanFields (line ++ [0]) line.length) = true) :
    (stdoutLine cfg false line).2 =
      cstr cfg.startTemplate ++
        (printfmt cfg.escapeJs cfg.charSigned 5 cfg.progressTemplate
          (progressParams (scanFields (line ++ [0]) line.length))).out ∧
    ((∀ b ∈ cstr cfg.startTemplate, b ≠ 92 ∧ b ≠ 123) →
      (printfmt cfg.escapeJs cfg.charSigned 0 cfg.startTemplate []).out
        = cstr cfg.startTemplate) := by
  constructor
  · unfold stdoutLine
    simp [h]
  · intro hp
    rw [printfmt_plain_text _ _ _ _ _ hp]

set_option maxRecDepth 100000 in
/-- The start template of `--js` on a first progress update. -/
theorem start_template_verbatim_witness :
    isProgress (scanFields (bytes "f 5% a b c\r" ++ [0]) (bytes "f 5% a b c\r").length) = true ∧
    (stdoutLine (jsConfig true) false (bytes "f 5% a b c\r")).2 =
      cstr JS_START_TEMPLATE ++
        (printfmt true true 5 JS_PROGRESS_TEMPLATE
          (progressParams (scanFields (bytes "f 5% a b c\r" ++ [0])
            (bytes "f 5% a b c\r").length))).out :=
  ⟨by decide, (start_template_verbatim (jsConfig true) (bytes "f 5% a b c\r") (by decide)).1⟩

/-! ## Translated templates render safely -/

theorem emit_status (o : List Nat) (r : FmtResult) : (r.emit o).status = r.status := rfl

/-- The loop of `printfmt` on one byte that is no opening brace, outside a
placeholder: the status is the one of the rest of the loop, run with or
without a pending escape. -/
theorem printfmtLoop_plain_byte (escapeJs charSigned : Bool) (params : List (List Nat))
    (c : Nat) (rest : List Nat) (hc : c ≠ 123) (e : Bool) (idx : Int)
    (h : ∀ (e2 : Bool) (idx2 : Int),
      (printfmtLoop escapeJs charSigned params rest false e2 idx2).status = .done) :
    (printfmtLoop escapeJs charSigned params (c :: rest) false e idx).status = .done := by
  unfold printfmtLoop
  by_cases h0 : c = 0
  · simp [h0]
  · rw [if_neg h0]
    cases e with
    | true => simpa [emit_status] using h false idx
    | false =>
      simp only [Bool.false_eq_true, if_false, hc]
      by_cases hb : c = 92
      · rw [if_pos hb]
        exact h true idx
      · rw [if_neg hb, emit_status]
        exact h false idx

/-- The loop of `printfmt` on a placeholder `{d}` written by the translation:
read as a placeholder its index is inside the array, and after a pending
escape it is written as text. -/
theorem printfmtLoop_placeholder (escapeJs charSigned : Bool) (params : List (List Nat))
    (d : Nat) (hd : d < params.length) (hd9 : d ≤ 9) (rest : List Nat) (e : Bool) (idx : Int)
    (h : ∀ (e2 : Bool) (idx2 : Int),
      (printfmtLoop escapeJs charSigned params rest false e2 idx2).status = .done) :
    (printfmtLoop escapeJs charSigned params (123 :: (48 + d) :: 125 :: rest) false e idx).status
      = .done := by
  cases e with
  | true =>
    have h1 : (printfmtLoop escapeJs charSigned params (125 :: rest) false false idx).status
        = .done := printfmtLoop_plain_byte _ _ _ 125 rest (by decide) false idx h
    have h2 : (printfmtLoop escapeJs charSigned params ((48 + d) :: 125 :: rest) false false
        idx).status = .done := by
      unfold printfmtLoop
      have a0 : 48 + d ≠ 0 := by omega
      have a1 : 48 + d ≠ 123 := by omega
      have a2 : 48 + d ≠ 92 := by omega
      simp only [a0, a1, a2, if_false, Bool.false_eq_true, emit_status]
      exact h1
    unfold printfmtLoop
    simp only [show (123 : Nat) ≠ 0 by decide, if_false, if_true, emit_status]
    exact h2
  | false =>
    have hp : paramAt params (d : Int) = some (params.get ⟨d, hd⟩) := by
      unfold paramAt
      rw [if_pos (Int.ofNat_nonneg d)]
      simp [List.get?_eq_get hd]
    have hw : wrap32 (0 * 10 + (((48 + d : Nat) : Int) - 48)) = (d : Int) := by
      unfold wrap32
      omega
    have h3 : (printfmtLoop escapeJs charSigned params (125 :: rest) true false (d : Int)).status
        = .done := by
      unfold printfmtLoop
      simp only [show (125 : Nat) ≠ 0 by decide, if_false, Bool.false_eq_true, if_true,
        show ¬ (48 ≤ 125 ∧ 125 ≤ 57) by decide, hp, emit_status]
      exact h false _
    have h2 : (printfmtLoop escapeJs charSigned params ((48 + d) :: 125 :: rest) true false
        0).status = .done := by
      unfold printfmtLoop
      have a0 : 48 + d ≠ 0 := by omega
      have a1 : 48 ≤ 48 + d ∧ 48 + d ≤ 57 := by omega
      simp only [a0, a1, if_false, Bool.false_eq_true, if_true, and_self, hw]
      exact h3
    unfold printfmtLoop
    simp only [show (123 : Nat) ≠ 0 by decide, if_false, Bool.false_eq_true, if_true]
    exact h2

/-- The output of the substitution pass over a text without opening brace is
rendered to the end by the loop of `printfmt`, whatever the pending escape. -/
theorem printfmtLoop_substituted (escapeJs charSigned : Bool) (params : List (List Nat))
    (m : Nat → Option (List Nat)) (hm : SafeTokens params.length m) :
    ∀ (s : List Nat), 123 ∉ s → ∀ (p e : Bool) (idx : Int),
      (printfmtLoop escapeJs charSigned params (substituteFrom m p s) false e idx).status
        = .done := by
  intro s
  induction s with
  | nil =>
    intro _ p e idx
    cases p with
    | false => simp [substituteFrom, printfmtLoop]
    | true =>
      have : substituteFrom m true [] = [37] := by simp [substituteFrom]
      rw [this]
      exact printfmtLoop_plain_byte _ _ _ 37 [] (by decide) e idx
        (fun _ _ => by simp [printfmtLoop])
  | cons c rest ih =>
    intro hs p e idx
    simp only [List.mem_cons, not_or] at hs
    have hc : c ≠ 123 := fun h => hs.1 h.symm
    have ihr := ih hs.2
    have hfalse : ∀ (e2 : Bool) (idx2 : Int),
        (printfmtLoop escapeJs charSigned params (substituteFrom m false (c :: rest)) false e2
          idx2).status = .done := by
      intro e2 idx2
      by_cases h37 : c = 37
      · have : substituteFrom m false (c :: rest) = substituteFrom m true rest := by
          simp [substituteFrom, h37]
        rw [this]
        exact ihr true e2 idx2
      · have : substituteFrom m false (c :: rest) = c :: substituteFrom m false rest := by
          simp [substituteFrom, h37]
        rw [this]
        exact printfmtLoop_plain_byte _ _ _ c _ hc e2 idx2 (ihr false)
    cases p with
    | false => exact hfalse e idx
    | true =>
      cases hmc : m c with
      | some r =>
        obtain ⟨d, hd, hd9, rfl⟩ := hm c r hmc
        have : substituteFrom m true (c :: rest)
            = 123 :: (48 + d) :: 125 :: substituteFrom m false rest := by
          simp [substituteFrom, hmc]
        rw [this]
        exact printfmtLoop_placeholder _ _ _ d hd hd9 _ e idx (ihr false)
      | none =>
        rw [substituteFrom_pending m c rest hmc]
        exact printfmtLoop_plain_byte _ _ _ 37 _ (by decide) e idx hfalse

theorem wellFormed_plain_byte (n : Nat) (c : Nat) (rest : List Nat) (hc : c ≠ 123) (e : Bool)
    (h : ∀ e2 : Bool, WellFormedFrom n e2 rest) : WellFormedFrom n e (c :: rest) := by
  have hf := h false
  have ht := h true
  unfold WellFormedFrom at hf ht ⊢
  simp only [Bool.false_eq_true, if_false, if_true] at hf ht
  cases e with
  | true =>
    simp only [if_true, malformedFrom, segmentsFrom]
    exact ⟨hf.1, by simpa [indicesBelow] using hf.2⟩
  | false =>
    simp only [Bool.false_eq_true, if_false, malformedFrom, segmentsFrom, hc]
    by_cases hb : c = 92
    · simp only [hb, if_true]
      exact ht
    · simp only [hb, if_false]
      exact ⟨hf.1, by simpa [indicesBelow] using hf.2⟩

theorem wellFormed_placeholder (n : Nat) (d : Nat) (hd : d < n) (hd9 : d ≤ 9) (rest : List Nat)
    (e : Bool) (h : ∀ e2 : Bool, WellFormedFrom n e2 rest) :
    WellFormedFrom n e (123 :: (48 + d) :: 125 :: rest) := by
  cases e with
  | true =>
    have h1 : ∀ e2 : Bool, WellFormedFrom n e2 (125 :: rest) := fun e2 =>
      wellFormed_plain_byte n 125 rest (by decide) e2 h
    have h2 : WellFormedFrom n false ((48 + d) :: 125 :: rest) :=
      wellFormed_plain_byte n (48 + d) _ (by omega) false h1
    unfold WellFormedFrom at h2 ⊢
    simp only [Bool.false_eq_true, if_false] at h2
    simp only [if_true, malformedFrom, segmentsFrom]
    exact ⟨h2.1, by simpa [indicesBelow] using h2.2⟩
  | false =>
    have hf := h false
    unfold WellFormedFrom at hf ⊢
    simp only [Bool.false_eq_true, if_false] at hf ⊢
    have a1 : 48 ≤ 48 + d ∧ 48 + d ≤ 57 := by omega
    have a2 : 0 * 10 + (48 + d - 48) = d := by omega
    simp only [malformedFrom, segmentsFrom, show (123 : Nat) ≠ 92 by decide, if_false, if_true,
      a1, and_self, a2, show ¬ (48 ≤ 125 ∧ 125 ≤ 57) by decide]
    exact ⟨hf.1, by simpa [indicesBelow, hd] using hf.2⟩

/-- The output of the substitution pass over a text without opening brace is
a well-formed template. -/
theorem wellFormed_substituted (n : Nat) (m : Nat → Option (List Nat)) (hm : SafeTokens n m) :
    ∀ (s : List Nat), 123 ∉ s → ∀ (p e : Bool), WellFormedFrom n e (substituteFrom m p s) := by
  intro s
  induction s with
  | nil =>
    intro _ p e
    cases p with
    | false => cases e <;> simp [substituteFrom, WellFormedFrom, malformedFrom, segmentsFrom,
        indicesBelow]
    | true =>
      have : substituteFrom m true [] = [37] := by simp [substituteFrom]
      rw [this]
      exact wellFormed_plain_byte n 37 [] (by decide) e
        (fun e2 => by cases e2 <;> simp [WellFormedFrom, malformedFrom, segmentsFrom,
          indicesBelow])
  | cons c rest ih =>
    intro hs p e
    simp only [List.mem_cons, not_or] at hs
    have hc : c ≠ 123 := fun h => hs.1 h.symm
    have ihr := ih hs.2
    have hfalse : ∀ e2 : Bool, WellFormedFrom n e2 (substituteFrom m false (c :: rest)) := by
      intro e2
      by_cases h37 : c = 37
      · have : substituteFrom m false (c :: rest) = substituteFrom m true rest := by
          simp [substituteFrom, h37]
        rw [this]
        exact ihr true e2
      · have : substituteFrom m false (c :: rest) = c :: substituteFrom m false rest := by
          simp [substituteFrom, h37]
        rw [this]
        exact wellFormed_plain_byte n c _ hc e2 (ihr false)
    cases p with
    | false => exact hfalse e
    | true =>
      cases hmc : m c with
      | some r =>
        obtain ⟨d, hd, hd9, rfl⟩ := hm c r hmc
        have : substituteFrom m true (c :: rest)
            = 123 :: (48 + d) :: 125 :: substituteFrom m false rest := by
          simp [substituteFrom, hmc]
        rw [this]
        exact wellFormed_placeholder n d hd hd9 _ e (ihr false)
      | none =>
        rw [substituteFrom_pending m c rest hmc]
        exact wellFormed_plain_byte n 37 _ (by decide) e hfalse

theorem safeTokens_single (n x d : Nat) (hd : d < n) (hd9 : d ≤ 9) :
    SafeTokens n (singleToken x [123, 48 + d, 125]) := by
  intro c r h
  unfold singleToken at h
  split at h
  · exact ⟨d, hd, hd9, (Option.some.inj h).symm⟩
  · cases h

theorem safeTokens_either (n : Nat) (m1 m2 : Nat → Option (List Nat)) (h1 : SafeTokens n m1)
    (h2 : SafeTokens n m2) : SafeTokens n (eitherToken m1 m2) := by
  intro c r h
  unfold eitherToken at h
  cases hc : m1 c with
  | some r1 =>
    have e : r1 = r := by simpa [hc] using h
    exact h1 c r (e ▸ hc)
  | none =>
    rw [hc] at h
    exact h2 c r h

theorem safeTokens_text : SafeTokens 1 textToken :=
  safeTokens_single 1 115 0 (by decide) (by decide)

theorem safeTokens_code : SafeTokens 1 codeToken :=
  safeTokens_single 1 99 0 (by decide) (by decide)

theorem safeTokens_progress : SafeTokens 5 progressToken := by
  rw [progressToken_eq]
  exact safeTokens_either _ _ _ (safeTokens_either _ _ _ (safeTokens_either _ _ _
    (safeTokens_either _ _ _
      (safeTokens_single 5 102 0 (by decide) (by decide))
      (safeTokens_single 5 112 1 (by decide) (by decide)))
      (safeTokens_single 5 116 2 (by decide) (by decide)))
      (safeTokens_single 5 115 3 (by decide) (by decide)))
      (safeTokens_single 5 101 4 (by decide) (by decide))

/-- A template written by the substitution pass with tokens for `nparam`
parameters, rendered by `printfmt` with that many parameters. -/
theorem printfmt_substituted (escapeJs charSigned : Bool) (nparam : Nat)
    (m : Nat → Option (List Nat)) (hm : SafeTokens nparam m) (s : List Nat) (hs : 123 ∉ s)
    (params : List (List Nat)) (hlen : params.length = nparam) :
    (printfmt escapeJs charSigned nparam (substituteTokens m s) params).status = .done := by
  unfold printfmt substituteTokens
  have hl : (params.take nparam).length = nparam := by simp [hlen]
  have hm2 : SafeTokens (params.take nparam).length m := by rw [hl]; exact hm
  exact printfmtLoop_substituted escapeJs charSigned (params.take nparam) m hm2 s hs
    false false 0

/-- C21: translated templates render safely.  For every user template `t`
without an opening brace, and every bound on the iterations of `str_replace`
that is at least the number of percent signs of `t`, the translation of `t`
for each slot returns a template on which `printfmt`, called with the number
of parameters of the slot (1 for stdout, stderr and end, 5 for progress), runs
to the end of the template: it does not return the malformed-template error
and never reads `params` outside `0..nparam-1`.  In the words of the
specification, the translated template is well formed: the scan meets no
malformed placeholder and every placeholder index is below `nparam`. -/
theorem translated_templates_safe (t : List Nat) (fuel : Nat) (hbrace : 123 ∉ cstr t)
    (hfuel : (cstr t).count 37 ≤ fuel) (escapeJs charSigned : Bool) :
    (∃ r, str_replace fuel t (bytes "%s") (bytes "{0}") = some r ∧
      (∀ params : List (List Nat), params.length = 1 →
        (printfmt escapeJs charSigned 1 r params).status = .done) ∧
      WellFormedFrom 1 false r) ∧
    (∃ r, str_replace fuel t (bytes "%c") (bytes "{0}") = some r ∧
      (∀ params : List (List Nat), params.length = 1 →
        (printfmt escapeJs charSigned 1 r params).status = .done) ∧
      WellFormedFrom 1 false r) ∧
    (∃ r, translateProgress fuel t = some r ∧
      (∀ params : List (List Nat), params.length = 5 →
        (printfmt escapeJs charSigned 5 r params).status = .done) ∧
      WellFormedFrom 5 false r) := by
  have g : GoodRep (bytes "{0}") := goodRep_placeholder 48 (by decide)
  refine ⟨⟨_, str_replace_pass 115 (by decide) (by decide) _ g fuel t hfuel, ?_, ?_⟩,
    ⟨_, str_replace_pass 99 (by decide) (by decide) _ g fuel t hfuel, ?_, ?_⟩,
    ⟨_, translateProgress_pass fuel t hfuel, ?_, ?_⟩⟩
  · intro params hlen
    exact printfmt_substituted escapeJs charSigned 1 _ safeTokens_text (cstr t) hbrace params hlen
  · exact wellFormed_substituted 1 _ safeTokens_text (cstr t) hbrace false false
  · intro params hlen
    exact printfmt_substituted escapeJs charSigned 1 _ safeTokens_code (cstr t) hbrace params hlen
  · exact wellFormed_substituted 1 _ safeTokens_code (cstr t) hbrace false false
  · intro params hlen
    exact printfmt_substituted escapeJs charSigned 5 _ safeTokens_progress (cstr t) hbrace
      params hlen
  · exact wellFormed_substituted 5 _ safeTokens_progress (cstr t) hbrace false false

/-- The progress template of `--js` has no opening brace and five percent
signs: its translation is rendered to the end with five parameters. -/
theorem translated_templates_safe_witness :
    123 ∉ cstr JS_PROGRESS_TEMPLATE ∧ (cstr JS_PROGRESS_TEMPLATE).count 37 ≤ 5 ∧
    (∃ r, translateProgress 5 JS_PROGRESS_TEMPLATE = some r ∧
      (∀ params : List (List Nat), params.length = 5 →
        (printfmt true true 5 r params).status = .done) ∧
      WellFormedFrom 5 false r) :=
  ⟨by decide, by decide,
    (translated_templates_safe JS_PROGRESS_TEMPLATE 5 (by decide) (by decide) true true).2.2⟩

/-! ## End to end: a progress line by terminator -/

/-- A progress line of five fields separated by single spaces, handed to the
line handling without terminator or completed by a carriage return, rendered
with the user template and with the translated default template. -/
theorem progressLine_rendered (charSigned shown : Bool)
    (f0 p f2 f3 f4 term : List Nat) (h0 : IsField f0)
    (hp : ∀ c ∈ p, c ≠ 0 ∧ c ≠ 32 ∧ c ≠ 13) (h2 : IsField f2) (h3 : IsField f3)
    (h4 : IsField f4) (hterm : term = [] ∨ term = [13])
    (hlen : (progressLine f0 p f2 f3 f4 ++ term).length < STDOUT_BUFSIZE) :
    stdoutLine { txtConfig charSigned with progressTemplate := colonTemplate } shown
        (progressLine f0 p f2 f3 f4 ++ term) =
      (true, f0 ++ [58] ++ p ++ [58] ++ f2 ++ [58] ++ f3 ++ [58] ++ f4 ++ [10]) ∧
    stdoutLine { txtConfig charSigned with progressTemplate := bytes "{1}\n" } shown
        (progressLine f0 p f2 f3 f4 ++ term) = (true, p ++ [10]) := by
  refine ⟨?_, ?_⟩
  all_goals
    have hnul := progressLine_no_nul f0 p f2 f3 f4 term h0 hp h2 h3 h4 hterm
    have htok := tokenize_progressLine f0 p f2 f3 f4 term h0 hp h2 h3 h4 hterm
    have hcl := classify_long _ hnul hlen f0 p f2 f3 f4 37 [] htok
    have hprog := hcl.1
    have hpar := hcl.2 rfl
    rw [decide_eq_true rfl] at hprog
    unfold stdoutLine
    simp only [hprog, if_true]
    generalize progressParams (scanFields (progressLine f0 p f2 f3 f4 ++ term ++ [0])
      (progressLine f0 p f2 f3 f4 ++ term).length) = values at hpar
    rcases values with _ | ⟨v0, _ | ⟨v1, _ | ⟨v2, _ | ⟨v3, _ | ⟨v4, _ | ⟨v5, vs⟩⟩⟩⟩⟩⟩
    all_goals try (simp at hpar; done)
    simp only [List.map_cons, List.map_nil, List.cons.injEq, and_true] at hpar
    obtain ⟨e0, e1, e2, e3, e4⟩ := hpar
  · have hs := printfmt_spec false charSigned 5 colonTemplate [v0, v1, v2, v3, v4] rfl
      (by omega) (by rw [segments_colonTemplate]; decide)
    rw [segments_colonTemplate] at hs
    simp only [txtConfig]
    rw [hs]
    have hst : cstr TXT_START_TEMPLATE = [] := by decide
    simp [renderSegments, segmentText, e0, e1, e2, e3, e4, hst]
  · have hs := printfmt_spec false charSigned 5 (bytes "{1}\n") [v0, v1, v2, v3, v4] rfl
      (by omega) (by rw [segments_defaultTemplate]; decide)
    rw [segments_defaultTemplate] at hs
    simp only [txtConfig]
    rw [hs]
    have hst : cstr TXT_START_TEMPLATE = [] := by decide
    simp [renderSegments, segmentText, e1, hst]

theorem isField_newline (f : List Nat) (h : IsField f) : IsField (f ++ [10]) := by
  refine ⟨by simp, ?_⟩
  intro c hc
  rcases List.mem_append.mp hc with h1 | h1
  · exact h.2 c h1
  · simp at h1
    omega

theorem progressLine_newline (f0 p f2 f3 f4 : List Nat) :
    progressLine f0 p f2 f3 f4 ++ [10] = progressLine f0 p f2 f3 (f4 ++ [10]) ++ [] := by
  simp [progressLine]

/-- A residual is written through the stdout template, which is empty in the
plain configuration. -/
theorem drain_plain_templates (charSigned : Bool) (progressTemplate : List Nat) (st : State)
    (herr : st.stderrBuf = []) :
    drain { txtConfig charSigned with progressTemplate := progressTemplate } st = [] := by
  have h1 : ∀ params, (printfmt false charSigned 1 (bytes "") params).out = [] := by
    intro params
    rfl
  unfold drain
  simp only [herr, List.length_nil, ne_eq, not_true_eq_false, if_false, List.nil_append, txtConfig,
    TXT_STDOUT_TEMPLATE, h1]
  split <;> rfl

set_option maxRecDepth 100000 in
/-- C3, as stated, fails: the line `myfile.txt 50% 2112KB 2.1MB/s 00:50`
completed by a newline is written by the user template with two newlines, the
one of the line, which stays in the fifth field, and the one of the template;
left without terminator at the end of the run it is not classified, and with
the empty stdout template nothing is written. -/
theorem progress_line_newline_twice :
    translateTemplates 1 colonExampleConfig = some colonExampleConfig ∧
    stdoutLine colonExampleConfig false (bytes "myfile.txt 50% 2112KB 2.1MB/s 00:50\n") =
      (true, bytes "myfile.txt:50:2112KB:2.1MB/s:00:50\n\n") ∧
    run colonExampleConfig (stdoutExampleEvents (bytes "myfile.txt 50% 2112KB 2.1MB/s 00:50\n"))
      (.exited 0) = some { out := bytes "myfile.txt:50:2112KB:2.1MB/s:00:50\n\n", exitCode := 0 } ∧
    run colonExampleConfig (stdoutExampleEvents (bytes "myfile.txt 50% 2112KB 2.1MB/s 00:50"))
      (.exited 0) = some { out := [], exitCode := 0 } := by
  decide

/-- C3, amended: a progress line of five fields separated by single spaces
whose second field ends in a percent sign is rendered according to how it
reaches the line handling.  Completed by a carriage return, or cut by the
capacity rule without terminator, the user template `{0}:{1}:{2}:{3}:{4}\n`
writes the five fields joined by colons (percent sign removed) and one
newline; completed by a newline, the newline stays in the fifth field and the
user template writes two newlines; in all three cases the default plain
template, after translation, writes the percentage and one newline.  Left as a
residual at the end of the run the line is not classified, and nothing is
written for it with these configurations, whose stdout template is empty. -/
theorem progress_line_end_to_end (charSigned shown : Bool) (fuel : Nat)
    (f0 p f2 f3 f4 term : List Nat) (h0 : IsField f0)
    (hp : ∀ c ∈ p, c ≠ 0 ∧ c ≠ 32 ∧ c ≠ 13) (h2 : IsField f2) (h3 : IsField f3)
    (h4 : IsField f4) (hterm : term = [] ∨ term = [13] ∨ term = [10])
    (hlen : (progressLine f0 p f2 f3 f4 ++ term).length < STDOUT_BUFSIZE) :
    ∃ cfgUser cfgDefault : Config,
      translateTemplates (fuel + 1)
        { txtConfig charSigned with progressTemplate := colonTemplate } = some cfgUser ∧
      translateTemplates (fuel + 1) (txtConfig charSigned) = some cfgDefault ∧
      stdoutLine cfgUser shown (progressLine f0 p f2 f3 f4 ++ term) =
        (true, f0 ++ [58] ++ p ++ [58] ++ f2 ++ [58] ++ f3 ++ [58] ++ f4 ++
          (if term = [10] then [10] else []) ++ [10]) ∧
      stdoutLine cfgDefault shown (progressLine f0 p f2 f3 f4 ++ term) = (true, p ++ [10]) ∧
      (∀ st : State, st.stdoutBuf = progressLine f0 p f2 f3 f4 → st.stderrBuf = [] →
        drain cfgUser st = [] ∧ drain cfgDefault st = []) := by
  refine ⟨_, _, translate_colonTemplate charSigned (fuel + 1), translate_default charSigned fuel,
    ?_, ?_, ?_⟩
  · rcases hterm with rfl | rfl | rfl
    · have := (progressLine_rendered charSigned shown f0 p f2 f3 f4 [] h0 hp h2 h3 h4
        (Or.inl rfl) hlen).1
      simpa using this
    · have := (progressLine_rendered charSigned shown f0 p f2 f3 f4 [13] h0 hp h2 h3 h4
        (Or.inr rfl) hlen).1
      simpa using this
    · rw [progressLine_newline] at hlen ⊢
      have := (progressLine_rendered charSigned shown f0 p f2 f3 (f4 ++ [10]) [] h0 hp h2 h3
        (isField_newline f4 h4) (Or.inl rfl) hlen).1
      simpa using this
  · rcases hterm with rfl | rfl | rfl
    · exact (progressLine_rendered charSigned shown f0 p f2 f3 f4 [] h0 hp h2 h3 h4
        (Or.inl rfl) hlen).2
    · exact (progressLine_rendered charSigned shown f0 p f2 f3 f4 [13] h0 hp h2 h3 h4
        (Or.inr rfl) hlen).2
    · rw [progressLine_newline] at hlen ⊢
      exact (progressLine_rendered charSigned shown f0 p f2 f3 (f4 ++ [10]) [] h0 hp h2 h3
        (isField_newline f4 h4) (Or.inl rfl) hlen).2
  · intro st _ herr
    exact ⟨drain_plain_templates charSigned _ st herr, drain_plain_templates charSigned _ st herr⟩

set_option maxRecDepth 100000 in
/-- The line `myfile.txt 50% 2112KB 2.1MB/s 00:50` completed by a carriage
return. -/
theorem progress_line_end_to_end_witness :
    ∃ cfgUser cfgDefault : Config,
      translateTemplates 1 { txtConfig true with progressTemplate := colonTemplate } =
        some cfgUser ∧
      translateTemplates 1 (txtConfig true) = some cfgDefault ∧
      stdoutLine cfgUser false (bytes "myfile.txt 50% 2112KB 2.1MB/s 00:50\r") =
        (true, bytes "myfile.txt:50:2112KB:2.1MB/s:00:50\n") ∧
      stdoutLine cfgDefault false (bytes "myfile.txt 50% 2112KB 2.1MB/s 00:50\r") =
        (true, bytes "50\n") ∧
      (∀ st : State, st.stdoutBuf = bytes "myfile.txt 50% 2112KB 2.1MB/s 00:50" →
        st.stderrBuf = [] → drain cfgUser st = [] ∧ drain cfgDefault st = []) :=
  progress_line_end_to_end true false 0 (bytes "myfile.txt") (bytes "50") (bytes "2112KB")
    (bytes "2.1MB/s") (bytes "00:50") [13] ⟨by decide, by decide⟩ (by decide)
    ⟨by decide, by decide⟩ ⟨by decide, by decide⟩ ⟨by decide, by decide⟩ (Or.inr (Or.inl rfl))
    (by decide)

/-! ## Line terminators and the templates -/

theorem takeWhile_append_cases (q : Nat → Bool) (s : List Nat) : ∀ (l : List Nat),
    (l ++ s).takeWhile q = (if l.dropWhile q = [] then l ++ s.takeWhile q else l.takeWhile q) ∧
    (l ++ s).dropWhile q = (if l.dropWhile q = [] then s.dropWhile q else l.dropWhile q ++ s)
  | [] => by simp
  | a :: l => by
    have ih := takeWhile_append_cases q s l
    by_cases ha : q a = true
    · simp only [List.cons_append, List.takeWhile_cons_of_pos ha, List.dropWhile_cons_of_pos ha,
        ih.1, ih.2]
      by_cases hd : l.dropWhile q = []
      · simp [hd]
      · simp [hd]
    · simp [List.takeWhile_cons_of_neg ha, List.dropWhile_cons_of_neg ha]

theorem takeWhile_of_dropWhile_nil (q : Nat → Bool) (l : List Nat) (h : l.dropWhile q = []) :
    l.takeWhile q = l := by
  have := List.takeWhile_append_dropWhile q l
  rw [h, List.append_nil] at this
  exact this

/-- A carriage return at the end of a line adds no field. -/
theorem tokenize_snoc_cr : ∀ (n : Nat) (l : List Nat), l.length ≤ n →
    tokenize (l ++ [13]) = tokenize l := by
  intro n
  induction n with
  | zero =>
    intro l hl
    have : l = [] := List.length_eq_zero.mp (Nat.le_zero.mp hl)
    subst this
    exact tokenize_cons_delim 13 [] (Or.inr rfl)
  | succ n ih =>
    intro l hl
    cases l with
    | nil => exact tokenize_cons_delim 13 [] (Or.inr rfl)
    | cons c rest =>
      by_cases hc : c = 32 ∨ c = 13
      · rw [List.cons_append, tokenize_cons_delim c _ hc, tokenize_cons_delim c _ hc]
        exact ih rest (by simpa using hl)
      · rw [List.cons_append, tokenize_cons_field c _ hc, tokenize_cons_field c _ hc]
        have hcases := takeWhile_append_cases (fun c => !isDelimiter c) [13] rest
        by_cases hd : rest.dropWhile (fun c => !isDelimiter c) = []
        · rw [hcases.1, hcases.2, if_pos hd, if_pos hd, hd,
            takeWhile_of_dropWhile_nil _ rest hd]
          have h13 : [13].takeWhile (fun c => !isDelimiter c) = [] := by decide
          have h13d : [13].dropWhile (fun c => !isDelimiter c) = [13] := by decide
          rw [h13, h13d, List.append_nil, tokenize_cons_delim 13 [] (Or.inr rfl)]
        · rw [hcases.1, hcases.2, if_neg hd, if_neg hd]
          have hlen : (rest.dropWhile (fun c => !isDelimiter c)).length ≤ n := by
            have := (List.dropWhile_sublist (fun c => !isDelimiter c) (l := rest)).length_le
            simp only [List.length_cons] at hl
            omega
          rw [ih _ hlen]

/-- A newline at the end of a line is the last byte of the last field. -/
theorem tokenize_snoc_newline : ∀ (n : Nat) (l : List Nat), l.length ≤ n →
    ∃ init last, tokenize (l ++ [10]) = init ++ [last ++ [10]] := by
  have h10 : ¬ ((10 : Nat) = 32 ∨ (10 : Nat) = 13) := by decide
  have base : tokenize ([] ++ [10]) = [] ++ [[] ++ [10]] := by
    rw [List.nil_append, tokenize_cons_field 10 [] h10]
    simp [tokenize_nil]
  intro n
  induction n with
  | zero =>
    intro l hl
    have : l = [] := List.length_eq_zero.mp (Nat.le_zero.mp hl)
    subst this
    exact ⟨[], [], base⟩
  | succ n ih =>
    intro l hl
    cases l with
    | nil => exact ⟨[], [], base⟩
    | cons c rest =>
      by_cases hc : c = 32 ∨ c = 13
      · rw [List.cons_append, tokenize_cons_delim c _ hc]
        exact ih rest (by simpa using hl)
      · rw [List.cons_append, tokenize_cons_field c _ hc]
        have hcases := takeWhile_append_cases (fun c => !isDelimiter c) [10] rest
        by_cases hd : rest.dropWhile (fun c => !isDelimiter c) = []
        · rw [hcases.1, hcases.2, if_pos hd, if_pos hd]
          have h10t : [10].takeWhile (fun c => !isDelimiter c) = [10] := by decide
          have h10d : [10].dropWhile (fun c => !isDelimiter c) = [] := by decide
          rw [h10t, h10d, tokenize_nil]
          exact ⟨[], c :: rest, rfl⟩
        · rw [hcases.1, hcases.2, if_neg hd, if_neg hd]
          have hlen : (rest.dropWhile (fun c => !isDelimiter c)).length ≤ n := by
            have := (List.dropWhile_sublist (fun c => !isDelimiter c) (l := rest)).length_le
            simp only [List.length_cons] at hl
            omega
          obtain ⟨init, last, h⟩ := ih _ hlen
          exact ⟨(c :: rest.takeWhile (fun c => !isDelimiter c)) :: init, last, by rw [h]; rfl⟩

theorem classifySpec_snoc_cr (l : List Nat) : classifySpec (l ++ [13]) = classifySpec l := by
  unfold classifySpec
  rw [tokenize_snoc_cr l.length l (Nat.le_refl _)]

/-- C17, amended: only a carriage return that ends a progress update is
stripped.  A line without NUL byte completed by a carriage return or a
newline reaches the stdout and stderr templates with that terminator: the
value substituted for `{0}` is the whole line, terminator included (escaped by
`printjs` in escaping mode).  So the stderr line `Permission denied`, or any
other, rendered with `ERR:{0}\n` is followed by its own terminator and then by
the newline of the template; with an empty stderr template nothing is written;
a stdout line that is neither a progress update nor a bare terminator is
rendered with the same value; a bare terminator on stdout writes nothing.  A
stdout line classified as a progress update is rendered through the progress
template with the five fields of the classifier as values: completed by a
carriage return these are the fields of the line without its terminator,
completed by a newline they are the fields of the line with the newline as the
last byte of its last token. -/
theorem line_keeps_terminator (cfg : Config) (body : List Nat) (t : Nat)
    (ht : t = 13 ∨ t = 10) (h0 : 0 ∉ body) :
    segmentText cfg.escapeJs cfg.charSigned [body ++ [t] ++ [0]] (.param 0) =
      (if cfg.escapeJs then printjs cfg.charSigned (body ++ [t]) else body ++ [t]) ∧
    (indicesBelow 1 (segmentsFrom .literal (cstr cfg.stderrTemplate)) = true →
      stderrLine cfg (body ++ [t]) =
        ((segmentsFrom .literal (cstr cfg.stderrTemplate)).map
          (segmentText cfg.escapeJs cfg.charSigned [body ++ [t] ++ [0]])).flatten) ∧
    (cfg.escapeJs = false → cstr cfg.stderrTemplate = bytes "ERR:{0}\\n" →
      stderrLine cfg (body ++ [t]) = bytes "ERR:" ++ body ++ [t, 10]) ∧
    (cstr cfg.stderrTemplate = [] → stderrLine cfg (body ++ [t]) = []) ∧
    (indicesBelow 1 (segmentsFrom .literal (cstr cfg.stdoutTemplate)) = true →
      classify (body ++ [t]) = none → body ≠ [] → ∀ shown : Bool,
      stdoutLine cfg shown (body ++ [t]) =
        (shown, ((segmentsFrom .literal (cstr cfg.stdoutTemplate)).map
          (segmentText cfg.escapeJs cfg.charSigned [body ++ [t] ++ [0]])).flatten)) ∧
    (body = [] → ∀ shown : Bool, stdoutLine cfg shown (body ++ [t]) = (shown, [])) ∧
    (∀ fields, classify (body ++ [t]) = some fields → ∀ shown : Bool,
      stdoutLine cfg shown (body ++ [t]) =
        (true, (if shown then [] else cstr cfg.startTemplate) ++
          (printfmt cfg.escapeJs cfg.charSigned 5 cfg.progressTemplate
            (progressParams (scanFields (body ++ [t] ++ [0]) (body ++ [t]).length))).out) ∧
      (progressParams (scanFields (body ++ [t] ++ [0]) (body ++ [t]).length)).map cstr
        = fields) ∧
    ((body ++ [t]).length < STDOUT_BUFSIZE →
      (t = 13 → classify (body ++ [t]) = classifySpec body) ∧
      (t = 10 → classify (body ++ [t]) = classifySpec (body ++ [10]) ∧
        ∃ init last, tokenize (body ++ [10]) = init ++ [last ++ [10]])) := by
  have ht0 : t ≠ 0 := by omega
  have hline0 : 0 ∉ body ++ [t] := by
    intro h
    rcases List.mem_append.mp h with h | h
    · exact h0 h
    · simp at h; exact ht0 h.symm
  have hcstr : cstr (body ++ [t] ++ [0]) = body ++ [t] := cstr_append_zero _ [] hline0
  have hval : segmentText cfg.escapeJs cfg.charSigned [body ++ [t] ++ [0]] (.param 0) =
      (if cfg.escapeJs then printjs cfg.charSigned (body ++ [t]) else body ++ [t]) := by
    have hpj : printjs cfg.charSigned (body ++ [t] ++ [0]) =
        printjs cfg.charSigned (body ++ [t]) := by
      rw [show body ++ [t] ++ [0] = (body ++ [t]) ++ 0 :: [] from rfl, printjs_append_zero,
        cstr_no_nul _ hline0]
    simp only [segmentText, List.getD_cons_zero, hcstr, hpj]
  have herr : ∀ (tpl : List Nat),
      indicesBelow 1 (segmentsFrom .literal (cstr tpl)) = true →
      (printfmt cfg.escapeJs cfg.charSigned 1 tpl [body ++ [t] ++ [0]]).out =
        ((segmentsFrom .literal (cstr tpl)).map
          (segmentText cfg.escapeJs cfg.charSigned [body ++ [t] ++ [0]])).flatten := by
    intro tpl hidx
    rw [printfmt_spec cfg.escapeJs cfg.charSigned 1 tpl [body ++ [t] ++ [0]] rfl (by omega) hidx,
      flatten_map_segmentText]
  refine ⟨hval, ?_, ?_, ?_, ?_, ?_, ?_, ?_⟩
  · intro hidx
    unfold stderrLine
    exact herr _ hidx
  · intro hjs htpl
    unfold stderrLine
    have hseg : segmentsFrom .literal (cstr cfg.stderrTemplate) =
        [.lit 69, .lit 82, .lit 82, .lit 58, .param 0, .lit 10] := by
      rw [htpl]; decide
    rw [herr _ (by rw [hseg]; decide), hseg]
    simp only [List.map_cons, List.map_nil, hval]
    simp [hjs, segmentText, bytes]
  · intro htpl
    unfold stderrLine
    have hseg : segmentsFrom .literal (cstr cfg.stderrTemplate) = [] := by
      rw [htpl]; rfl
    rw [herr _ (by rw [hseg]; rfl), hseg]
    rfl
  · intro hidx hcl hbody shown
    have hp := (classify_none_iff _).mp hcl
    unfold stdoutLine
    simp only [hp, Bool.false_eq_true, if_false]
    rw [if_pos, herr _ hidx]
    rw [hcstr]
    constructor
    · intro h
      have := congrArg List.length h
      simp at this
      exact hbody this
    · intro h
      have := congrArg List.length h
      simp at this
      exact hbody this
  · intro hbody shown
    subst hbody
    have hb := bare_terminator_not_progress
    rcases ht with rfl | rfl
    · unfold stdoutLine
      simp only [List.nil_append, List.length_singleton, hb.2, Bool.false_eq_true, if_false]
      rw [if_neg]
      intro h
      exact h.2 (by decide)
    · unfold stdoutLine
      simp only [List.nil_append, List.length_singleton, hb.1, Bool.false_eq_true, if_false]
      rw [if_neg]
      intro h
      exact h.1 (by decide)
  · intro fields hcl shown
    unfold classify at hcl
    simp only at hcl
    by_cases hp : isProgress (scanFields (body ++ [t] ++ [0]) (body ++ [t]).length) = true
    · rw [if_pos hp] at hcl
      refine ⟨?_, Option.some.inj hcl⟩
      unfold stdoutLine
      simp only [hp, if_true]
    · rw [if_neg hp] at hcl
      cases hcl
  · intro hlen
    refine ⟨fun h13 => ?_, fun h10 => ?_⟩
    · subst h13
      rw [classify_eq_spec _ hline0 hlen, classifySpec_snoc_cr]
    · subst h10
      exact ⟨classify_eq_spec _ hline0 hlen, tokenize_snoc_newline body.length body (Nat.le_refl _)⟩

/-- The stderr line `Permission denied` completed by a newline, rendered with
`ERR:{0}\n`. -/
theorem line_keeps_terminator_witness :
    stderrLine errExampleConfig (bytes "Permission denied\n") =
      bytes "ERR:Permission denied\n\n" :=
  (line_keeps_terminator errExampleConfig (bytes "Permission denied") 10 (Or.inr rfl)
    (by decide)).2.2.1 rfl (by decide)

end Scpwrap
